import Mathlib

/-! MLIR diagnostics (mlir/lib/IR/Diagnostics.cpp).

A shallow embedding of the diagnostic engine, the in-flight diagnostic wrapper, the parallel
diagnostic handler, the notes of a diagnostic, the choice of the location to show, the
emission of a diagnostic with its call stack and notes through the source manager, the scan
of a buffer for expected diagnostics and the verifier that processes diagnostics against
them, followed by theorems about them.

Conventions of the embedding.
* Every C++ object is a value; a member function that mutates its object returns the new value.
* A call into a collaborator that lives elsewhere (an engine reached through a pointer) is
  recorded as an event in a list, in call order.
* Mutexes are not modelled: every member function runs atomically.
* Values that the diagnostics code only carries around (attributes, types, doubles) are
  handles; the functions that print them are parameters (`ValuePrinter`).
* What a handler writes to its stream is returned as a list of the messages written; the
  regular-expression library and the file system are parameters (`VerifierEnv`,
  `SourceMgrEnv`).
-/

namespace mlir

/-! ## LogicalResult -/

/-- The two-valued result of llvm/Support/LogicalResult.h. -/
inductive LogicalResult where
  | success
  | failure
  deriving DecidableEq, Repr

/-- The helper `failure(bool isFailure = true)`. -/
def failure (isFailure : Bool := true) : LogicalResult :=
  if isFailure then LogicalResult.failure else LogicalResult.success

/-- The helper `success(bool isSuccess = true)`. -/
def success (isSuccess : Bool := true) : LogicalResult :=
  if isSuccess then LogicalResult.success else LogicalResult.failure

/-- The helper `succeeded(result)`. -/
def succeeded (r : LogicalResult) : Bool :=
  match r with
  | LogicalResult.success => true
  | LogicalResult.failure => false

/-- The helper `failed(result)`. -/
def failed (r : LogicalResult) : Bool := !succeeded r

/-! ## Locations -/

/-- The closed family of location kinds the diagnostics code dispatches on. -/
inductive Location where
  | CallSiteLoc (callee caller : Location)
  | FileLineColLoc (filename : String) (line column : Nat)
  | FusedLoc (locations : List Location)
  | NameLoc (name : String) (childLoc : Location)
  | OpaqueLoc (fallbackLocation : Location)
  | UnknownLoc

namespace Location

mutual
/-- Decision procedure for equality of locations. -/
def decEq : (a b : Location) → Decidable (a = b)
  | CallSiteLoc a1 a2, CallSiteLoc b1 b2 =>
    match decEq a1 b1, decEq a2 b2 with
    | isTrue h1, isTrue h2 => isTrue (by rw [h1, h2])
    | isFalse h1, _ => isFalse (by intro h; injection h with e1 e2; exact h1 e1)
    | _, isFalse h2 => isFalse (by intro h; injection h with e1 e2; exact h2 e2)
  | FileLineColLoc f1 l1 c1, FileLineColLoc f2 l2 c2 =>
    if h : f1 = f2 ∧ l1 = l2 ∧ c1 = c2 then isTrue (by rw [h.1, h.2.1, h.2.2])
    else isFalse (by intro e; injection e with e1 e2 e3; exact h ⟨e1, e2, e3⟩)
  | FusedLoc l1, FusedLoc l2 =>
    match decEqList l1 l2 with
    | isTrue h => isTrue (by rw [h])
    | isFalse h => isFalse (by intro e; injection e with e1; exact h e1)
  | NameLoc n1 c1, NameLoc n2 c2 =>
    if hn : n1 = n2 then
      match decEq c1 c2 with
      | isTrue h => isTrue (by rw [hn, h])
      | isFalse h => isFalse (by intro e; injection e with e1 e2; exact h e2)
    else isFalse (by intro e; injection e with e1 e2; exact hn e1)
  | OpaqueLoc a, OpaqueLoc b =>
    match decEq a b with
    | isTrue h => isTrue (by rw [h])
    | isFalse h => isFalse (by intro e; injection e with e1; exact h e1)
  | UnknownLoc, UnknownLoc => isTrue rfl
  | CallSiteLoc .., FileLineColLoc .. => isFalse (by intro h; cases h)
  | CallSiteLoc .., FusedLoc .. => isFalse (by intro h; cases h)
  | CallSiteLoc .., NameLoc .. => isFalse (by intro h; cases h)
  | CallSiteLoc .., OpaqueLoc .. => isFalse (by intro h; cases h)
  | CallSiteLoc .., UnknownLoc => isFalse (by intro h; cases h)
  | FileLineColLoc .., CallSiteLoc .. => isFalse (by intro h; cases h)
  | FileLineColLoc .., FusedLoc .. => isFalse (by intro h; cases h)
  | FileLineColLoc .., NameLoc .. => isFalse (by intro h; cases h)
  | FileLineColLoc .., OpaqueLoc .. => isFalse (by intro h; cases h)
  | FileLineColLoc .., UnknownLoc => isFalse (by intro h; cases h)
  | FusedLoc .., CallSiteLoc .. => isFalse (by intro h; cases h)
  | FusedLoc .., FileLineColLoc .. => isFalse (by intro h; cases h)
  | FusedLoc .., NameLoc .. => isFalse (by intro h; cases h)
  | FusedLoc .., OpaqueLoc .. => isFalse (by intro h; cases h)
  | FusedLoc .., UnknownLoc => isFalse (by intro h; cases h)
  | NameLoc .., CallSiteLoc .. => isFalse (by intro h; cases h)
  | NameLoc .., FileLineColLoc .. => isFalse (by intro h; cases h)
  | NameLoc .., FusedLoc .. => isFalse (by intro h; cases h)
  | NameLoc .., OpaqueLoc .. => isFalse (by intro h; cases h)
  | NameLoc .., UnknownLoc => isFalse (by intro h; cases h)
  | OpaqueLoc .., CallSiteLoc .. => isFalse (by intro h; cases h)
  | OpaqueLoc .., FileLineColLoc .. => isFalse (by intro h; cases h)
  | OpaqueLoc .., FusedLoc .. => isFalse (by intro h; cases h)
  | OpaqueLoc .., NameLoc .. => isFalse (by intro h; cases h)
  | OpaqueLoc .., UnknownLoc => isFalse (by intro h; cases h)
  | UnknownLoc, CallSiteLoc .. => isFalse (by intro h; cases h)
  | UnknownLoc, FileLineColLoc .. => isFalse (by intro h; cases h)
  | UnknownLoc, FusedLoc .. => isFalse (by intro h; cases h)
  | UnknownLoc, NameLoc .. => isFalse (by intro h; cases h)
  | UnknownLoc, OpaqueLoc .. => isFalse (by intro h; cases h)
/-- Decision procedure for equality of lists of locations. -/
def decEqList : (a b : List Location) → Decidable (a = b)
  | [], [] => isTrue rfl
  | [], _ :: _ => isFalse (by intro h; cases h)
  | _ :: _, [] => isFalse (by intro h; cases h)
  | x :: xs, y :: ys =>
    match decEq x y, decEqList xs ys with
    | isTrue h1, isTrue h2 => isTrue (by rw [h1, h2])
    | isFalse h1, _ => isFalse (by intro h; injection h with e1 e2; exact h1 e1)
    | _, isFalse h2 => isFalse (by intro h; injection h with e1 e2; exact h2 e2)
end

instance : DecidableEq Location := decEq

/-- The test `llvm::isa<UnknownLoc>(loc)`. -/
def isUnknownLoc : Location → Bool
  | UnknownLoc => true
  | _ => false

end Location

/-! ## Diagnostic arguments and diagnostics -/

/-- The severities of a diagnostic. -/
inductive DiagnosticSeverity where
  | Note
  | Warning
  | Error
  | Remark
  deriving DecidableEq, Repr

/-- One argument of a diagnostic: the kind tag together with the stored value. Attributes and
types are stored as handles, a double as its bit pattern. The kinds String and Type are
spelled Str and Ty. -/
inductive DiagnosticArgument where
  | Attribute (handle : Nat)
  | Double (bits : Nat)
  | Integer (val : Int)
  | Str (val : String)
  | Ty (handle : Nat)
  | Unsigned (val : Nat)
  deriving DecidableEq, Repr

/-- The stream operators the diagnostics code calls but does not define: how an attribute, a
type, a double and a location are written to a stream. -/
structure ValuePrinter where
  printAttribute : Nat → String
  printType : Nat → String
  printDouble : Nat → String
  printLocation : Location → String

/-- The text `DiagnosticArgument::print` writes to the stream. -/
def DiagnosticArgument.print (P : ValuePrinter) : DiagnosticArgument → String
  | Attribute h => P.printAttribute h
  | Double b => P.printDouble b
  | Integer v => toString v
  | Str s => s
  | Ty h => "'" ++ P.printType h ++ "'"
  | Unsigned v => toString v

/-- A diagnostic record: location, severity, arguments and attached notes. -/
structure Diagnostic where
  loc : Location
  severity : DiagnosticSeverity
  arguments : List DiagnosticArgument
  notes : List Diagnostic

namespace Diagnostic

mutual
/-- Decision procedure for equality of diagnostics. -/
def decEq : (a b : Diagnostic) → Decidable (a = b)
  | ⟨l1, s1, a1, n1⟩, ⟨l2, s2, a2, n2⟩ =>
    if h : l1 = l2 ∧ s1 = s2 ∧ a1 = a2 then
      match decEqList n1 n2 with
      | isTrue hn => isTrue (by rw [h.1, h.2.1, h.2.2, hn])
      | isFalse hn => isFalse (by intro e; injection e with e1 e2 e3 e4; exact hn e4)
    else isFalse (by intro e; injection e with e1 e2 e3 e4; exact h ⟨e1, e2, e3⟩)
/-- Decision procedure for equality of note lists. -/
def decEqList : (a b : List Diagnostic) → Decidable (a = b)
  | [], [] => isTrue rfl
  | [], _ :: _ => isFalse (by intro h; cases h)
  | _ :: _, [] => isFalse (by intro h; cases h)
  | x :: xs, y :: ys =>
    match decEq x y, decEqList xs ys with
    | isTrue h1, isTrue h2 => isTrue (by rw [h1, h2])
    | isFalse h1, _ => isFalse (by intro h; injection h with e1 e2; exact h1 e1)
    | _, isFalse h2 => isFalse (by intro h; injection h with e1 e2; exact h2 e2)
end

instance : DecidableEq Diagnostic := decEq

/-- The constructor `Diagnostic(loc, severity)`: no arguments, no notes. -/
def create (loc : Location) (severity : DiagnosticSeverity) : Diagnostic :=
  ⟨loc, severity, [], []⟩

/-- The accessor `getSeverity()`. -/
def getSeverity (d : Diagnostic) : DiagnosticSeverity := d.severity

/-- The accessor `getLocation()`. -/
def getLocation (d : Diagnostic) : Location := d.loc

/-- The accessor `getArguments()`. -/
def getArguments (d : Diagnostic) : List DiagnosticArgument := d.arguments

/-- The text `Diagnostic::print` writes: every argument in order. -/
def print (P : ValuePrinter) (d : Diagnostic) : String :=
  d.getArguments.foldl (fun os arg => os ++ arg.print P) ""

/-- The member `Diagnostic::str`: the printed diagnostic as a string. -/
def str (P : ValuePrinter) (d : Diagnostic) : String := d.print P

/-- What is left in a diagnostic after `std::move(diag)`: the location and severity are
copied, the argument and note vectors have been taken away. -/
def moved (d : Diagnostic) : Diagnostic := { d with arguments := [], notes := [] }

end Diagnostic

/-! ## DiagnosticEngine -/

/-- Modelled from the spec: the container `llvm::SmallMapVector` (llvm/ADT/MapVector.h) is not
among the sources. The spec describes it as "an ordered associative collection keyed by ID,
insertion order preserved for iteration": a sequence of entries, oldest first, no two of
which have the same key. -/
structure MapVector (K V : Type) where
  entries : List (K × V)
  nodup : (entries.map Prod.fst).Nodup

namespace MapVector

variable {K V : Type}

/-- The empty container. -/
def empty : MapVector K V := ⟨[], List.nodup_nil⟩

/-- The keys in insertion order. -/
def keys (m : MapVector K V) : List K := m.entries.map Prod.fst

/-- Modelled from the spec: `insert` of MapVector.h. A key that is not present gets a new
entry at the end of the sequence; a key that is present keeps the entry it has. -/
def insert [DecidableEq K] (m : MapVector K V) (k : K) (v : V) : MapVector K V :=
  if h : k ∈ m.entries.map Prod.fst then m
  else ⟨m.entries ++ [(k, v)], by
    rw [List.map_append, List.map_singleton, ← List.concat_eq_append]
    exact List.Nodup.concat h m.nodup⟩

/-- Modelled from the spec: `erase(key)` of MapVector.h. The entry of the key, if there is
one, is taken out; the other entries keep their order. -/
def erase [DecidableEq K] (m : MapVector K V) (k : K) : MapVector K V :=
  ⟨m.entries.eraseP (fun e => e.1 == k),
    List.Nodup.sublist (List.Sublist.map Prod.fst (List.eraseP_sublist m.entries)) m.nodup⟩

end MapVector

/-- The type `DiagnosticEngine::HandlerID`, a 64-bit unsigned integer. -/
abbrev HandlerID := Nat

/-- The type `DiagnosticEngine::HandlerTy`: a callable that receives the diagnostic by
reference and returns a LogicalResult. It may change the diagnostic and whatever state `σ` it
has captured. -/
abbrev HandlerTy (σ : Type) := Diagnostic → σ → LogicalResult × Diagnostic × σ

/-- The struct `detail::DiagnosticEngineImpl`: the registered handlers and the counter of
handler identifiers. -/
structure DiagnosticEngineImpl (σ : Type) where
  handlers : MapVector HandlerID (HandlerTy σ)
  uniqueHandlerId : HandlerID

/-- What one call of `DiagnosticEngineImpl::emit` did: whether a handler handled the
diagnostic, the diagnostic and the captured state as the handlers left them, the handlers
that were called (in call order, each with what it returned), and the text written to
`llvm::errs()`. -/
structure EmitResult (σ : Type) where
  handled : Bool
  diag : Diagnostic
  state : σ
  calls : List (HandlerID × LogicalResult)
  errs : String

/-- The loop `for (auto &handlerIt : ...) if (succeeded(handlerIt.second(diag))) return;`
over the handlers in the order given. -/
def walkHandlers {σ : Type} :
    List (HandlerID × HandlerTy σ) → Diagnostic → σ → EmitResult σ
  | [], diag, s => ⟨false, diag, s, [], ""⟩
  | handlerIt :: rest, diag, s =>
    match handlerIt.2 diag s with
    | (r, diag1, s1) =>
      if succeeded r then ⟨true, diag1, s1, [(handlerIt.1, r)], ""⟩
      else
        let w := walkHandlers rest diag1 s1
        { w with calls := (handlerIt.1, r) :: w.calls }

namespace DiagnosticEngineImpl

variable {σ : Type}

/-- A fresh `DiagnosticEngineImpl`: no handlers, `uniqueHandlerId = 1`. -/
def create : DiagnosticEngineImpl σ := ⟨MapVector.empty, 1⟩

/-- The member `DiagnosticEngineImpl::emit`. -/
def emit (P : ValuePrinter) (self : DiagnosticEngineImpl σ) (diag : Diagnostic) (s : σ) :
    EmitResult σ :=
  -- Handlers are walked in reverse order.
  let w := walkHandlers self.handlers.entries.reverse diag s
  if w.handled then w
  -- Otherwise, if this is an error we emit it to stderr.
  else if w.diag.getSeverity ≠ DiagnosticSeverity.Error then w
  else
    let os := ""
    let os := if !w.diag.getLocation.isUnknownLoc then
        os ++ P.printLocation w.diag.getLocation ++ ": " else os
    let os := os ++ "error: "
    let os := os ++ w.diag.print P ++ "\n"
    { w with errs := os }

end DiagnosticEngineImpl

/-- The class `DiagnosticEngine`, which owns a `DiagnosticEngineImpl`. -/
structure DiagnosticEngine (σ : Type) where
  impl : DiagnosticEngineImpl σ

namespace DiagnosticEngine

variable {σ : Type}

/-- The constructor `DiagnosticEngine()`. -/
def create : DiagnosticEngine σ := ⟨DiagnosticEngineImpl.create⟩

/-- The member `registerHandler`: returns the engine afterwards and the identifier. The
post-increment of the 64-bit counter wraps. -/
def registerHandler (self : DiagnosticEngine σ) (handler : HandlerTy σ) :
    DiagnosticEngine σ × HandlerID :=
  let uniqueID := self.impl.uniqueHandlerId
  let impl1 := { self.impl with uniqueHandlerId := (self.impl.uniqueHandlerId + 1) % 2 ^ 64 }
  let impl2 := { impl1 with handlers := impl1.handlers.insert uniqueID handler }
  (⟨impl2⟩, uniqueID)

/-- The member `eraseHandler`. -/
def eraseHandler (self : DiagnosticEngine σ) (handlerID : HandlerID) : DiagnosticEngine σ :=
  ⟨{ self.impl with handlers := self.impl.handlers.erase handlerID }⟩

/-- The member `DiagnosticEngine::emit(Diagnostic &&)`: `none` when the assertion that the
severity is not Note fails. -/
def emit (P : ValuePrinter) (self : DiagnosticEngine σ) (diag : Diagnostic) (s : σ) :
    Option (EmitResult σ) :=
  if diag.getSeverity = DiagnosticSeverity.Note then none
  else some (self.impl.emit P diag s)

end DiagnosticEngine

/-! ## InFlightDiagnostic -/

/-- A pointer to a `DiagnosticEngine`; the null pointer is `none` of `Option EnginePtr`. -/
abbrev EnginePtr := Nat

/-- The event "`emit` was called on the engine at `engine` with the diagnostic `diag`". -/
structure EmitCall where
  engine : EnginePtr
  diag : Diagnostic
  deriving DecidableEq

/-- The class `InFlightDiagnostic`: the owning engine (null when there is none) and the
optional diagnostic. -/
structure InFlightDiagnostic where
  owner : Option EnginePtr
  impl : Option Diagnostic
  deriving DecidableEq

namespace InFlightDiagnostic

/-- The default constructor: no owner, no diagnostic. -/
def empty : InFlightDiagnostic := ⟨none, none⟩

/-- The constructor `InFlightDiagnostic(owner, std::move(rhs))` used by the engine. -/
def create (owner : EnginePtr) (rhs : Diagnostic) : InFlightDiagnostic := ⟨some owner, some rhs⟩

/-- Modelled from the spec: `isActive()` is defined in mlir/IR/Diagnostics.h, which is not
among the sources. The spec has the two states "Active(holds a DiagnosticRecord, owns an
engine reference)" and Empty, and has the conversion yield "Active ⇒ failure (an error is in
flight), consumed/abandoned ⇒ success": the diagnostic is active while it holds a record and
has an owner. -/
def isActive (self : InFlightDiagnostic) : Bool := self.impl.isSome && self.owner.isSome

/-- Modelled from the spec: `isInFlight()` is defined in mlir/IR/Diagnostics.h, which is not
among the sources. The diagnostic is in flight while it "owns an engine reference", which is
what `abandon` takes away. -/
def isInFlight (self : InFlightDiagnostic) : Bool := self.owner.isSome

/-- The conversion `operator LogicalResult()`. -/
def toLogicalResult (self : InFlightDiagnostic) : LogicalResult := failure self.isActive

/-- The member `report()`: the object afterwards and the calls made to `emit`. The result is
`none` where the C++ dereferences an empty optional. -/
def report (self : InFlightDiagnostic) : Option (InFlightDiagnostic × List EmitCall) :=
  if self.isInFlight then
    match self.owner, self.impl with
    | some owner, some impl => some ({ owner := none, impl := none }, [⟨owner, impl⟩])
    | _, _ => none
  else some ({ self with impl := none }, [])

/-- The member `abandon()`: the object afterwards and the calls made to `emit` (none). -/
def abandon (self : InFlightDiagnostic) : InFlightDiagnostic × List EmitCall :=
  ({ self with owner := none }, [])

/-- Modelled from the spec: the destructor is defined in mlir/IR/Diagnostics.h, which is not
among the sources. "On scope exit while Active: forwards the record to the owning engine's
emit exactly once": it calls `report()` when the diagnostic is in flight. -/
def destroy (self : InFlightDiagnostic) : Option (List EmitCall) :=
  if self.isInFlight then self.report.map Prod.snd else some []

end InFlightDiagnostic

/-! ## ParallelDiagnosticHandler -/

/-- Modelled from the spec: `llvm::stable_sort(range)` (llvm/ADT/STLExtras.h, a call of
`std::stable_sort`) is not among the sources. It is "a stable sort ... (ties preserve original
buffering order)" by the element type's `operator<`, here `lt`: `stable_sort.insert` puts an
element into a sorted list before the first element that is not less than it. -/
def stable_sort.insert {α : Type} (lt : α → α → Bool) (x : α) : List α → List α
  | [] => [x]
  | y :: ys => if lt y x then y :: stable_sort.insert lt x ys else x :: y :: ys

/-- Modelled from the spec: `llvm::stable_sort(range)`, see `stable_sort.insert`. The
elements are inserted from the last to the first, so an element ends up before the elements
that followed it and are not less than it. -/
def stable_sort {α : Type} (lt : α → α → Bool) : List α → List α
  | [] => []
  | x :: xs => stable_sort.insert lt x (stable_sort lt xs)

/-- Modelled from the spec: `llvm::DenseMap` (llvm/ADT/DenseMap.h) is not among the sources.
It is the "worker-identity → order-id mapping": a finite map, here a list of key/value pairs
in which the first pair of a key is the one that counts. -/
abbrev DenseMap (K V : Type) := List (K × V)

namespace DenseMap

variable {K V : Type} [DecidableEq K]

/-- The member `find`/`lookup`: the value of the key, if it has one. -/
def get? (m : DenseMap K V) (k : K) : Option V :=
  match m with
  | [] => none
  | (k1, v) :: rest => if k1 = k then some v else get? rest k

/-- The member `count(key)`: 1 if the key has a value, else 0. -/
def count (m : DenseMap K V) (k : K) : Nat := if (get? m k).isSome then 1 else 0

/-- The member `erase(key)`. -/
def erase (m : DenseMap K V) (k : K) : DenseMap K V := m.filter (fun e => e.1 ≠ k)

/-- The assignment `m[key] = value`. -/
def set (m : DenseMap K V) (k : K) (v : V) : DenseMap K V := (k, v) :: erase m k

/-- The read `m[key]`: the value of the key and the map afterwards; a key without a value
is first given the default value. -/
def subscript [Inhabited V] (m : DenseMap K V) (k : K) : V × DenseMap K V :=
  match get? m k with
  | some v => (v, m)
  | none => (default, (k, default) :: m)

end DenseMap

/-- The struct `ParallelDiagnosticHandlerImpl::ThreadDiagnostic`. -/
structure ThreadDiagnostic where
  id : Nat
  diag : Diagnostic
  deriving DecidableEq

/-- The comparison `ThreadDiagnostic::operator<`. -/
def ThreadDiagnostic.lt (lhs rhs : ThreadDiagnostic) : Bool := decide (lhs.id < rhs.id)

/-- A call the parallel handler makes on `context->getDiagEngine()`. -/
inductive EngineCall where
  | eraseHandler (handlerID : HandlerID)
  | emit (diag : Diagnostic)
  deriving DecidableEq

/-- The struct `detail::ParallelDiagnosticHandlerImpl`: the map from thread id to order id,
the diagnostics that were captured, and the id of the handler registered in the engine. -/
structure ParallelDiagnosticHandlerImpl where
  threadToOrderID : DenseMap Nat Nat
  diagnostics : List ThreadDiagnostic
  handlerID : HandlerID
  deriving DecidableEq

namespace ParallelDiagnosticHandlerImpl

/-- The object once the constructor has stored the id returned by `registerHandler`. -/
def create (handlerID : HandlerID) : ParallelDiagnosticHandlerImpl := ⟨[], [], handlerID⟩

/-- The handler the constructor registers in the engine, run on the thread `tid`
(`llvm::get_threadid()`). -/
def handler (tid : Nat) : HandlerTy ParallelDiagnosticHandlerImpl := fun diag self =>
  -- If this thread is not tracked, then return failure.
  if self.threadToOrderID.count tid = 0 then (failure, diag, self)
  else
    -- Append a new diagnostic.
    match self.threadToOrderID.subscript tid with
    | (orderID, map1) =>
      (success, diag.moved,
        { self with threadToOrderID := map1,
                    diagnostics := self.diagnostics ++ [⟨orderID, diag⟩] })

/-- The member `setOrderIDForThread(orderID)`, run on the thread `tid`. -/
def setOrderIDForThread (self : ParallelDiagnosticHandlerImpl) (tid orderID : Nat) :
    ParallelDiagnosticHandlerImpl :=
  { self with threadToOrderID := self.threadToOrderID.set tid orderID }

/-- The member `eraseOrderIDForThread()`, run on the thread `tid`. -/
def eraseOrderIDForThread (self : ParallelDiagnosticHandlerImpl) (tid : Nat) :
    ParallelDiagnosticHandlerImpl :=
  { self with threadToOrderID := self.threadToOrderID.erase tid }

/-- The loop `for (ThreadDiagnostic &diag : diagnostics) emitFn(diag.diag);`. The callback
gets the diagnostic by reference and acts on some state `τ`. -/
def emitEach {τ : Type} (emitFn : Diagnostic → τ → Diagnostic × τ) :
    List ThreadDiagnostic → τ → List ThreadDiagnostic × τ
  | [], t => ([], t)
  | td :: rest, t =>
    match emitFn td.diag t with
    | (diag1, t1) =>
      match emitEach emitFn rest t1 with
      | (rest1, t2) => ({ td with diag := diag1 } :: rest1, t2)

/-- The member `emitDiagnostics(emitFn)`: sorts the (mutable) buffer, then calls `emitFn` on
each diagnostic. -/
def emitDiagnostics {τ : Type} (self : ParallelDiagnosticHandlerImpl)
    (emitFn : Diagnostic → τ → Diagnostic × τ) (t : τ) : ParallelDiagnosticHandlerImpl × τ :=
  let sorted := stable_sort ThreadDiagnostic.lt self.diagnostics
  match emitEach emitFn sorted t with
  | (ds, t1) => ({ self with diagnostics := ds }, t1)

/-- The destructor: the calls it makes on the engine of the context, in order. -/
def destroy (self : ParallelDiagnosticHandlerImpl) : List EngineCall :=
  -- Erase this handler from the context.
  let calls := [EngineCall.eraseHandler self.handlerID]
  -- Early exit if there are no diagnostics.
  if self.diagnostics.isEmpty then calls
  else
    -- Emit the diagnostics back to the context.
    (self.emitDiagnostics
      (fun diag calls => (diag.moved, calls ++ [EngineCall.emit diag])) calls).2

end ParallelDiagnosticHandlerImpl

/-! ## Vocabulary of the statements -/

/-- The entries of a buffer that carry the order id `k`, in buffer order. -/
def entriesOf (k : Nat) (l : List ThreadDiagnostic) : List ThreadDiagnostic :=
  l.filter (fun td => td.id = k)

/-- A sequence of entries is non-decreasing in the order id. -/
def NonDecreasing (l : List ThreadDiagnostic) : Prop :=
  l.Pairwise (fun a b => a.id ≤ b.id)

/-- One call on a `DiagnosticEngine` that changes its registry. -/
inductive EngineOp (σ : Type) where
  | registerHandler (handler : HandlerTy σ)
  | eraseHandler (handlerID : HandlerID)

/-- The number of `registerHandler` calls in a sequence of calls. -/
def EngineOp.registrations {σ : Type} : List (EngineOp σ) → Nat
  | [] => 0
  | EngineOp.registerHandler _ :: ops => EngineOp.registrations ops + 1
  | EngineOp.eraseHandler _ :: ops => EngineOp.registrations ops

/-- Runs a sequence of calls on an engine: the engine afterwards and the identifiers that the
`registerHandler` calls returned, in call order. -/
def DiagnosticEngine.run {σ : Type} :
    DiagnosticEngine σ → List (EngineOp σ) → DiagnosticEngine σ × List HandlerID
  | self, [] => (self, [])
  | self, EngineOp.registerHandler handler :: ops =>
    match DiagnosticEngine.run (self.registerHandler handler).1 ops with
    | (e, ids) => (e, (self.registerHandler handler).2 :: ids)
  | self, EngineOp.eraseHandler handlerID :: ops =>
    DiagnosticEngine.run (self.eraseHandler handlerID) ops

/-! ## Example values -/

namespace Example

/-- A printer for the example values. -/
def printer : ValuePrinter where
  printAttribute := fun h => "#attr" ++ toString h
  printType := fun h => "type" ++ toString h
  printDouble := fun b => "double" ++ toString b
  printLocation := fun l =>
    match l with
    | Location.FileLineColLoc f line col => f ++ ":" ++ toString line ++ ":" ++ toString col
    | _ => "loc"

/-- A handler that declines every diagnostic and logs that it was called. -/
def decline : HandlerTy (List String) := fun diag log =>
  (LogicalResult.failure, diag, log ++ ["decline"])

/-- A handler that handles every diagnostic and logs that it was called. -/
def accept : HandlerTy (List String) := fun diag log =>
  (LogicalResult.success, diag.moved, log ++ ["accept"])

/-- An engine with the one handler `decline`. -/
def engine1 : DiagnosticEngine (List String) :=
  (DiagnosticEngine.create.registerHandler decline).1

/-- An engine with the handlers `decline`, `accept`, `decline`, registered in this order. -/
def engine3 : DiagnosticEngine (List String) :=
  (((engine1.registerHandler accept).1).registerHandler decline).1

/-- An error at a file location. -/
def diagE : Diagnostic :=
  ⟨Location.FileLineColLoc "a.mlir" 3 4, DiagnosticSeverity.Error,
    [DiagnosticArgument.Str "bad ", DiagnosticArgument.Ty 3, DiagnosticArgument.Integer (-4)],
    [⟨Location.UnknownLoc, DiagnosticSeverity.Note, [DiagnosticArgument.Str "see"], []⟩]⟩

/-- The diagnostic with the message A. -/
def diagA : Diagnostic :=
  ⟨Location.UnknownLoc, DiagnosticSeverity.Error, [DiagnosticArgument.Str "A"], []⟩

/-- The diagnostic with the message B, a warning. -/
def diagB : Diagnostic :=
  ⟨Location.UnknownLoc, DiagnosticSeverity.Warning, [DiagnosticArgument.Str "B"], []⟩

/-- The diagnostic with the message C. -/
def diagC : Diagnostic :=
  ⟨Location.UnknownLoc, DiagnosticSeverity.Error, [DiagnosticArgument.Str "C"], []⟩

/-- An arrival order of four entries; `arrival2` is another order of the same entries. -/
def arrival1 : List ThreadDiagnostic := [⟨2, diagC⟩, ⟨0, diagA⟩, ⟨1, diagB⟩, ⟨0, diagB⟩]

/-- The second arrival order. -/
def arrival2 : List ThreadDiagnostic := [⟨0, diagA⟩, ⟨1, diagB⟩, ⟨0, diagB⟩, ⟨2, diagC⟩]

/-- A parallel handler in which thread 100 has the order id 2 and thread 101 the order id 0. -/
def tracking : ParallelDiagnosticHandlerImpl :=
  ((ParallelDiagnosticHandlerImpl.create 1).setOrderIDForThread 100 2).setOrderIDForThread 101 0

/-- Registrations interleaved with erasures. -/
def ops : List (EngineOp (List String)) :=
  [EngineOp.registerHandler decline, EngineOp.eraseHandler 1, EngineOp.registerHandler accept,
    EngineOp.eraseHandler 5, EngineOp.registerHandler decline, EngineOp.eraseHandler 2]

end Example

/-! ## Notes of a diagnostic -/

namespace Diagnostic

/-- The stream operators `Diagnostic::operator<<`: each ends in
`arguments.push_back(DiagnosticArgument(...))`. -/
def append (self : Diagnostic) (arg : DiagnosticArgument) : Diagnostic :=
  { self with arguments := self.arguments ++ [arg] }

/-- The member `Diagnostic::attachNote(noteLoc)`: `none` when the assertion "cannot attach a
note to a note" fails, otherwise the diagnostic afterwards and the note that the returned
reference `*notes.back()` designates. -/
def attachNote (self : Diagnostic) (noteLoc : Option Location) : Option (Diagnostic × Diagnostic) :=
  -- We don't allow attaching notes to notes.
  if self.severity = DiagnosticSeverity.Note then none
  else
    -- If a location wasn't provided then reuse our location.
    let noteLoc := match noteLoc with
      | none => self.loc
      | some l => l
    -- Append and return a new note.
    let notes := self.notes ++ [Diagnostic.create noteLoc DiagnosticSeverity.Note]
    match notes.getLast? with
    | some back => some ({ self with notes := notes }, back)
    | none => none

/-- The accessor `getNotes()`. -/
def getNotes (self : Diagnostic) : List Diagnostic := self.notes

/-- A stream operator applied through the reference to the note at position `i` (a reference
returned by an earlier `attachNote`); `none` when there is no such note. -/
def appendToNote (self : Diagnostic) (i : Nat) (arg : DiagnosticArgument) : Option Diagnostic :=
  match self.notes[i]? with
  | none => none
  | some note => some { self with notes := self.notes.set i (note.append arg) }

/-- The member `attachNote` applied through the reference to the note at position `i`; `none`
when there is no such note or when the assertion of `attachNote` fails. -/
def attachNoteToNote (self : Diagnostic) (i : Nat) (noteLoc : Option Location) :
    Option Diagnostic :=
  match self.notes[i]? with
  | none => none
  | some note =>
    match note.attachNote noteLoc with
    | none => none
    | some (note1, _) => some { self with notes := self.notes.set i note1 }

end Diagnostic

/-- One step in building a diagnostic: a stream operator or `attachNote`, applied to the
diagnostic itself or through the reference to one of its notes. -/
inductive DiagnosticOp where
  | append (arg : DiagnosticArgument)
  | attachNote (noteLoc : Option Location)
  | appendToNote (i : Nat) (arg : DiagnosticArgument)
  | attachNoteToNote (i : Nat) (noteLoc : Option Location)

/-- Applies one building step; `none` when an assertion fails or a reference is dangling. -/
def Diagnostic.step (self : Diagnostic) : DiagnosticOp → Option Diagnostic
  | DiagnosticOp.append arg => some (self.append arg)
  | DiagnosticOp.attachNote noteLoc => (self.attachNote noteLoc).map Prod.fst
  | DiagnosticOp.appendToNote i arg => self.appendToNote i arg
  | DiagnosticOp.attachNoteToNote i noteLoc => self.attachNoteToNote i noteLoc

/-- Applies a sequence of building steps in order. -/
def Diagnostic.steps (self : Diagnostic) : List DiagnosticOp → Option Diagnostic
  | [] => some self
  | op :: ops =>
    match self.step op with
    | none => none
    | some d => Diagnostic.steps d ops

/-- Calls `attachNote` once for each location of the list, in order. -/
def Diagnostic.attachNotes (self : Diagnostic) : List (Option Location) → Option Diagnostic
  | [] => some self
  | noteLoc :: rest =>
    match self.attachNote noteLoc with
    | none => none
    | some (d, _) => Diagnostic.attachNotes d rest

/-- The invariant of the notes: every note has severity Note and no notes of its own, and a
diagnostic of severity Note has no notes. -/
def Diagnostic.NotesFlat (d : Diagnostic) : Prop :=
  (∀ n ∈ d.notes, n.severity = DiagnosticSeverity.Note ∧ n.notes = []) ∧
  (d.severity = DiagnosticSeverity.Note → d.notes = [])

namespace Example

/-- Building steps: an argument, a note at the location of the diagnostic, an argument
streamed into that note, a note at a location of its own, another argument. -/
def buildOps : List DiagnosticOp :=
  [DiagnosticOp.append (DiagnosticArgument.Str "bad"),
    DiagnosticOp.attachNote none,
    DiagnosticOp.appendToNote 0 (DiagnosticArgument.Str "see"),
    DiagnosticOp.attachNote (some (Location.FileLineColLoc "b.mlir" 1 1)),
    DiagnosticOp.append (DiagnosticArgument.Unsigned 2)]

/-- The diagnostic that `buildOps` builds from a fresh error at a.mlir:3:4. -/
def built : Diagnostic :=
  ⟨Location.FileLineColLoc "a.mlir" 3 4, DiagnosticSeverity.Error,
    [DiagnosticArgument.Str "bad", DiagnosticArgument.Unsigned 2],
    [⟨Location.FileLineColLoc "a.mlir" 3 4, DiagnosticSeverity.Note,
        [DiagnosticArgument.Str "see"], []⟩,
      ⟨Location.FileLineColLoc "b.mlir" 1 1, DiagnosticSeverity.Note, [], []⟩]⟩

end Example

/-! ## SourceMgrDiagnosticHandler: the location to show -/

/-- The type `SourceMgrDiagnosticHandler::ShouldShowLocFn` held in the member
`shouldShowLocFn`: `none` when no filter was supplied. -/
abbrev ShouldShowLocFn := Option (Location → Bool)

mutual
/-- The member `SourceMgrDiagnosticHandler::findLocToShow(loc)` of a handler whose filter is
`shouldShowLocFn`. -/
def findLocToShow (shouldShowLocFn : ShouldShowLocFn) : Location → Option Location
  | Location.CallSiteLoc callee caller =>
    match shouldShowLocFn with
    | none => some (Location.CallSiteLoc callee caller)
    | some fn =>
      if !fn (Location.CallSiteLoc callee caller) then none
      -- We recurse into the callee of a call site.
      else findLocToShow shouldShowLocFn callee
  | Location.FileLineColLoc filename line column =>
    match shouldShowLocFn with
    | none => some (Location.FileLineColLoc filename line column)
    | some fn =>
      if !fn (Location.FileLineColLoc filename line column) then none
      else some (Location.FileLineColLoc filename line column)
  | Location.FusedLoc locations =>
    match shouldShowLocFn with
    | none => some (Location.FusedLoc locations)
    | some fn =>
      if !fn (Location.FusedLoc locations) then none
      -- We try to find a sub-location to show.
      else findLocToShow.children shouldShowLocFn locations
  | Location.NameLoc name childLoc =>
    match shouldShowLocFn with
    | none => some (Location.NameLoc name childLoc)
    | some fn =>
      if !fn (Location.NameLoc name childLoc) then none
      else findLocToShow shouldShowLocFn childLoc
  | Location.OpaqueLoc fallbackLocation =>
    match shouldShowLocFn with
    | none => some (Location.OpaqueLoc fallbackLocation)
    | some fn =>
      if !fn (Location.OpaqueLoc fallbackLocation) then none
      -- OpaqueLoc always falls back to a different source location.
      else findLocToShow shouldShowLocFn fallbackLocation
  | Location.UnknownLoc =>
    match shouldShowLocFn with
    | none => some Location.UnknownLoc
    | some fn =>
      if !fn Location.UnknownLoc then none
      -- Prefer not to show unknown locations.
      else none
/-- The loop of `findLocToShow` over the locations of a fused location: the first
sub-location that has a location to show decides. -/
def findLocToShow.children (shouldShowLocFn : ShouldShowLocFn) :
    List Location → Option Location
  | [] => none
  | childLoc :: rest =>
    match findLocToShow shouldShowLocFn childLoc with
    | some showableLoc => some showableLoc
    | none => findLocToShow.children shouldShowLocFn rest
end

mutual
/-- The function `getCallSiteLoc(loc)`. -/
def getCallSiteLoc : Location → Option Location
  | Location.NameLoc _ childLoc => getCallSiteLoc childLoc
  | Location.CallSiteLoc callee caller => some (Location.CallSiteLoc callee caller)
  | Location.FusedLoc locations => getCallSiteLoc.children locations
  | Location.FileLineColLoc _ _ _ => none
  | Location.OpaqueLoc _ => none
  | Location.UnknownLoc => none
/-- The loop of `getCallSiteLoc` over the locations of a fused location. -/
def getCallSiteLoc.children : List Location → Option Location
  | [] => none
  | subLoc :: rest =>
    match getCallSiteLoc subLoc with
    | some callLoc => some callLoc
    | none => getCallSiteLoc.children rest
end

mutual
/-- The resolution table of the spec, for a filter `filter` that is present: "If filter is
present and rejects loc, returns none. Otherwise dispatch on the location's kind", one row
per kind. -/
def resolveByTable (filter : Location → Bool) : Location → Option Location
  | Location.CallSiteLoc callee caller =>
    if filter (Location.CallSiteLoc callee caller) then resolveByTable filter callee else none
  | Location.FileLineColLoc filename line column =>
    if filter (Location.FileLineColLoc filename line column)
    then some (Location.FileLineColLoc filename line column) else none
  | Location.FusedLoc children =>
    if filter (Location.FusedLoc children) then resolveByTable.first filter children else none
  | Location.NameLoc name child =>
    if filter (Location.NameLoc name child) then resolveByTable filter child else none
  | Location.OpaqueLoc fallback =>
    if filter (Location.OpaqueLoc fallback) then resolveByTable filter fallback else none
  | Location.UnknownLoc => none
/-- The row "Fused" of the table: "try each child in order; return the first that resolves;
else none". -/
def resolveByTable.first (filter : Location → Bool) : List Location → Option Location
  | [] => none
  | child :: rest => (resolveByTable filter child).orElse
      (fun _ => resolveByTable.first filter rest)
end

namespace Example

/-- A filter that shows the locations of the file a.mlir and every location that is not a
file location. -/
def onlyA : Location → Bool
  | Location.FileLineColLoc filename _ _ => filename == "a.mlir"
  | _ => true

/-- A call site in a.mlir called from b.mlir, under a name. -/
def callLoc : Location :=
  Location.NameLoc "f" (Location.CallSiteLoc (Location.FileLineColLoc "a.mlir" 3 4)
    (Location.FileLineColLoc "b.mlir" 9 1))

/-- A fused location: an unknown location, a location of b.mlir, the call site, a location
of a.mlir. -/
def fusedLoc : Location :=
  Location.FusedLoc [Location.UnknownLoc, Location.FileLineColLoc "b.mlir" 1 1, callLoc,
    Location.FileLineColLoc "a.mlir" 7 7]

end Example

/-! ## StringRef operations used by the verifier -/

namespace StringRef

/-- The test `str.starts_with(pat)`, on the characters of the strings. -/
def startsWith : List Char → List Char → Bool
  | _, [] => true
  | [], _ :: _ => false
  | c :: cs, p :: ps => c == p && startsWith cs ps

/-- The member `StringRef::find(pat)`: the index of the first occurrence of `pat`, `none` for
`npos`. -/
def find (pat : List Char) : List Char → Option Nat
  | [] => if pat.isEmpty then some 0 else none
  | c :: cs =>
    if startsWith (c :: cs) pat then some 0
    else (find pat cs).map (fun i => i + 1)

/-- The member `StringRef::rtrim()`: the string without its trailing characters out of
space, tab, newline, vertical tab, form feed and carriage return. -/
def rtrim (s : List Char) : List Char :=
  (s.reverse.dropWhile (fun c => c ∈ [' ', '\t', '\n', '\x0b', '\x0c', '\r'])).reverse

/-- The member `StringRef::split(lines, separator)` with empty pieces kept: the pieces between
the occurrences of the separator, in order. -/
def split (separator : Char) : List Char → List (List Char)
  | [] => [[]]
  | c :: cs =>
    if c = separator then [] :: split separator cs
    else
      match split separator cs with
      | piece :: pieces => (c :: piece) :: pieces
      | [] => [[c]]

/-- The value of a character as a digit, as `consumeUnsignedInteger` takes it: 0 to 9 for a
decimal digit, 10 to 35 for a letter. -/
def charVal (c : Char) : Option Nat :=
  if '0' ≤ c ∧ c ≤ '9' then some (c.toNat - '0'.toNat)
  else if 'a' ≤ c ∧ c ≤ 'z' then some (c.toNat - 'a'.toNat + 10)
  else if 'A' ≤ c ∧ c ≤ 'Z' then some (c.toNat - 'A'.toNat + 10)
  else none

/-- The helper `GetAutoSenseRadix`: the radix that the start of the string announces and the
string after the announcement. -/
def getAutoSenseRadix : List Char → Nat × List Char
  | '0' :: 'x' :: rest => (16, rest)
  | '0' :: 'X' :: rest => (16, rest)
  | '0' :: 'b' :: rest => (2, rest)
  | '0' :: 'B' :: rest => (2, rest)
  | '0' :: 'o' :: rest => (8, rest)
  | '0' :: c :: rest => if c.isDigit then (8, c :: rest) else (10, '0' :: c :: rest)
  | s => (10, s)

/-- The digit loop of `consumeUnsignedInteger` on a 64-bit accumulator: the value read and
the characters left, `none` when the accumulator overflows. -/
def consumeDigits (radix : Nat) : List Char → Nat → Option (Nat × List Char)
  | [], result => some (result, [])
  | c :: cs, prevResult =>
    match charVal c with
    | none => some (prevResult, c :: cs)
    | some v =>
      if v ≥ radix then some (prevResult, c :: cs)
      else
        let result := (prevResult * radix + v) % 2 ^ 64
        if result / radix < prevResult then none
        else consumeDigits radix cs result

/-- The function `consumeUnsignedInteger(str, radix, result)`; `none` is its error return. -/
def consumeUnsignedInteger (radix : Nat) (str : List Char) : Option (Nat × List Char) :=
  match (if radix = 0 then getAutoSenseRadix str else (radix, str)) with
  | (radix1, str1) =>
    if str1.isEmpty then none
    else
      match consumeDigits radix1 str1 0 with
      | none => none
      | some (result, str2) =>
        -- A failure if no characters were consumed.
        if str1.length = str2.length then none else some (result, str2)

/-- The function `consumeSignedInteger(str, radix, result)`; `none` is its error return. -/
def consumeSignedInteger (radix : Nat) (str : List Char) : Option (Int × List Char) :=
  match str with
  | '-' :: str2 =>
    match consumeUnsignedInteger radix str2 with
    | none => none
    | some (ullVal, rest) =>
      -- `(long long)-ULLVal > 0`
      if ullVal > 2 ^ 63 then none else some (-(ullVal : Int), rest)
  | _ =>
    match consumeUnsignedInteger radix str with
    | none => none
    | some (ullVal, rest) =>
      -- `(long long)ULLVal < 0`
      if ullVal ≥ 2 ^ 63 then none else some ((ullVal : Int), rest)

/-- Modelled from the spec: `StringRef::getAsInteger(radix, int &result)` (llvm/ADT/StringRef.h
and llvm/lib/Support/StringRef.cpp) is not among the sources. The spec reads the digits after
the sign of a designator as the number N of "current line + 1 ± N". The function reads the
whole string as a number that fits an `int`, and with radix 0, which is what the verifier
passes, it takes the radix from the start of the string (`0x`, `0b`, `0o`, or `0` followed by
a digit for octal, decimal otherwise). The result `none` is its error return, which leaves
`result` as it was. -/
def getAsInteger (radix : Nat) (str : List Char) : Option Int :=
  match consumeSignedInteger radix str with
  | none => none
  | some (llVal, rest) =>
    -- The whole string has to be consumed, and the value has to fit the result type.
    if !rest.isEmpty then none
    else if llVal < -(2 ^ 31) ∨ llVal ≥ 2 ^ 31 then none
    else some llVal

end StringRef

/-! ## SourceMgrDiagnosticVerifierHandler: the expected diagnostics -/

/-- The enumeration `llvm::SourceMgr::DiagKind`. -/
inductive DiagKind where
  | DK_Error
  | DK_Warning
  | DK_Remark
  | DK_Note
  deriving DecidableEq, Repr

/-- The function `getDiagKind(kind)`. -/
def getDiagKind : DiagnosticSeverity → DiagKind
  | DiagnosticSeverity.Note => DiagKind.DK_Note
  | DiagnosticSeverity.Warning => DiagKind.DK_Warning
  | DiagnosticSeverity.Error => DiagKind.DK_Error
  | DiagnosticSeverity.Remark => DiagKind.DK_Remark

/-- The function `getDiagKindStr(kind)`. -/
def getDiagKindStr : DiagnosticSeverity → String
  | DiagnosticSeverity.Note => "note"
  | DiagnosticSeverity.Warning => "warning"
  | DiagnosticSeverity.Error => "error"
  | DiagnosticSeverity.Remark => "remark"

/-- The class `llvm::SMLoc`: a position in a source buffer, here the offset from the start of
the buffer; the invalid location `SMLoc()` is `none`. -/
abbrev SMLoc := Option Nat

/-- A call of `llvm::SourceMgr::PrintMessage(os, loc, kind, msg, ranges)`: what was asked to
be printed. -/
structure SMMessage where
  loc : SMLoc
  kind : DiagKind
  msg : String
  range : Option (SMLoc × SMLoc)
  deriving DecidableEq

/-- What `llvm::Regex::match(str, &matches)` fills in when it succeeds: the matched texts
`matches[0]`, `matches[1]`, ... (the field `groups`) and the offset in `str` at which
`matches[0]` starts. -/
structure RegexMatches where
  start : Nat
  groups : List String
  deriving DecidableEq

/-- The element `matches[i]`. -/
def RegexMatches.get (m : RegexMatches) (i : Nat) : String := m.groups.getD i ""

/-- The regular-expression library (llvm/Support/Regex.h), which the verifier calls and
which is not among the sources, and the one value the verifier reads without having written
it. `expected` is `match` of the member `expected`, the compiled pattern of the annotations;
`escape` is `llvm::Regex::escape`; `isValid` is `llvm::Regex(str).isValid(error)`, with the
error text when the pattern is not valid; `isMatch pattern str` is
`llvm::Regex(pattern).match(str)`; `indeterminate` is what the local `int offset` holds when
`getAsInteger` has failed and left it unwritten. -/
structure VerifierEnv where
  expected : String → Option RegexMatches
  escape : String → String
  isValid : String → Option String
  isMatch : String → String → Bool
  indeterminate : Int

/-- The struct `detail::ExpectedDiag`. The optional compiled regex is kept as its pattern
text. -/
structure ExpectedDiag where
  kind : DiagnosticSeverity
  lineNo : Nat
  fileLoc : SMLoc
  matched : Bool
  substring : String
  substringRegex : Option String
  deriving DecidableEq

namespace ExpectedDiag

/-- The constructor `ExpectedDiag(kind, lineNo, fileLoc, substring)`. -/
def create (kind : DiagnosticSeverity) (lineNo : Nat) (fileLoc : SMLoc) (substring : String) :
    ExpectedDiag :=
  ⟨kind, lineNo, fileLoc, false, substring, none⟩

/-- The member `emitError(os, mgr, msg)`: the message printed; the call returns failure. -/
def emitError (self : ExpectedDiag) (msg : String) : SMMessage :=
  ⟨self.fileLoc, DiagKind.DK_Error, msg,
    some (self.fileLoc, self.fileLoc.map (fun p => p + self.substring.length))⟩

/-- The loop of `computeRegex`, run for at most `fuel` rounds on what is left to process and
the pattern text written so far: the error message of the `emitError` it returns with, or the
pattern text at the end of the loop; `none` when the rounds are used up. -/
def computeRegexLoop (env : VerifierEnv) :
    Nat → List Char → String → Option (Except String String)
  | 0, _, _ => none
  | fuel + 1, strToProcess, regexOS =>
    if strToProcess.isEmpty then some (Except.ok regexOS)
    else
      -- Find the next regex block.
      match StringRef.find ['{', '{'] strToProcess with
      | none => some (Except.ok (regexOS ++ env.escape (String.mk strToProcess)))
      | some regexIt =>
        let regexOS := regexOS ++ env.escape (String.mk (strToProcess.take regexIt))
        let strToProcess := strToProcess.drop (regexIt + 2)
        -- Find the end of the regex block.
        match StringRef.find ['}', '}'] strToProcess with
        | none => some (Except.error "found start of regex with no end '\x7d\x7d'")
        | some regexEndIt =>
          let regexStr := String.mk (strToProcess.take regexEndIt)
          -- Validate that the regex is actually valid.
          match env.isValid regexStr with
          | some regexError => some (Except.error ("invalid regex: " ++ regexError))
          | none =>
            let regexOS := regexOS ++ "(" ++ regexStr ++ ")"
            computeRegexLoop env fuel (strToProcess.drop (regexEndIt + 2)) regexOS

/-- The member `computeRegex(os, mgr)`: the result, the record afterwards and the messages
printed. The loop gets one round more than the substring has characters, which is more than
it can use (`computeRegexLoop_isSome`). -/
def computeRegex (env : VerifierEnv) (self : ExpectedDiag) :
    LogicalResult × ExpectedDiag × List SMMessage :=
  match computeRegexLoop env (self.substring.data.length + 1) self.substring.data "" with
  | some (Except.ok regexStr) =>
    (LogicalResult.success, { self with substringRegex := some regexStr }, [])
  | some (Except.error msg) => (LogicalResult.failure, self, [self.emitError msg])
  | none => (LogicalResult.failure, self, [])

/-- The member `match(str)`. -/
def isMatch (env : VerifierEnv) (self : ExpectedDiag) (str : String) : Bool :=
  match self.substringRegex with
  | some regex => env.isMatch regex str
  | none => (StringRef.find self.substring.data str.data).isSome

end ExpectedDiag

/-- The enumeration `SourceMgrDiagnosticVerifierHandler::Level`. -/
inductive Level where
  | None
  | All
  | OnlyExpected
  deriving DecidableEq, Repr

/-- The class `llvm::MemoryBuffer`, as far as the verifier reads it: the identifier and the
text. -/
structure MemoryBuffer where
  bufferIdentifier : String
  buffer : String
  deriving DecidableEq

/-- The struct `detail::SourceMgrDiagnosticVerifierHandlerImpl`. The member `expected`, a
compiled regular expression, is `VerifierEnv.expected`. -/
structure SourceMgrDiagnosticVerifierHandlerImpl where
  status : LogicalResult
  expectedDiagsPerFile : DenseMap String (List ExpectedDiag)
  expectedUnknownLocDiags : List ExpectedDiag
  level : Level
  deriving DecidableEq

/-- The local variables of `computeExpectedDiags` and the members it writes, while it scans:
the expected diagnostics of the buffer, those of unknown location, the status, the number of
the last line that was not a designator, the indices of the designators for the next line,
and the messages printed. -/
structure ScanState where
  expectedDiags : List ExpectedDiag
  expectedUnknownLocDiags : List ExpectedDiag
  status : LogicalResult
  lastNonDesignatorLine : Nat
  designatorsForNextLine : List Nat
  printed : List SMMessage
  deriving DecidableEq

namespace SourceMgrDiagnosticVerifierHandlerImpl

/-- The constructor `SourceMgrDiagnosticVerifierHandlerImpl(level)`. -/
def create (level : Level) : SourceMgrDiagnosticVerifierHandlerImpl :=
  ⟨LogicalResult.success, [], [], level⟩

/-- The member `getExpectedDiags(bufName)`. -/
def getExpectedDiags (self : SourceMgrDiagnosticVerifierHandlerImpl) (bufName : String) :
    Option (List ExpectedDiag) :=
  self.expectedDiagsPerFile.get? bufName

/-- The chain of comparisons of `matches[1]` in `computeExpectedDiags`; the assertion of its
last branch is not modelled. -/
def kindOfKeyword (keyword : String) : DiagnosticSeverity :=
  if keyword = "error" then DiagnosticSeverity.Error
  else if keyword = "warning" then DiagnosticSeverity.Warning
  else if keyword = "remark" then DiagnosticSeverity.Remark
  else DiagnosticSeverity.Note

/-- The assignments `expectedDiags[diagIndex].lineNo = lineNo` for the indices of a list. -/
def setLineNos (lineNo : Nat) : List Nat → List ExpectedDiag → List ExpectedDiag
  | [], expectedDiags => expectedDiags
  | diagIndex :: rest, expectedDiags =>
    setLineNos lineNo rest
      (expectedDiags.modify (fun e => { e with lineNo := lineNo }) diagIndex)

/-- The start of the round for a line that matches: the record
`ExpectedDiag record(kind, lineNo + 1, expectedStart, matches[5])` and, when `matches[2]` is
not empty, the call `record.computeRegex(os, mgr)` on it: the result of that call (success
when there is none), the record afterwards and the messages printed. -/
def makeRecord (env : VerifierEnv) (lineNo lineStart : Nat) (ms : RegexMatches) :
    LogicalResult × ExpectedDiag × List SMMessage :=
  -- Point to the start of expected-*.
  let expectedStart : SMLoc := some (lineStart + ms.start)
  let kind := kindOfKeyword (ms.get 1)
  let record := ExpectedDiag.create kind (lineNo + 1) expectedStart (ms.get 5)
  -- Check to see if this is a regex match, i.e. it includes the `-re`.
  if !(ms.get 2).isEmpty then record.computeRegex env
  else (LogicalResult.success, record, [])

/-- The end of the round for a line that matches: the block on `offsetMatch = matches[3]`
and the final `expectedDiags.emplace_back(std::move(record))`. -/
def applyDesignator (env : VerifierEnv) (e : Nat) (st : ScanState) (record : ExpectedDiag)
    (offsetMatch : List Char) : ScanState :=
  if !offsetMatch.isEmpty then
    let offsetMatch := offsetMatch.drop 1
    -- Get the integer value without the @ and +/- prefix.
    if offsetMatch.head? = some '+' ∨ offsetMatch.head? = some '-' then
      let offset : Int := match StringRef.getAsInteger 0 (offsetMatch.drop 1) with
        | some value => value
        | none => env.indeterminate
      let record := if offsetMatch.head? = some '+'
        then { record with lineNo := (((record.lineNo : Int) + offset) % 2 ^ 32).toNat }
        else { record with lineNo := (((record.lineNo : Int) - offset) % 2 ^ 32).toNat }
      { st with expectedDiags := st.expectedDiags ++ [record] }
    else if StringRef.startsWith offsetMatch "unknown".data then
      -- This is matching unknown locations.
      let record := { record with fileLoc := none }
      { st with expectedUnknownLocDiags := st.expectedUnknownLocDiags ++ [record] }
    else if StringRef.startsWith offsetMatch "above".data then
      -- We add it to the last non designator line.
      let record := { record with lineNo := st.lastNonDesignatorLine + 1 }
      { st with expectedDiags := st.expectedDiags ++ [record] }
    else
      -- This is a 'below' designator and applies to the next non-designator line.
      let record := { record with lineNo := e }
      { st with
        designatorsForNextLine := st.designatorsForNextLine ++ [st.expectedDiags.length],
        expectedDiags := st.expectedDiags ++ [record] }
  else
    { st with expectedDiags := st.expectedDiags ++ [record] }

/-- One round of the loop of `computeExpectedDiags`: the line `line` with the 0-based number
`lineNo`, which starts at the offset `lineStart` of a buffer of `e` lines. The line counters
are of type `unsigned`; a buffer is taken to have fewer than 2^32 lines, so that counting the
lines does not wrap, while adding or subtracting the offset of a designator does. -/
def scanLine (env : VerifierEnv) (e lineNo lineStart : Nat) (line : List Char)
    (st : ScanState) : ScanState :=
  match env.expected (String.mk (StringRef.rtrim line)) with
  | none =>
    -- Check for designators that apply to this line.
    { st with
      expectedDiags := setLineNos (lineNo + 1) st.designatorsForNextLine st.expectedDiags,
      designatorsForNextLine := [],
      lastNonDesignatorLine := lineNo }
  | some ms =>
    match makeRecord env lineNo lineStart ms with
    | (result, record, printed) =>
      if failed result then
        { st with status := LogicalResult.failure, printed := st.printed ++ printed }
      else applyDesignator env e st record (ms.get 3).data

/-- The loop `for (unsigned lineNo = 0, e = lines.size(); lineNo < e; ++lineNo)` from the
line number `lineNo` on, over the lines that are left; `lineStart` is the offset at which the
first of them starts. -/
def scanLines (env : VerifierEnv) (e : Nat) :
    Nat → Nat → List (List Char) → ScanState → ScanState
  | _, _, [], st => st
  | lineNo, lineStart, line :: rest, st =>
    scanLines env e (lineNo + 1) (lineStart + line.length + 1) rest
      (scanLine env e lineNo lineStart line st)

/-- The member `computeExpectedDiags(os, mgr, buf)`: the object afterwards, the expected
diagnostics returned, and the messages printed. -/
def computeExpectedDiags (env : VerifierEnv) (self : SourceMgrDiagnosticVerifierHandlerImpl)
    (buf : Option MemoryBuffer) :
    SourceMgrDiagnosticVerifierHandlerImpl × List ExpectedDiag × List SMMessage :=
  match buf with
  -- If the buffer is invalid, return an empty list.
  | none => (self, [], [])
  | some buf =>
    let expectedDiags := (self.expectedDiagsPerFile.get? buf.bufferIdentifier).getD []
    -- Scan the file for expected-* designators.
    let lines := StringRef.split '\n' buf.buffer.data
    let st := scanLines env lines.length 0 0 lines
      ⟨expectedDiags, self.expectedUnknownLocDiags, self.status, 0, [], []⟩
    ({ self with
        status := st.status,
        expectedDiagsPerFile := self.expectedDiagsPerFile.set buf.bufferIdentifier
          st.expectedDiags,
        expectedUnknownLocDiags := st.expectedUnknownLocDiags },
      st.expectedDiags, st.printed)

end SourceMgrDiagnosticVerifierHandlerImpl

/-! ## The pattern of the annotations -/

namespace ExpectedPattern

/-- Takes `pat` off the front of `s`, if `s` starts with it. -/
def strip (pat : String) (s : List Char) : Option (List Char) :=
  if StringRef.startsWith s pat.data then some (s.drop pat.length) else none

/-- The group `(error|note|remark|warning)` at the front of `s`: the keyword and the rest. -/
def keyword (s : List Char) : Option (String × List Char) :=
  match strip "error" s, strip "note" s, strip "remark" s, strip "warning" s with
  | some rest, _, _, _ => some ("error", rest)
  | _, some rest, _, _ => some ("note", rest)
  | _, _, some rest, _ => some ("remark", rest)
  | _, _, _, some rest => some ("warning", rest)
  | _, _, _, _ => none

/-- The group `(@([+-][0-9]+|above|below|unknown))?` at the front of `s`: the outer group, the
inner group and the rest; both groups are empty when `s` does not start with `@`, and there
is no match when `@` is not followed by one of the four alternatives. -/
def designator (s : List Char) : Option (String × String × List Char) :=
  match s with
  | '@' :: rest =>
    match rest with
    | sign :: digits =>
      if (sign = '+' ∨ sign = '-') ∧ (digits.takeWhile Char.isDigit).length ≠ 0 then
        let number := String.mk (sign :: digits.takeWhile Char.isDigit)
        some ("@" ++ number, number, digits.dropWhile Char.isDigit)
      else
        match strip "above" rest, strip "below" rest, strip "unknown" rest with
        | some after, _, _ => some ("@above", "above", after)
        | _, some after, _ => some ("@below", "below", after)
        | _, _, some after => some ("@unknown", "unknown", after)
        | _, _, _ => none
    | [] => none
  | _ => some ("", "", s)

/-- The pattern matched at the very start of `s` and up to its end: the groups 1 to 5. -/
def matchHere (s : List Char) : Option (List String) :=
  match strip "expected-" s with
  | none => none
  | some s1 =>
    match keyword s1 with
    | none => none
    | some (kind, s2) =>
      match (match strip "-re" s2 with
        | some s3 => ("-re", s3)
        | none => ("", s2)) with
      | (re, s3) =>
        match designator (s3.dropWhile (fun c => c = ' ')) with
        | none => none
        | some (outer, inner, s4) =>
          match strip "\x7b\x7b" (s4.dropWhile (fun c => c = ' ')) with
          | none => none
          | some s5 =>
            if s5.length ≥ 2 ∧ s5.drop (s5.length - 2) = ['}', '}'] then
              some [kind, re, outer, inner, String.mk (s5.take (s5.length - 2))]
            else none

/-- The leftmost match: the first offset of `s`, counted from `start`, at which the pattern
matches. -/
def search (start : Nat) : List Char → Option RegexMatches
  | [] => none
  | c :: cs =>
    match matchHere (c :: cs) with
    | some groups => some ⟨start, String.mk (c :: cs) :: groups⟩
    | none => search (start + 1) cs

end ExpectedPattern

/-- Modelled from the spec: the regular-expression engine `llvm::Regex` is not among the
sources. This is `match` for the one pattern the member `expected` is compiled from,
`expected-(error|note|remark|warning)(-re)? *(@([+-][0-9]+|above|below|unknown))? *{{(.*)}}$`,
the "annotation grammar" of the spec: the leftmost place of the line from which the pattern
matches up to the end of the line, with the texts of the whole match and of the five
groups. -/
def expectedMatch (line : String) : Option RegexMatches :=
  ExpectedPattern.search 0 line.data

namespace Example

/-- The function `llvm::Regex::escape`: a backslash before each of the characters
`()^$|*+?.[]\{}`. -/
def escape (s : String) : String :=
  String.mk (s.data.flatMap (fun c =>
    if c ∈ "()^$|*+?.[]\\\x7b\x7d".data then ['\\', c] else [c]))

/-- An environment for the examples: the pattern of the annotations, the escaping of
`llvm::Regex::escape`, every regular expression taken to be valid, a regular expression taken
to match the strings that equal its text, and 0 for the indeterminate value. -/
def env : VerifierEnv where
  expected := expectedMatch
  escape := escape
  isValid := fun _ => none
  isMatch := fun pattern str => pattern == str
  indeterminate := 0

end Example

/-! ## Vocabulary of the statements on the verifier -/

/-- The offset in a buffer at which the line after the lines `pre` starts: every line takes
its characters and one separator. -/
def StringRef.offsetAfter (pre : List (List Char)) : Nat :=
  (pre.map (fun line => line.length + 1)).sum

/-- A non-empty string of decimal digits read as a decimal number. -/
def StringRef.decimalValue (digits : List Char) : Nat :=
  digits.foldl (fun n c => 10 * n + (c.toNat - '0'.toNat)) 0

/-- The indices kept for the next line all point into the expected diagnostics. -/
def ScanState.Inv (st : ScanState) : Prop :=
  ∀ i ∈ st.designatorsForNextLine, i < st.expectedDiags.length

/-- The expected diagnostic at index `k` exists and is not waiting for the next line. -/
def ScanState.Settled (k : Nat) (st : ScanState) : Prop :=
  k < st.expectedDiags.length ∧ k ∉ st.designatorsForNextLine

/-- The annotation of the match `ms` yields an expected diagnostic: it has no `-re`, or the
loop of `computeRegex` on its text ends with a pattern. -/
def RegexMatches.Compiles (env : VerifierEnv) (ms : RegexMatches) : Prop :=
  (ms.get 2).isEmpty = true ∨
  ∃ regexStr, ExpectedDiag.computeRegexLoop env ((ms.get 5).data.length + 1)
    (ms.get 5).data "" = some (Except.ok regexStr)

namespace Example

/-- A buffer of three lines: code, an annotation with `@above`, code. -/
def bufAbove : MemoryBuffer := ⟨"above.mlir", "code\n// expected-error@above \x7b\x7bm\x7d\x7d\nmore"⟩

/-- A buffer of two lines: code and an annotation without designator. -/
def bufPlain : MemoryBuffer := ⟨"plain.mlir", "code\n// expected-warning \x7b\x7bcannot find 'foo'\x7d\x7d"⟩

/-- A buffer of one line: an annotation with `-re` and no designator, whose text opens a
regex block and does not close it. -/
def bufUnterminated : MemoryBuffer := ⟨"re.mlir", "// expected-error-re \x7b\x7bfoo\x7b\x7bbar\x7d\x7d"⟩

/-- A buffer of one line: an annotation that points three lines up. -/
def bufMinus : MemoryBuffer := ⟨"minus.mlir", "// expected-error@-3 \x7b\x7bq\x7d\x7d"⟩

/-- A buffer of one line: an annotation whose offset is written with a leading zero. -/
def bufOctal : MemoryBuffer := ⟨"octal.mlir", "// expected-error@+010 \x7b\x7bq\x7d\x7d"⟩

/-- A buffer of three lines, the third an annotation that points two lines up. -/
def bufOffset : MemoryBuffer := ⟨"offset.mlir", "a\nb\n// expected-remark@-2 \x7b\x7bq\x7d\x7d"⟩

end Example

/-! ## SourceMgrDiagnosticHandler: the source manager and the emission at a location -/

namespace Location

mutual
/-- Modelled from the spec: `LocationAttr::findInstanceOf<FileLineColLoc>()`
(mlir/IR/Location.h) is not among the sources. The spec has the handlers "resolve the
diagnostic's FileLineColumn": the first file location met in a walk of the location that
visits a location before the locations nested in it, the callee of a call site before its
caller and the children of a fused location in order; the file name, line and column of that
location, `none` when no file location is nested in `loc`. -/
def findInstanceOf : Location → Option (String × Nat × Nat)
  | CallSiteLoc callee caller =>
    match findInstanceOf callee with
    | some fileLoc => some fileLoc
    | none => findInstanceOf caller
  | FileLineColLoc filename line column => some (filename, line, column)
  | FusedLoc locations => findInstanceOf.children locations
  | NameLoc _ childLoc => findInstanceOf childLoc
  | OpaqueLoc fallbackLocation => findInstanceOf fallbackLocation
  | UnknownLoc => none
/-- The walk over the children of a fused location. -/
def findInstanceOf.children : List Location → Option (String × Nat × Nat)
  | [] => none
  | childLoc :: rest =>
    match findInstanceOf childLoc with
    | some fileLoc => some fileLoc
    | none => findInstanceOf.children rest
end

end Location

/-- What a handler writes to its stream `os`: a call of
`mgr.PrintMessage(os, loc, kind, msg, ranges)`, or the printing of an
`llvm::SMDiagnostic(filename, kind, msg)` that is built without a source location. -/
inductive SMOutput where
  | PrintMessage (m : SMMessage)
  | SMDiagnostic (filename : String) (kind : DiagKind) (msg : String)
  deriving DecidableEq

/-- The kind of what was written. -/
def SMOutput.kind : SMOutput → DiagKind
  | SMOutput.PrintMessage m => m.kind
  | SMOutput.SMDiagnostic _ kind _ => kind

/-- The message text of what was written. -/
def SMOutput.msg : SMOutput → String
  | SMOutput.PrintMessage m => m.msg
  | SMOutput.SMDiagnostic _ _ msg => msg

/-- The class `llvm::SourceMgr`, as far as the handlers use it: the buffers it holds. The
buffer with the id `i` is the `i`-th one, counted from 1; the id 0 is no buffer. -/
structure SourceMgr where
  buffers : List MemoryBuffer
  deriving DecidableEq

/-- What the handlers reach through the source manager and do not define
(llvm/Support/SourceMgr.h): `openIncludeFile` is the buffer that `AddIncludeFile` reads from
the file system for a file name, `none` when the file cannot be opened;
`findLocForLineAndColumn` is `FindLocForLineAndColumn` on the text of a buffer. -/
structure SourceMgrEnv where
  openIncludeFile : String → Option MemoryBuffer
  findLocForLineAndColumn : MemoryBuffer → Nat → Nat → SMLoc

namespace SourceMgr

/-- The member `getNumBuffers()`. -/
def getNumBuffers (mgr : SourceMgr) : Nat := mgr.buffers.length

/-- The member `getMemoryBuffer(i)`; `none` for an id that is not valid. -/
def getMemoryBuffer (mgr : SourceMgr) (i : Nat) : Option MemoryBuffer :=
  if i = 0 then none else mgr.buffers[i - 1]?

/-- Modelled from the spec: `llvm::SourceMgr::AddIncludeFile(filename, includeLoc, path)` is
not among the sources. The spec speaks of "a cached, filename-keyed buffer registry (loading
on first reference)": the file is read, its buffer is added after the buffers held so far and
the id of the new buffer is returned; 0 is returned when the file cannot be opened. -/
def AddIncludeFile (senv : SourceMgrEnv) (mgr : SourceMgr) (filename : String) :
    Nat × SourceMgr :=
  match senv.openIncludeFile filename with
  | none => (0, mgr)
  | some buf => (mgr.buffers.length + 1, ⟨mgr.buffers ++ [buf]⟩)

/-- The member `FindLocForLineAndColumn(bufferId, line, column)`. -/
def FindLocForLineAndColumn (senv : SourceMgrEnv) (mgr : SourceMgr) (bufferId line column : Nat) :
    SMLoc :=
  match mgr.getMemoryBuffer bufferId with
  | some buf => senv.findLocForLineAndColumn buf line column
  | none => none

end SourceMgr

/-- The struct `detail::SourceMgrDiagnosticHandlerImpl`: the mapping between file name and
buffer id. -/
structure SourceMgrDiagnosticHandlerImpl where
  filenameToBufId : DenseMap String Nat
  deriving DecidableEq

namespace SourceMgrDiagnosticHandlerImpl

/-- The loop `for (unsigned i = 1, e = mgr.getNumBuffers() + 1; i != e; ++i)` of
`getSourceMgrBufferIDForFile`, from the id `i` on: the id of the first buffer that has the
file name as identifier. -/
def findBuffer (filename : String) : List MemoryBuffer → Nat → Option Nat
  | [], _ => none
  | buf :: rest, i =>
    if buf.bufferIdentifier = filename then some i else findBuffer filename rest (i + 1)

/-- The member `getSourceMgrBufferIDForFile(mgr, filename)`: the buffer id, zero if none can
be found, the object afterwards and the source manager afterwards. -/
def getSourceMgrBufferIDForFile (senv : SourceMgrEnv) (self : SourceMgrDiagnosticHandlerImpl)
    (mgr : SourceMgr) (filename : String) :
    Nat × SourceMgrDiagnosticHandlerImpl × SourceMgr :=
  -- Check for an existing mapping to the buffer id for this file.
  match self.filenameToBufId.get? filename with
  | some id => (id, self, mgr)
  | none =>
    -- Look for a buffer in the manager that has this filename.
    match findBuffer filename mgr.buffers 1 with
    | some i => (i, ⟨self.filenameToBufId.set filename i⟩, mgr)
    | none =>
      -- Otherwise, try to load the source file.
      match mgr.AddIncludeFile senv filename with
      | (id, mgr1) => (id, ⟨self.filenameToBufId.set filename id⟩, mgr1)

end SourceMgrDiagnosticHandlerImpl

/-- The class `SourceMgrDiagnosticHandler`: the source manager it refers to, the filter of the
locations to show, the limit of the call stack and the cache of buffer ids. What it writes to
its stream `os` is returned by its members as a list. -/
structure SourceMgrDiagnosticHandler where
  mgr : SourceMgr
  shouldShowLocFn : ShouldShowLocFn
  callStackLimit : Nat
  impl : SourceMgrDiagnosticHandlerImpl

namespace SourceMgrDiagnosticHandler

/-- The member `getBufferForFile(filename)`: the buffer, `none` for `nullptr`, and the object
afterwards. -/
def getBufferForFile (senv : SourceMgrEnv) (self : SourceMgrDiagnosticHandler)
    (filename : String) : Option MemoryBuffer × SourceMgrDiagnosticHandler :=
  match self.impl.getSourceMgrBufferIDForFile senv self.mgr filename with
  | (id, impl1, mgr1) =>
    (if id ≠ 0 then mgr1.getMemoryBuffer id else none, { self with mgr := mgr1, impl := impl1 })

/-- The member `convertLocToSMLoc(loc)` on the file name, line and column of a file
location. -/
def convertLocToSMLoc (senv : SourceMgrEnv) (self : SourceMgrDiagnosticHandler)
    (filename : String) (line column : Nat) : SMLoc × SourceMgrDiagnosticHandler :=
  -- The column and line may be zero to represent unknown column and/or unknown line.
  if line = 0 ∨ column = 0 then (none, self)
  else
    match self.impl.getSourceMgrBufferIDForFile senv self.mgr filename with
    | (bufferId, impl1, mgr1) =>
      if bufferId = 0 then (none, { self with mgr := mgr1, impl := impl1 })
      else
        (mgr1.FindLocForLineAndColumn senv bufferId line column,
          { self with mgr := mgr1, impl := impl1 })

/-- The member `emitDiagnostic(loc, message, kind, displaySourceLine)`: the object afterwards
and what was written. -/
def emitDiagnostic (P : ValuePrinter) (senv : SourceMgrEnv) (self : SourceMgrDiagnosticHandler)
    (loc : Location) (message : String) (kind : DiagnosticSeverity)
    (displaySourceLine : Bool) : SourceMgrDiagnosticHandler × List SMOutput :=
  -- Extract a file location from this loc.
  match loc.findInstanceOf with
  | none =>
    -- Print the raw message without a source location.
    let str := (if !loc.isUnknownLoc then P.printLocation loc ++ ": " else "") ++ message
    (self, [SMOutput.PrintMessage ⟨none, getDiagKind kind, str, none⟩])
  | some (filename, line, column) =>
    -- If we are displaying the source line, try to convert the file location to an SMLoc.
    match (if displaySourceLine then self.convertLocToSMLoc senv filename line column
      else (none, self)) with
    | (some smloc, self1) =>
      (self1, [SMOutput.PrintMessage ⟨some smloc, getDiagKind kind, message, none⟩])
    | (none, self1) =>
      -- If the conversion was unsuccessful, create a diagnostic with the file information.
      let locStr := filename ++ ":" ++ toString line ++ ":" ++ toString column
      (self1, [SMOutput.SMDiagnostic locStr (getDiagKind kind) message])

end SourceMgrDiagnosticHandler

/-! ## SourceMgrDiagnosticVerifierHandler: processing and verification -/

/-- The write `m.find(key)->second = value` through a reference into the map: the first pair
of the key gets the value, a map without the key stays as it is. -/
def DenseMap.update {K V : Type} [DecidableEq K] (m : DenseMap K V) (k : K) (v : V) :
    DenseMap K V :=
  match m with
  | [] => []
  | (k1, v1) :: rest => if k1 = k then (k1, v) :: rest else (k1, v1) :: DenseMap.update rest k v

/-- The class `SourceMgrDiagnosticVerifierHandler`: its base class object and its `impl`. -/
structure SourceMgrDiagnosticVerifierHandler where
  base : SourceMgrDiagnosticHandler
  impl : SourceMgrDiagnosticVerifierHandlerImpl

/-- Where the array `diags` of `process` points: at the expected diagnostics of a buffer, at
those of unknown location, or nowhere (the empty array that `computeExpectedDiags` returns
for no buffer). -/
inductive DiagsRef where
  | perFile (bufName : String)
  | unknownLoc
  | empty
  deriving DecidableEq

namespace SourceMgrDiagnosticVerifierHandlerImpl

/-- The elements of the array a `DiagsRef` points at. -/
def readDiags (self : SourceMgrDiagnosticVerifierHandlerImpl) : DiagsRef → List ExpectedDiag
  | DiagsRef.perFile bufName => (self.expectedDiagsPerFile.get? bufName).getD []
  | DiagsRef.unknownLoc => self.expectedUnknownLocDiags
  | DiagsRef.empty => []

/-- The object once the elements of the array a `DiagsRef` points at have been written. -/
def writeDiags (self : SourceMgrDiagnosticVerifierHandlerImpl) (ref : DiagsRef)
    (diags : List ExpectedDiag) : SourceMgrDiagnosticVerifierHandlerImpl :=
  match ref with
  | DiagsRef.perFile bufName =>
    { self with expectedDiagsPerFile := self.expectedDiagsPerFile.update bufName diags }
  | DiagsRef.unknownLoc => { self with expectedUnknownLocDiags := diags }
  | DiagsRef.empty => self

end SourceMgrDiagnosticVerifierHandlerImpl

namespace SourceMgrDiagnosticVerifierHandler

/-- The constructor `SourceMgrDiagnosticVerifierHandler(srcMgr, ctx, out, level)` on the base
class object its first initialiser has built: the expected diagnostics of each of the current
buffers of the source manager are computed. The object and what was written; the
registration of the handler in the engine of the context is not part of this value. -/
def create (env : VerifierEnv) (base : SourceMgrDiagnosticHandler) (level : Level) :
    SourceMgrDiagnosticVerifierHandler × List SMOutput :=
  match base.mgr.buffers.foldl
    (fun (acc : SourceMgrDiagnosticVerifierHandlerImpl × List SMMessage) buf =>
      match acc.1.computeExpectedDiags env (some buf) with
      | (impl1, _, printed) => (impl1, acc.2 ++ printed))
    (SourceMgrDiagnosticVerifierHandlerImpl.create level, []) with
  | (impl, printed) => (⟨base, impl⟩, printed.map SMOutput.PrintMessage)

/-- The loop `for (auto &e : diags)` of `process` over the elements that are left, with the
near miss found so far: the elements afterwards, whether the loop has returned from `process`
(an expected diagnostic was marked), and the near miss at the end. `fileLine` is the line of
the file location of the diagnostic, `none` when it has no file location. -/
def processLoop (env : VerifierEnv) (fileLine : Option Nat) (msg : String)
    (kind : DiagnosticSeverity) :
    List ExpectedDiag → Option ExpectedDiag → List ExpectedDiag × Bool × Option ExpectedDiag
  | [], nearMiss => ([], false, nearMiss)
  | e :: rest, nearMiss =>
    -- File line must match (unless it is an unknown location).
    if fileLine.isSome ∧ fileLine ≠ some e.lineNo then
      match processLoop env fileLine msg kind rest nearMiss with
      | (rest1, returned, nearMiss1) => (e :: rest1, returned, nearMiss1)
    else if e.isMatch env msg then
      if e.kind = kind then ({ e with matched := true } :: rest, true, nearMiss)
      else
        -- If this only differs based on the diagnostic kind, then it is a near miss.
        match processLoop env fileLine msg kind rest (some e) with
        | (rest1, returned, nearMiss1) => (e :: rest1, returned, nearMiss1)
    else
      match processLoop env fileLine msg kind rest nearMiss with
      | (rest1, returned, nearMiss1) => (e :: rest1, returned, nearMiss1)

/-- The start of `process(loc, msg, kind)` for a diagnostic with the file location `fileLoc`
(`none` when it has none): the object afterwards, where the array `diags` points, and what was
written. -/
def getDiags (env : VerifierEnv) (senv : SourceMgrEnv)
    (self : SourceMgrDiagnosticVerifierHandler) (fileLoc : Option (String × Nat × Nat)) :
    SourceMgrDiagnosticVerifierHandler × DiagsRef × List SMOutput :=
  match fileLoc with
  | some (filename, _, _) =>
    -- Get the expected diagnostics for this file.
    match self.impl.getExpectedDiags filename with
    | some _ => (self, DiagsRef.perFile filename, [])
    | none =>
      match self.base.getBufferForFile senv filename with
      | (buf, base1) =>
        match self.impl.computeExpectedDiags env buf with
        | (impl1, _, printed) =>
          (⟨base1, impl1⟩,
            (match buf with
              | some b => DiagsRef.perFile b.bufferIdentifier
              | none => DiagsRef.empty),
            printed.map SMOutput.PrintMessage)
  | none =>
    -- Get all expected diagnostics at unknown locations.
    (self, DiagsRef.unknownLoc, [])

/-- The member `process(loc, msg, kind)`: the object afterwards and what was written. -/
def process (P : ValuePrinter) (env : VerifierEnv) (senv : SourceMgrEnv)
    (self : SourceMgrDiagnosticVerifierHandler) (loc : Location) (msg : String)
    (kind : DiagnosticSeverity) : SourceMgrDiagnosticVerifierHandler × List SMOutput :=
  match getDiags env senv self loc.findInstanceOf with
  | (self1, diags, printed1) =>
    -- Search for a matching expected diagnostic.
    match processLoop env (loc.findInstanceOf.map (fun fileLoc => fileLoc.2.1)) msg kind
      (self1.impl.readDiags diags) none with
    | (diags1, true, _) =>
      -- This was an expected error: remember that we saw it and return.
      ({ self1 with impl := self1.impl.writeDiags diags diags1 }, printed1)
    | (_, false, nearMiss) =>
      if self1.impl.level = Level.OnlyExpected then (self1, printed1)
      else
        match nearMiss with
        | some nearMiss =>
          -- Emit an error for the near miss.
          ({ self1 with impl := { self1.impl with status := LogicalResult.failure } },
            printed1 ++ [SMOutput.PrintMessage ⟨nearMiss.fileLoc, DiagKind.DK_Error,
              "'" ++ getDiagKindStr kind ++ "' diagnostic emitted when expecting a '" ++
                getDiagKindStr nearMiss.kind ++ "'", none⟩])
        | none =>
          match self1.base.emitDiagnostic P senv loc
            ("unexpected " ++ getDiagKindStr kind ++ ": " ++ msg) DiagnosticSeverity.Error
            true with
          | (base2, printed2) =>
            (⟨base2, { self1.impl with status := LogicalResult.failure }⟩,
              printed1 ++ printed2)

/-- The member `process(diag)`. -/
def process.diag (P : ValuePrinter) (env : VerifierEnv) (senv : SourceMgrEnv)
    (self : SourceMgrDiagnosticVerifierHandler) (diag : Diagnostic) :
    SourceMgrDiagnosticVerifierHandler × List SMOutput :=
  process P env senv self diag.getLocation (diag.str P) diag.getSeverity

/-- The lambda `checkExpectedDiags` of `verify`, on the status and the messages printed so
far. -/
def checkExpectedDiags (err : ExpectedDiag) (st : LogicalResult × List SMMessage) :
    LogicalResult × List SMMessage :=
  if !err.matched then
    (LogicalResult.failure,
      st.2 ++ [err.emitError ("expected " ++ getDiagKindStr err.kind ++ " \"" ++
        err.substring ++ "\" was not produced")])
  else st

/-- The member `verify()`: the status it returns, the object afterwards and what was written.
The collections of the buffers are visited in the order of the pairs of the map. -/
def verify (self : SourceMgrDiagnosticVerifierHandler) :
    LogicalResult × SourceMgrDiagnosticVerifierHandler × List SMOutput :=
  -- Verify that all expected errors were seen.
  match self.impl.expectedUnknownLocDiags.foldl (fun st err => checkExpectedDiags err st)
    (self.impl.expectedDiagsPerFile.foldl
      (fun st expectedDiagsPair =>
        expectedDiagsPair.2.foldl (fun st err => checkExpectedDiags err st) st)
      (self.impl.status, [])) with
  | (status, printed) =>
    (status,
      { self with impl := { self.impl with status := status, expectedDiagsPerFile := [] } },
      printed.map SMOutput.PrintMessage)

end SourceMgrDiagnosticVerifierHandler

/-- One call on a verifier: `impl->computeExpectedDiags(os, mgr, buf)`,
`process(loc, msg, kind)` or `verify()`. -/
inductive VerifierOp where
  | computeExpectedDiags (buf : Option MemoryBuffer)
  | process (loc : Location) (msg : String) (kind : DiagnosticSeverity)
  | verify

/-- The verifier after one call. -/
def SourceMgrDiagnosticVerifierHandler.step (P : ValuePrinter) (env : VerifierEnv)
    (senv : SourceMgrEnv) (self : SourceMgrDiagnosticVerifierHandler) :
    VerifierOp → SourceMgrDiagnosticVerifierHandler
  | VerifierOp.computeExpectedDiags buf =>
    { self with impl := (self.impl.computeExpectedDiags env buf).1 }
  | VerifierOp.process loc msg kind => (self.process P env senv loc msg kind).1
  | VerifierOp.verify => self.verify.2.1

/-- The verifier after a sequence of calls. -/
def SourceMgrDiagnosticVerifierHandler.run (P : ValuePrinter) (env : VerifierEnv)
    (senv : SourceMgrEnv) (self : SourceMgrDiagnosticVerifierHandler)
    (ops : List VerifierOp) : SourceMgrDiagnosticVerifierHandler :=
  ops.foldl (fun h op => h.step P env senv op) self

/-! ## Vocabulary of the statements on processing and verification -/

/-- The position, counted from 0 in `lines`, of the first line that does not match the pattern
of the annotations; `none` when every line matches. -/
def nextNonDesignatorLine (env : VerifierEnv) : List (List Char) → Option Nat
  | [] => none
  | line :: rest =>
    if (env.expected (String.mk (StringRef.rtrim line))).isNone then some 0
    else (nextNonDesignatorLine env rest).map (fun j => j + 1)

namespace Example

/-- A buffer of three lines: two annotations with `@below` and code. -/
def bufBelow : MemoryBuffer :=
  ⟨"below.mlir", "// expected-error@below \x7b\x7bm\x7d\x7d\n// expected-warning@below \x7b\x7bn\x7d\x7d\ncode"⟩

/-- A buffer of two lines: code and an annotation with `@below` that no line follows. -/
def bufDangling : MemoryBuffer :=
  ⟨"dangling.mlir", "code\n// expected-error@below \x7b\x7bm\x7d\x7d"⟩

end Example

/-- The expected diagnostic `e` is a candidate for a diagnostic with the message `msg` whose
file location has the line `fileLine` (`none` when it has no file location): it is on that
line, if there is one, and its pattern matches the message. -/
def ExpectedDiag.isCandidate (env : VerifierEnv) (fileLine : Option Nat) (msg : String)
    (e : ExpectedDiag) : Bool :=
  (match fileLine with
    | some line => line == e.lineNo
    | none => true) && e.isMatch env msg

/-- The text `l0 {{r1}} l1 ... {{rn}} ln` of the spec: the literal text `l0` followed by the
blocks, each a regex text in double braces followed by a literal text. -/
def regexText : List Char → List (List Char × List Char) → List Char
  | l0, [] => l0
  | l0, (r, l) :: blocks => l0 ++ '{' :: '{' :: (r ++ '}' :: '}' :: regexText l blocks)

/-- The pattern `escape(l0) ++ "(" ++ r1 ++ ")" ++ escape(l1) ++ ... ++ "(" ++ rn ++ ")" ++
escape(ln)` of the spec. -/
def regexPattern (env : VerifierEnv) : List Char → List (List Char × List Char) → String
  | l0, [] => env.escape (String.mk l0)
  | l0, (r, l) :: blocks =>
    env.escape (String.mk l0) ++ "(" ++ String.mk r ++ ")" ++ regexPattern env l blocks

/-- The text is split where the spec splits it: each `{{` shown is the first one of the text
that is left, each regex text `ri` is the text up to the first following `}}` and is a valid
regex, and the last literal text holds no `{{`. -/
def regexWellFormed (env : VerifierEnv) : List Char → List (List Char × List Char) → Prop
  | l0, [] => StringRef.find ['{', '{'] l0 = none
  | l0, (r, l) :: blocks =>
    StringRef.find ['{', '{'] (l0 ++ ['{', '{']) = some l0.length ∧
    StringRef.find ['}', '}'] (r ++ ['}', '}']) = some r.length ∧
    env.isValid (String.mk r) = none ∧
    regexWellFormed env l blocks

/-- Whether a text is split where the spec splits it can be decided. -/
def regexWellFormed.decidable (env : VerifierEnv) :
    (l0 : List Char) → (blocks : List (List Char × List Char)) →
      Decidable (regexWellFormed env l0 blocks)
  | l0, [] => inferInstanceAs (Decidable (StringRef.find ['{', '{'] l0 = none))
  | _, (_, l) :: blocks =>
    @instDecidableAnd _ _ inferInstance
      (@instDecidableAnd _ _ inferInstance
        (@instDecidableAnd _ _ inferInstance (regexWellFormed.decidable env l blocks)))

instance (env : VerifierEnv) (l0 : List Char) (blocks : List (List Char × List Char)) :
    Decidable (regexWellFormed env l0 blocks) :=
  regexWellFormed.decidable env l0 blocks

namespace Example

/-- The offset of a line and column in the text of a buffer, when the buffer has them. -/
def findLoc (buf : MemoryBuffer) (line column : Nat) : SMLoc :=
  match (StringRef.split '\n' buf.buffer.data)[line - 1]? with
  | some text =>
    if column - 1 ≤ text.length then
      some (StringRef.offsetAfter ((StringRef.split '\n' buf.buffer.data).take (line - 1))
        + (column - 1))
    else none
  | none => none

/-- A file system without files. -/
def senv : SourceMgrEnv := ⟨fun _ => none, findLoc⟩

/-- The base class object of a handler on the buffers `buffers`: no filter, call stack limit
10, nothing cached. -/
def base (buffers : List MemoryBuffer) : SourceMgrDiagnosticHandler :=
  ⟨⟨buffers⟩, none, 10, ⟨[]⟩⟩

/-- The verifier that the constructor builds on the buffers `buffers`. -/
def verifier (level : Level) (buffers : List MemoryBuffer) :
    SourceMgrDiagnosticVerifierHandler :=
  (SourceMgrDiagnosticVerifierHandler.create env (base buffers) level).1

/-- A buffer of one line: an annotation of an error. -/
def bufFoo : MemoryBuffer := ⟨"foo.mlir", "// expected-error \x7b\x7bcannot find 'foo'\x7d\x7d"⟩

/-- A buffer of one line: an annotation of a warning. -/
def bufWarn : MemoryBuffer := ⟨"warn.mlir", "// expected-warning \x7b\x7bm\x7d\x7d"⟩

/-- A buffer of one line: an annotation with `@unknown`. -/
def bufUnknown : MemoryBuffer := ⟨"unknown.mlir", "// expected-error@unknown \x7b\x7bm\x7d\x7d"⟩

/-- A buffer of one line: an annotation with `-re` and `@unknown` whose text opens a regex
block and does not close it. -/
def bufUnknownUnterminated : MemoryBuffer :=
  ⟨"unknown-re.mlir", "// expected-error-re@unknown \x7b\x7bfoo\x7b\x7bbar\x7d\x7d"⟩

/-- A buffer of two lines: an annotation with `-re` whose text opens a regex block and does
not close it, and an annotation of a warning. -/
def bufUnterminatedThen : MemoryBuffer :=
  ⟨"re2.mlir", "// expected-error-re \x7b\x7bfoo\x7b\x7bbar\x7d\x7d\n// expected-warning \x7b\x7bw\x7d\x7d"⟩

/-- A verifier of the level OnlyExpected that was built on a source manager without buffers,
after which the source manager has been given the buffer `bufUnterminated`. -/
def verifierLate : SourceMgrDiagnosticVerifierHandler :=
  { verifier Level.OnlyExpected [] with base := base [bufUnterminated] }

/-- A file system with the one file `re.mlir`, which holds the text of `bufUnterminated`. -/
def senvFile : SourceMgrEnv :=
  ⟨fun filename => if filename = "re.mlir" then some bufUnterminated else none, findLoc⟩

end Example

/-! ## ParallelDiagnosticHandler: printing the diagnostics in flight -/

namespace ParallelDiagnosticHandlerImpl

/-- The member `print(os)`: the object afterwards and the stream afterwards. The callback
takes the diagnostic by constant reference and leaves it as it is. -/
def print (P : ValuePrinter) (self : ParallelDiagnosticHandlerImpl) (os : String) :
    ParallelDiagnosticHandlerImpl × String :=
  -- Early exit if there are no diagnostics, this is the common case.
  if self.diagnostics.isEmpty then (self, os)
  else
    self.emitDiagnostics
      (fun diag os =>
        let os := os ++ "    "
        -- Print each diagnostic with the format: "<location>: <kind>: <msg>"
        let os :=
          if !diag.getLocation.isUnknownLoc then os ++ P.printLocation diag.getLocation ++ ": "
          else os
        let os := os ++
          (match diag.getSeverity with
            | DiagnosticSeverity.Error => "error: "
            | DiagnosticSeverity.Warning => "warning: "
            | DiagnosticSeverity.Note => "note: "
            | DiagnosticSeverity.Remark => "remark: ")
        (diag, os ++ diag.print P ++ "\n"))
      (os ++ "In-Flight Diagnostics:\n")

end ParallelDiagnosticHandlerImpl

/-- One call on a parallel handler while it is registered: its handler is run for a
diagnostic on the thread `tid`, or the order id of a thread is set or erased. -/
inductive ParallelOp where
  | handler (tid : Nat) (diag : Diagnostic)
  | setOrderIDForThread (tid orderID : Nat)
  | eraseOrderIDForThread (tid : Nat)

/-- The parallel handler after one call. -/
def ParallelDiagnosticHandlerImpl.step (self : ParallelDiagnosticHandlerImpl) :
    ParallelOp → ParallelDiagnosticHandlerImpl
  | ParallelOp.handler tid diag => (ParallelDiagnosticHandlerImpl.handler tid diag self).2.2
  | ParallelOp.setOrderIDForThread tid orderID => self.setOrderIDForThread tid orderID
  | ParallelOp.eraseOrderIDForThread tid => self.eraseOrderIDForThread tid

/-- The parallel handler after a sequence of calls. -/
def ParallelDiagnosticHandlerImpl.run (self : ParallelDiagnosticHandlerImpl)
    (ops : List ParallelOp) : ParallelDiagnosticHandlerImpl :=
  ops.foldl (fun h op => h.step op) self

/-! ## SourceMgrDiagnosticHandler: the emission of a diagnostic -/

/-- The member `getCaller()` of a call site. It is called on what `getCallSiteLoc` has
returned, which is a call site, so the last case is never reached. -/
def Location.getCaller : Location → Location
  | Location.CallSiteLoc _ caller => caller
  | loc => loc

/-- A call of `emitDiagnostic(loc, message, kind, displaySourceLine)`. -/
structure EmitDiagnosticCall where
  loc : Location
  message : String
  kind : DiagnosticSeverity
  displaySourceLine : Bool
  deriving DecidableEq

namespace SourceMgrDiagnosticHandler

/-- The member `setCallStackLimit(limit)`. -/
def setCallStackLimit (self : SourceMgrDiagnosticHandler) (limit : Nat) :
    SourceMgrDiagnosticHandler :=
  { self with callStackLimit := limit }

/-- The lambda `addLocToStack` of `emitDiagnostic(diag)`: the location stack afterwards. -/
def addLocToStack (self : SourceMgrDiagnosticHandler)
    (locationStack : List (Location × String)) (loc : Location) (locContext : String) :
    List (Location × String) :=
  match findLocToShow self.shouldShowLocFn loc with
  | some showableLoc => locationStack ++ [(showableLoc, locContext)]
  | none => locationStack

/-- The loop `for (unsigned curDepth = 0; curDepth < callStackLimit; ++curDepth)` of
`emitDiagnostic(diag)` with `n = callStackLimit - curDepth` rounds to go: the location stack
and the variable `loc` at its end. -/
def callStackLoop (self : SourceMgrDiagnosticHandler) :
    Nat → Location → List (Location × String) → List (Location × String) × Location
  | 0, loc, locationStack => (locationStack, loc)
  | n + 1, loc, locationStack =>
    match getCallSiteLoc loc with
    | some callLoc =>
      callStackLoop self n callLoc.getCaller (self.addLocToStack locationStack loc "called from")
    | none => (self.addLocToStack locationStack loc "called from", loc)

/-- The part "Add locations to display for this diagnostic" of `emitDiagnostic(diag)`: the
location stack and the variable `loc` at its end. -/
def locationStack (self : SourceMgrDiagnosticHandler) (diag : Diagnostic) :
    List (Location × String) × Location :=
  match getCallSiteLoc diag.getLocation with
  | some callLoc =>
    -- Print the call stack while valid, or until the limit is reached.
    self.callStackLoop self.callStackLimit callLoc.getCaller
      (self.addLocToStack [] diag.getLocation "")
  | none => (self.addLocToStack [] diag.getLocation "", diag.getLocation)

/-- The loop `for (auto &note : diag.getNotes())` of `emitDiagnostic(diag)` from the value
`loc` of the variable `loc` on: the calls it makes. -/
def emitDiagnostic.notes (P : ValuePrinter) : Location → List Diagnostic → List EmitDiagnosticCall
  | _, [] => []
  | loc, note :: rest =>
    ⟨note.getLocation, note.str P, note.getSeverity, decide (loc ≠ note.getLocation)⟩ ::
      emitDiagnostic.notes P note.getLocation rest

/-- The calls of `emitDiagnostic(loc, message, kind, displaySourceLine)` that
`emitDiagnostic(diag)` makes, in order. A call that leaves the last argument out has the
default `true` of the declaration. The filter and the limit that decide the calls are members
that no call changes. -/
def emitDiagnostic.calls (P : ValuePrinter) (self : SourceMgrDiagnosticHandler)
    (diag : Diagnostic) : List EmitDiagnosticCall :=
  match self.locationStack diag with
  | (locationStack, loc) =>
    (match locationStack with
      -- If the location stack is empty, use the initial location.
      | [] => [⟨diag.getLocation, diag.str P, diag.getSeverity, true⟩]
      -- Otherwise, use the location stack.
      | front :: rest =>
        ⟨front.1, diag.str P, diag.getSeverity, true⟩ ::
          rest.map (fun it => ⟨it.1, it.2, DiagnosticSeverity.Note, true⟩))
    -- Emit each of the notes.
    ++ emitDiagnostic.notes P loc diag.getNotes

/-- The member `emitDiagnostic(diag)`: the object afterwards and what was written. -/
def emitDiagnostic.diag (P : ValuePrinter) (senv : SourceMgrEnv)
    (self : SourceMgrDiagnosticHandler) (diag : Diagnostic) :
    SourceMgrDiagnosticHandler × List SMOutput :=
  (emitDiagnostic.calls P self diag).foldl
    (fun acc call =>
      match acc.1.emitDiagnostic P senv call.loc call.message call.kind
        call.displaySourceLine with
      | (self1, printed) => (self1, acc.2 ++ printed))
    (self, [])

end SourceMgrDiagnosticHandler

namespace Example

/-- The file location a.mlir:1:1. -/
def locA : Location := Location.FileLineColLoc "a.mlir" 1 1

/-- The file location b.mlir:2:1. -/
def locB : Location := Location.FileLineColLoc "b.mlir" 2 1

/-- The file location c.mlir:3:1. -/
def locC : Location := Location.FileLineColLoc "c.mlir" 3 1

/-- An error at the call site of `locA` that is called from the call site of `locB`, which
is called from `locC`, with one note at `locC`. -/
def diagCut : Diagnostic :=
  ⟨Location.CallSiteLoc locA (Location.CallSiteLoc locB locC), DiagnosticSeverity.Error,
    [DiagnosticArgument.Str "bad"],
    [⟨locC, DiagnosticSeverity.Note, [DiagnosticArgument.Str "see"], []⟩]⟩

end Example

namespace Example

/-- The same error as `diagCut`, with one note at the location of the last caller that the
call-stack limit 1 lets through. -/
def diagCutSame : Diagnostic :=
  ⟨Location.CallSiteLoc locA (Location.CallSiteLoc locB locC), DiagnosticSeverity.Error,
    [DiagnosticArgument.Str "bad"],
    [⟨Location.CallSiteLoc locB locC, DiagnosticSeverity.Note,
      [DiagnosticArgument.Str "see"], []⟩]⟩

/-- The buffers of the files a.mlir, b.mlir and c.mlir. -/
def sources : List MemoryBuffer :=
  [⟨"a.mlir", "a1"⟩, ⟨"b.mlir", "b1\nb2"⟩, ⟨"c.mlir", "c1\nc2\nc3"⟩]

end Example

/-! ## Vocabulary of the statements on the location to show and on verification -/

mutual
/-- The location `r` is `loc` itself or occurs inside `loc` on a way that never enters the
caller of a call site: through the callee of a call site, a child of a fused location, the
child of a name location or the fallback of an opaque location. -/
def Location.occursOutsideCallers (r : Location) : Location → Bool
  | Location.CallSiteLoc callee caller =>
    r == Location.CallSiteLoc callee caller || Location.occursOutsideCallers r callee
  | Location.FileLineColLoc filename line column =>
    r == Location.FileLineColLoc filename line column
  | Location.FusedLoc locations =>
    r == Location.FusedLoc locations || Location.occursOutsideCallers.children r locations
  | Location.NameLoc name childLoc =>
    r == Location.NameLoc name childLoc || Location.occursOutsideCallers r childLoc
  | Location.OpaqueLoc fallbackLocation =>
    r == Location.OpaqueLoc fallbackLocation || Location.occursOutsideCallers r fallbackLocation
  | Location.UnknownLoc => r == Location.UnknownLoc
/-- The location `r` occurs in this way inside one of the locations of a list. -/
def Location.occursOutsideCallers.children (r : Location) : List Location → Bool
  | [] => false
  | childLoc :: rest =>
    Location.occursOutsideCallers r childLoc || Location.occursOutsideCallers.children r rest
end

/-- The expected diagnostics that `verify` checks, in the order in which it checks them: those
of the collections of the buffers in the order of the pairs of the map, then those of unknown
location. -/
def SourceMgrDiagnosticVerifierHandlerImpl.checked
    (self : SourceMgrDiagnosticVerifierHandlerImpl) : List ExpectedDiag :=
  self.expectedDiagsPerFile.foldr (fun pair rest => pair.2 ++ rest) []
    ++ self.expectedUnknownLocDiags

/-! ## SourceMgrDiagnosticVerifierHandler: the handler registered in the context -/

/-- Modelled from the spec: the overload of `registerHandler` for a callable that returns
nothing is defined in mlir/IR/Diagnostics.h, which is not among the sources. A handler is a
"function-from-record-to-outcome", and the walk stops at "the first handler that reports
"handled""; a callable that returns nothing is registered as the handler that calls it and
then reports success, that is "handled". -/
def DiagnosticEngine.voidHandler {σ : Type} (handler : Diagnostic → σ → Diagnostic × σ) :
    HandlerTy σ :=
  fun diag s =>
    match handler diag s with
    | (diag1, s1) => (LogicalResult.success, diag1, s1)

namespace SourceMgrDiagnosticVerifierHandler

/-- One call `process(diag)` of the lambda of `registerInContext` on the verifier and what
it has written so far. -/
def registerInContext.process (P : ValuePrinter) (env : VerifierEnv) (senv : SourceMgrEnv)
    (s : SourceMgrDiagnosticVerifierHandler × List SMOutput) (diag : Diagnostic) :
    SourceMgrDiagnosticVerifierHandler × List SMOutput :=
  match process.diag P env senv s.1 diag with
  | (self1, printed) => (self1, s.2 ++ printed)

/-- The lambda that `registerInContext` registers, on the verifier it has captured and what
the verifier has written so far. It reads the diagnostic and leaves it as it is. -/
def registerInContext.lambda (P : ValuePrinter) (env : VerifierEnv) (senv : SourceMgrEnv)
    (diag : Diagnostic) (s : SourceMgrDiagnosticVerifierHandler × List SMOutput) :
    Diagnostic × SourceMgrDiagnosticVerifierHandler × List SMOutput :=
  -- Process the main diagnostics.
  let s := registerInContext.process P env senv s diag
  -- Process each of the notes.
  (diag, diag.getNotes.foldl (registerInContext.process P env senv) s)

/-- The member `registerInContext(ctx)` on the diagnostic engine of the context: the engine
afterwards and the identifier of the handler. -/
def registerInContext (P : ValuePrinter) (env : VerifierEnv) (senv : SourceMgrEnv)
    (ctx : DiagnosticEngine (SourceMgrDiagnosticVerifierHandler × List SMOutput)) :
    DiagnosticEngine (SourceMgrDiagnosticVerifierHandler × List SMOutput) × HandlerID :=
  ctx.registerHandler (DiagnosticEngine.voidHandler (registerInContext.lambda P env senv))

end SourceMgrDiagnosticVerifierHandler

namespace Example

/-- A handler that handles every diagnostic and leaves the verifier as it is. -/
def acceptAll : HandlerTy (SourceMgrDiagnosticVerifierHandler × List SMOutput) :=
  fun diag s => (LogicalResult.success, diag, s)

/-- An engine with the handler `acceptAll` and, registered after it, the handler of a
verifier. -/
def engineVerifier : DiagnosticEngine (SourceMgrDiagnosticVerifierHandler × List SMOutput) :=
  (SourceMgrDiagnosticVerifierHandler.registerInContext printer env senv
    ((DiagnosticEngine.create.registerHandler acceptAll).1)).1

/-- An error at foo.mlir:1:1 with the message "cannot find 'foo'" and one note at
foo.mlir:1:1 with the message "see". -/
def diagFoo : Diagnostic :=
  ⟨Location.FileLineColLoc "foo.mlir" 1 1, DiagnosticSeverity.Error,
    [DiagnosticArgument.Str "cannot find 'foo'"],
    [⟨Location.FileLineColLoc "foo.mlir" 1 1, DiagnosticSeverity.Note,
      [DiagnosticArgument.Str "see"], []⟩]⟩

end Example

/-! ## Vocabulary of the statements on what `process` changes -/

/-- The expected diagnostic at the index `i` of the collection that `ref` points at, if there
is one. -/
def SourceMgrDiagnosticVerifierHandlerImpl.expectationAt
    (self : SourceMgrDiagnosticVerifierHandlerImpl) (ref : DiagsRef) (i : Nat) :
    Option ExpectedDiag :=
  (self.readDiags ref)[i]?

namespace Example

/-- A verifier of the level All that was built on a source manager without buffers, which has
got the buffer `bufFoo` since. -/
def verifierLazy : SourceMgrDiagnosticVerifierHandler :=
  { verifier Level.All [] with base := base [bufFoo] }

end Example

namespace Example

/-- A verifier of the level `level` that was built on a source manager without buffers, which
has got the buffers `buffers` since. -/
def verifierAdded (level : Level) (buffers : List MemoryBuffer) :
    SourceMgrDiagnosticVerifierHandler :=
  { verifier level [] with base := base buffers }

/-- A file system in which the file foo.mlir is found in an include directory: its buffer has
the text of `bufFoo` and the identifier inc/foo.mlir. -/
def senvInclude : SourceMgrEnv :=
  ⟨fun filename =>
    if filename = "foo.mlir" then some ⟨"inc/foo.mlir", bufFoo.buffer⟩ else none, findLoc⟩

end Example

/-! ## Lemmas on the stable sort -/

section StableSort

variable {α : Type} (lt : α → α → Bool)

theorem stable_sort.insert_perm (x : α) (l : List α) :
    (stable_sort.insert lt x l).Perm (x :: l) := by
  induction l with
  | nil => exact List.Perm.refl _
  | cons y ys ih =>
    unfold stable_sort.insert
    split
    · exact (List.Perm.cons y ih).trans (List.Perm.swap x y ys)
    · exact List.Perm.refl _

theorem stable_sort_perm (l : List α) : (stable_sort lt l).Perm l := by
  induction l with
  | nil => exact List.Perm.refl _
  | cons x xs ih =>
    unfold stable_sort
    exact (stable_sort.insert_perm lt x _).trans (List.Perm.cons x ih)

end StableSort

theorem stable_sort.insert_nonDecreasing (x : ThreadDiagnostic) (l : List ThreadDiagnostic)
    (h : NonDecreasing l) : NonDecreasing (stable_sort.insert ThreadDiagnostic.lt x l) := by
  induction l with
  | nil => simp [stable_sort.insert, NonDecreasing]
  | cons y ys ih =>
    unfold NonDecreasing at h ih ⊢
    rw [List.pairwise_cons] at h
    unfold stable_sort.insert
    by_cases hlt : ThreadDiagnostic.lt y x = true
    · rw [if_pos hlt, List.pairwise_cons]
      refine ⟨?_, ih h.2⟩
      intro z hz
      have hz2 : z ∈ x :: ys := (stable_sort.insert_perm _ x ys).mem_iff.mp hz
      rcases List.mem_cons.mp hz2 with rfl | hz3
      · exact Nat.le_of_lt (of_decide_eq_true hlt)
      · exact h.1 z hz3
    · rw [if_neg hlt, List.pairwise_cons, List.pairwise_cons]
      have hxy : x.id ≤ y.id := by
        have : ¬ y.id < x.id := fun hc => hlt (decide_eq_true hc)
        omega
      refine ⟨?_, h⟩
      intro z hz
      rcases List.mem_cons.mp hz with rfl | hz3
      · exact hxy
      · exact Nat.le_trans hxy (h.1 z hz3)

theorem stable_sort_nonDecreasing (l : List ThreadDiagnostic) :
    NonDecreasing (stable_sort ThreadDiagnostic.lt l) := by
  induction l with
  | nil => simp [stable_sort, NonDecreasing]
  | cons x xs ih =>
    unfold stable_sort
    exact stable_sort.insert_nonDecreasing x _ ih

theorem stable_sort.insert_entriesOf (k : Nat) (x : ThreadDiagnostic)
    (l : List ThreadDiagnostic) :
    entriesOf k (stable_sort.insert ThreadDiagnostic.lt x l) = entriesOf k (x :: l) := by
  induction l with
  | nil => rfl
  | cons y ys ih =>
    unfold stable_sort.insert
    by_cases hlt : ThreadDiagnostic.lt y x = true
    · rw [if_pos hlt]
      have hyx : y.id < x.id := of_decide_eq_true hlt
      unfold entriesOf at ih ⊢
      by_cases hx : x.id = k
      · have hy : ¬ y.id = k := by omega
        simp only [List.filter_cons, hx, hy, decide_True, decide_False, if_true] at ih ⊢
        simpa using ih
      · simp only [List.filter_cons, hx, decide_False] at ih ⊢
        by_cases hy : y.id = k
        · simp only [hy, decide_True, if_true]
          simpa using ih
        · simp only [hy, decide_False]
          simpa using ih
    · rw [if_neg hlt]

theorem stable_sort_entriesOf (k : Nat) (l : List ThreadDiagnostic) :
    entriesOf k (stable_sort ThreadDiagnostic.lt l) = entriesOf k l := by
  induction l with
  | nil => rfl
  | cons x xs ih =>
    unfold stable_sort
    rw [stable_sort.insert_entriesOf]
    unfold entriesOf at ih ⊢
    simp only [List.filter_cons, ih]

theorem entriesOf_cons_self (a : ThreadDiagnostic) (l : List ThreadDiagnostic) :
    entriesOf a.id (a :: l) = a :: entriesOf a.id l := by
  simp [entriesOf, List.filter_cons]

theorem entriesOf_cons_ne (k : Nat) (a : ThreadDiagnostic) (l : List ThreadDiagnostic)
    (h : a.id ≠ k) : entriesOf k (a :: l) = entriesOf k l := by
  simp [entriesOf, List.filter_cons, h]

theorem mem_of_mem_entriesOf {k : Nat} {a : ThreadDiagnostic} {l : List ThreadDiagnostic}
    (h : a ∈ entriesOf k l) : a ∈ l :=
  (List.mem_filter.mp h).1

theorem NonDecreasing.head_le {b : ThreadDiagnostic} {l : List ThreadDiagnostic}
    (h : NonDecreasing (b :: l)) {a : ThreadDiagnostic} (ha : a ∈ b :: l) : b.id ≤ a.id := by
  rcases List.mem_cons.mp ha with rfl | ha2
  · exact Nat.le_refl _
  · exact (List.pairwise_cons.mp h).1 a ha2

/-- Two lists that are non-decreasing in the order id and have, for every order id, the same
entries in the same order are equal. -/
theorem NonDecreasing.ext : ∀ (l1 l2 : List ThreadDiagnostic), NonDecreasing l1 →
    NonDecreasing l2 → (∀ k, entriesOf k l1 = entriesOf k l2) → l1 = l2
  | [], [], _, _, _ => rfl
  | [], b :: t2, _, _, h => by
    have := h b.id
    rw [entriesOf_cons_self] at this
    cases this
  | a :: t1, [], _, _, h => by
    have := h a.id
    rw [entriesOf_cons_self] at this
    cases this
  | a :: t1, b :: t2, h1, h2, h => by
    have ha : a ∈ b :: t2 := by
      apply @mem_of_mem_entriesOf a.id
      rw [← h a.id, entriesOf_cons_self]
      exact List.mem_cons_self _ _
    have hb : b ∈ a :: t1 := by
      apply @mem_of_mem_entriesOf b.id
      rw [h b.id, entriesOf_cons_self]
      exact List.mem_cons_self _ _
    have hid : a.id = b.id := Nat.le_antisymm (h1.head_le hb) (h2.head_le ha)
    have hk := h a.id
    rw [entriesOf_cons_self] at hk
    rw [hid, entriesOf_cons_self] at hk
    injection hk with hab htl
    subst hab
    have htails : ∀ k, entriesOf k t1 = entriesOf k t2 := by
      intro k
      by_cases hk2 : a.id = k
      · subst hk2; exact htl
      · have := h k
        rwa [entriesOf_cons_ne k a t1 hk2, entriesOf_cons_ne k a t2 hk2] at this
    rw [NonDecreasing.ext t1 t2 (List.pairwise_cons.mp h1).2 (List.pairwise_cons.mp h2).2 htails]

theorem stable_sort_congr (l1 l2 : List ThreadDiagnostic)
    (h : ∀ k, entriesOf k l1 = entriesOf k l2) :
    stable_sort ThreadDiagnostic.lt l1 = stable_sort ThreadDiagnostic.lt l2 := by
  apply NonDecreasing.ext _ _ (stable_sort_nonDecreasing l1) (stable_sort_nonDecreasing l2)
  intro k
  rw [stable_sort_entriesOf, stable_sort_entriesOf, h k]

namespace ParallelDiagnosticHandlerImpl

theorem emitEach_log (l : List ThreadDiagnostic) (calls : List EngineCall) :
    (emitEach (fun diag calls => (diag.moved, calls ++ [EngineCall.emit diag])) l calls).2
      = calls ++ l.map (fun td => EngineCall.emit td.diag) := by
  induction l generalizing calls with
  | nil => simp [emitEach]
  | cons td rest ih =>
    simp only [emitEach, List.map_cons]
    rw [ih]
    simp

theorem destroy_eq (self : ParallelDiagnosticHandlerImpl) :
    self.destroy = EngineCall.eraseHandler self.handlerID ::
      (stable_sort ThreadDiagnostic.lt self.diagnostics).map
        (fun td => EngineCall.emit td.diag) := by
  unfold destroy
  cases hd : self.diagnostics with
  | nil => simp [stable_sort]
  | cons td rest =>
    have h := emitEach_log (stable_sort ThreadDiagnostic.lt (td :: rest))
      [EngineCall.eraseHandler self.handlerID]
    simp only [List.isEmpty_cons, emitDiagnostics, hd]
    simpa using h

end ParallelDiagnosticHandlerImpl

/-! ## DenseMap and the order id of a thread -/

namespace DenseMap

variable {K V : Type} [DecidableEq K]

theorem get?_erase_self (m : DenseMap K V) (k : K) : get? (erase m k) k = none := by
  induction m with
  | nil => rfl
  | cons e rest ih =>
    obtain ⟨k1, v⟩ := e
    by_cases h : k1 = k
    · simpa [erase, List.filter_cons, h] using ih
    · simpa [erase, List.filter_cons, h, get?] using ih

theorem get?_set_self (m : DenseMap K V) (k : K) (v : V) : get? (set m k v) k = some v := by
  simp [set, get?]

end DenseMap

namespace ParallelDiagnosticHandlerImpl

theorem get?_setOrderIDForThread (self : ParallelDiagnosticHandlerImpl) (tid orderID : Nat) :
    (self.setOrderIDForThread tid orderID).threadToOrderID.get? tid = some orderID :=
  DenseMap.get?_set_self _ _ _

theorem get?_eraseOrderIDForThread (self : ParallelDiagnosticHandlerImpl) (tid : Nat) :
    (self.eraseOrderIDForThread tid).threadToOrderID.get? tid = none :=
  DenseMap.get?_erase_self _ _

end ParallelDiagnosticHandlerImpl

/-! ## Claims on the parallel diagnostic handler -/

/-- C1: at teardown the parallel handler first unregisters its handler and then emits to the
engine the diagnostics of a sequence `out` of entries that is a permutation of the buffer, is
non-decreasing in the order id, and has for every order id the same entries in the same order
as the buffer (entries of equal order id keep their buffering order). -/
theorem parallel_teardown_replay (self : ParallelDiagnosticHandlerImpl) :
    ∃ out : List ThreadDiagnostic,
      self.destroy = EngineCall.eraseHandler self.handlerID ::
        out.map (fun td => EngineCall.emit td.diag) ∧
      out.Perm self.diagnostics ∧
      NonDecreasing out ∧
      ∀ k, entriesOf k out = entriesOf k self.diagnostics :=
  ⟨stable_sort ThreadDiagnostic.lt self.diagnostics, self.destroy_eq,
    stable_sort_perm _ _, stable_sort_nonDecreasing _, fun k => stable_sort_entriesOf k _⟩

/-- C2: two buffers `l1` and `l2` that hold the same entries and agree, for every order id,
on the order of the entries of that id give the same result of `emitDiagnostics` (the same
calls of the callback on the same diagnostics in the same order, hence the same final state
and buffer), and the same calls at teardown. -/
theorem emitDiagnostics_arrival_independent {τ : Type} (self : ParallelDiagnosticHandlerImpl)
    (l1 l2 : List ThreadDiagnostic) (emitFn : Diagnostic → τ → Diagnostic × τ) (t : τ)
    (_hsame : l1.Perm l2) (horder : ∀ k, entriesOf k l1 = entriesOf k l2) :
    ({ self with diagnostics := l1 } : ParallelDiagnosticHandlerImpl).emitDiagnostics emitFn t
      = ({ self with diagnostics := l2 } : ParallelDiagnosticHandlerImpl).emitDiagnostics
          emitFn t ∧
    ({ self with diagnostics := l1 } : ParallelDiagnosticHandlerImpl).destroy
      = ({ self with diagnostics := l2 } : ParallelDiagnosticHandlerImpl).destroy := by
  have hs := stable_sort_congr l1 l2 horder
  constructor
  · simp only [ParallelDiagnosticHandlerImpl.emitDiagnostics, hs]
  · rw [ParallelDiagnosticHandlerImpl.destroy_eq, ParallelDiagnosticHandlerImpl.destroy_eq]
    simp only [hs]

/-- Witness of C2 on two arrival orders of four entries. -/
theorem emitDiagnostics_arrival_independent_witness :
    Example.arrival1.Perm Example.arrival2 ∧
    (⟨[], Example.arrival1, 1⟩ : ParallelDiagnosticHandlerImpl).destroy
      = (⟨[], Example.arrival2, 1⟩ : ParallelDiagnosticHandlerImpl).destroy := by
  have hperm : Example.arrival1.Perm Example.arrival2 := by decide
  have horder : ∀ k, entriesOf k Example.arrival1 = entriesOf k Example.arrival2 := by
    intro k
    simp only [entriesOf, Example.arrival1, Example.arrival2, List.filter_cons, List.filter_nil]
    by_cases h0 : k = 0
    · subst h0; simp
    · by_cases h1 : k = 1
      · subst h1; simp
      · by_cases h2 : k = 2
        · subst h2; simp
        · have e0 : ¬ (0 = k) := fun h => h0 h.symm
          have e1 : ¬ (1 = k) := fun h => h1 h.symm
          have e2 : ¬ (2 = k) := fun h => h2 h.symm
          simp [e0, e1, e2]
  exact ⟨hperm, (emitDiagnostics_arrival_independent ⟨[], [], 1⟩ Example.arrival1
    Example.arrival2 (fun d (n : Nat) => (d, n + 1)) 0 hperm horder).2⟩

/-- C3: the handler of the parallel diagnostic handler, run on thread `tid`. If the thread
has no order id, it returns failure and leaves the handler object (buffer included) and the
diagnostic as they are. If the thread has the order id `k`, it returns success, and the
object afterwards differs only in the buffer, which is the old buffer followed by the one
entry `(k, diag)`. -/
theorem parallel_handler_capture (tid : Nat) (diag : Diagnostic)
    (self : ParallelDiagnosticHandlerImpl) :
    (self.threadToOrderID.get? tid = none →
      ParallelDiagnosticHandlerImpl.handler tid diag self
        = (LogicalResult.failure, diag, self)) ∧
    (∀ k, self.threadToOrderID.get? tid = some k →
      (ParallelDiagnosticHandlerImpl.handler tid diag self).1 = LogicalResult.success ∧
      (ParallelDiagnosticHandlerImpl.handler tid diag self).2.2
        = { self with diagnostics := self.diagnostics ++ [⟨k, diag⟩] }) := by
  constructor
  · intro h
    simp [ParallelDiagnosticHandlerImpl.handler, DenseMap.count, h, failure]
  · intro k h
    simp [ParallelDiagnosticHandlerImpl.handler, DenseMap.count, DenseMap.subscript, h, success]

/-- Witness of C3: thread 103 has no order id, thread 100 has the order id 2. -/
theorem parallel_handler_capture_witness :
    (Example.tracking.threadToOrderID.get? 103 = none ∧
      ParallelDiagnosticHandlerImpl.handler 103 Example.diagA Example.tracking
        = (LogicalResult.failure, Example.diagA, Example.tracking)) ∧
    (Example.tracking.threadToOrderID.get? 100 = some 2 ∧
      (ParallelDiagnosticHandlerImpl.handler 100 Example.diagA Example.tracking).1
        = LogicalResult.success ∧
      (ParallelDiagnosticHandlerImpl.handler 100 Example.diagA Example.tracking).2.2
        = { Example.tracking with
            diagnostics := Example.tracking.diagnostics ++ [⟨2, Example.diagA⟩] }) :=
  ⟨⟨by decide, (parallel_handler_capture 103 Example.diagA Example.tracking).1 (by decide)⟩,
    ⟨by decide, (parallel_handler_capture 100 Example.diagA Example.tracking).2 2 (by decide)⟩⟩

/-! ## Lemmas on the handler walk -/

section Walk

variable {σ : Type}

theorem walkHandlers_errs (rs : List (HandlerID × HandlerTy σ)) (diag : Diagnostic) (s : σ) :
    (walkHandlers rs diag s).errs = "" := by
  induction rs generalizing diag s with
  | nil => rfl
  | cons h rest ih =>
    unfold walkHandlers
    split
    split
    · rfl
    · exact ih _ _

/-- The walk over `rs` calls the handlers of a front part `pre` of `rs`, in order and once
each; every call but the last returned failure; the walk reports "handled" exactly when the
last call returned success, and otherwise it called every handler. -/
theorem walkHandlers_calls (rs : List (HandlerID × HandlerTy σ)) (diag : Diagnostic) (s : σ) :
    ∃ pre post : List (HandlerID × HandlerTy σ),
      rs = pre ++ post ∧
      (walkHandlers rs diag s).calls.map Prod.fst = pre.map Prod.fst ∧
      (∀ c ∈ (walkHandlers rs diag s).calls.dropLast, c.2 = LogicalResult.failure) ∧
      ((walkHandlers rs diag s).handled = true →
        ∃ c, (walkHandlers rs diag s).calls.getLast? = some c ∧ c.2 = LogicalResult.success) ∧
      ((walkHandlers rs diag s).handled = false →
        post = [] ∧ ∀ c ∈ (walkHandlers rs diag s).calls, c.2 = LogicalResult.failure) := by
  induction rs generalizing diag s with
  | nil => exact ⟨[], [], rfl, rfl, by simp [walkHandlers], by simp [walkHandlers],
      by simp [walkHandlers]⟩
  | cons h rest ih =>
    rcases hh : h.2 diag s with ⟨r, diag1, s1⟩
    cases r with
    | success =>
      have hw : walkHandlers (h :: rest) diag s
          = ⟨true, diag1, s1, [(h.1, LogicalResult.success)], ""⟩ := by
        simp [walkHandlers, hh, succeeded]
      rw [hw]
      exact ⟨[h], rest, rfl, rfl, by simp, by simp, by simp⟩
    | failure =>
      have hw : walkHandlers (h :: rest) diag s
          = { walkHandlers rest diag1 s1 with
              calls := (h.1, LogicalResult.failure) :: (walkHandlers rest diag1 s1).calls } := by
        simp [walkHandlers, hh, succeeded]
      obtain ⟨pre, post, hsplit, hids, hfail, hhandled, hnot⟩ := ih diag1 s1
      rw [hw]
      refine ⟨h :: pre, post, by rw [hsplit]; rfl, by simp [hids], ?_, ?_, ?_⟩
      · intro c hc
        simp only at hc
        cases hcalls : (walkHandlers rest diag1 s1).calls with
        | nil => rw [hcalls] at hc; simp at hc
        | cons c1 cs =>
          rw [hcalls, List.dropLast_cons₂] at hc
          rcases List.mem_cons.mp hc with rfl | hc2
          · rfl
          · exact hfail c (by rw [hcalls]; exact hc2)
      · intro hd
        obtain ⟨c, hc, hsucc⟩ := hhandled hd
        refine ⟨c, ?_, hsucc⟩
        simp only
        cases hcalls : (walkHandlers rest diag1 s1).calls with
        | nil => rw [hcalls] at hc; simp at hc
        | cons c1 cs =>
          rw [hcalls] at hc
          rw [List.getLast?_cons_cons]
          exact hc
      · intro hd
        obtain ⟨hpost, hall⟩ := hnot hd
        refine ⟨hpost, ?_⟩
        intro c hc
        rcases List.mem_cons.mp hc with rfl | hc2
        · rfl
        · exact hall c hc2

theorem DiagnosticEngineImpl.emit_calls (P : ValuePrinter) (self : DiagnosticEngineImpl σ)
    (diag : Diagnostic) (s : σ) :
    (self.emit P diag s).calls = (walkHandlers self.handlers.entries.reverse diag s).calls ∧
    (self.emit P diag s).handled
      = (walkHandlers self.handlers.entries.reverse diag s).handled ∧
    (self.emit P diag s).diag = (walkHandlers self.handlers.entries.reverse diag s).diag := by
  unfold DiagnosticEngineImpl.emit
  simp only
  split
  · exact ⟨rfl, rfl, rfl⟩
  · split
    · exact ⟨rfl, rfl, rfl⟩
    · exact ⟨rfl, rfl, rfl⟩

end Walk

/-- C4: `DiagnosticEngineImpl::emit` splits the registered handlers, taken in registration
order, into those `before` and those `after` a point such that: the handlers called are those
of `after`, most recently registered first, each exactly once, and no handler of `before` is
called; every call but the last returned failure; if the diagnostic was handled, the last
call (the earliest registered handler of `after`) returned success; if it was not handled,
every registered handler was called and every one returned failure. -/
theorem emit_walks_handlers_in_reverse {σ : Type} (P : ValuePrinter)
    (self : DiagnosticEngineImpl σ) (diag : Diagnostic) (s : σ) :
    ∃ before after : List (HandlerID × HandlerTy σ),
      self.handlers.entries = before ++ after ∧
      (self.emit P diag s).calls.map Prod.fst = (after.map Prod.fst).reverse ∧
      (∀ id ∈ after.map Prod.fst, ((self.emit P diag s).calls.map Prod.fst).count id = 1) ∧
      (∀ id ∈ before.map Prod.fst, id ∉ (self.emit P diag s).calls.map Prod.fst) ∧
      (∀ c ∈ (self.emit P diag s).calls.dropLast, c.2 = LogicalResult.failure) ∧
      ((self.emit P diag s).handled = true →
        ∃ c, (self.emit P diag s).calls.getLast? = some c ∧ c.2 = LogicalResult.success ∧
          (after.head?).map Prod.fst = some c.1) ∧
      ((self.emit P diag s).handled = false →
        before = [] ∧ ∀ c ∈ (self.emit P diag s).calls, c.2 = LogicalResult.failure) := by
  obtain ⟨hcalls, hhandled, -⟩ := self.emit_calls P diag s
  obtain ⟨pre, post, hsplit, hids, hfail, hyes, hno⟩ :=
    walkHandlers_calls self.handlers.entries.reverse diag s
  rw [hcalls, hhandled]
  have hentries : self.handlers.entries = post.reverse ++ pre.reverse := by
    have := congrArg List.reverse hsplit
    rwa [List.reverse_reverse, List.reverse_append] at this
  have hnodup : ((post.reverse ++ pre.reverse).map Prod.fst).Nodup := by
    rw [← hentries]; exact self.handlers.nodup
  rw [List.map_append, List.nodup_append] at hnodup
  obtain ⟨-, hnd_after, hdisj⟩ := hnodup
  have hafter : (pre.reverse.map Prod.fst).reverse = pre.map Prod.fst := by
    rw [List.map_reverse, List.reverse_reverse]
  refine ⟨post.reverse, pre.reverse, hentries, by rw [hids, hafter], ?_, ?_, hfail, ?_, ?_⟩
  · intro id hid
    rw [hids, ← hafter, List.count_reverse]
    exact List.count_eq_one_of_mem hnd_after hid
  · intro id hid hmem
    rw [hids, ← hafter, List.mem_reverse] at hmem
    exact hdisj hid hmem
  · intro hd
    obtain ⟨c, hc, hsucc⟩ := hyes hd
    refine ⟨c, hc, hsucc, ?_⟩
    have h1 : ((walkHandlers self.handlers.entries.reverse diag s).calls.map Prod.fst).getLast?
        = some c.1 := by
      rw [List.getLast?_map, hc]; rfl
    rw [hids] at h1
    rw [List.head?_reverse, ← List.getLast?_map]
    exact h1
  · intro hd
    obtain ⟨hpost, hall⟩ := hno hd
    exact ⟨by rw [hpost]; rfl, hall⟩

/-- Witness of C4: of the handlers 1, 2, 3 the walk calls 3 (which declines) and 2 (which
accepts), and not 1. -/
theorem emit_walks_handlers_in_reverse_witness :
    (Example.engine3.impl.emit Example.printer Example.diagE []).handled = true ∧
    (Example.engine3.impl.emit Example.printer Example.diagE []).calls
      = [(3, LogicalResult.failure), (2, LogicalResult.success)] ∧
    ∃ c, (Example.engine3.impl.emit Example.printer Example.diagE []).calls.getLast? = some c ∧
      c.2 = LogicalResult.success := by
  obtain ⟨_, _, _, _, _, _, _, hyes, _⟩ :=
    emit_walks_handlers_in_reverse Example.printer Example.engine3.impl Example.diagE []
  obtain ⟨c, hc, hs, _⟩ := hyes (by decide)
  exact ⟨by decide, by decide, c, hc, hs⟩

theorem Location.isUnknownLoc_iff (l : Location) : l.isUnknownLoc = true ↔ l = Location.UnknownLoc := by
  cases l <;> simp [Location.isUnknownLoc]

section Walk2
variable {σ : Type}

/-- If the walk ends without a handler having handled the diagnostic and every handler that
declines leaves the diagnostic as it is, the diagnostic is unchanged at the end. -/
theorem walkHandlers_diag (rs : List (HandlerID × HandlerTy σ))
    (hkeep : ∀ h ∈ rs, ∀ d0 s0, (h.2 d0 s0).1 = LogicalResult.failure → (h.2 d0 s0).2.1 = d0)
    (diag : Diagnostic) (s : σ) (hno : (walkHandlers rs diag s).handled = false) :
    (walkHandlers rs diag s).diag = diag := by
  induction rs generalizing diag s with
  | nil => rfl
  | cons h rest ih =>
    rcases hh : h.2 diag s with ⟨r, diag1, s1⟩
    cases r with
    | success => simp [walkHandlers, hh, succeeded] at hno
    | failure =>
      have hk := hkeep h (List.mem_cons_self _ _) diag s
      rw [hh] at hk
      have hd : diag1 = diag := hk rfl
      have hw : walkHandlers (h :: rest) diag s
          = { walkHandlers rest diag1 s1 with
              calls := (h.1, LogicalResult.failure) :: (walkHandlers rest diag1 s1).calls } := by
        simp [walkHandlers, hh, succeeded]
      rw [hw] at hno ⊢
      simp only at hno ⊢
      rw [ih (fun h2 hm => hkeep h2 (List.mem_cons_of_mem _ hm)) diag1 s1 hno, hd]

end Walk2

/-- C5: the text `DiagnosticEngineImpl::emit` writes to the error stream. When no handler
handled the diagnostic and its severity is Error, the text is the one line
"<location>: error: <message>" followed by a newline, and the "<location>: " part is left out
exactly when the location is Unknown; for any other severity nothing is written. When a
handler handled the diagnostic, nothing is written. The diagnostic printed is the one the
handlers were given, provided the handlers that decline do not change it (so in particular
when no handler is registered). -/
theorem emit_default_printer {σ : Type} (P : ValuePrinter) (self : DiagnosticEngineImpl σ)
    (diag : Diagnostic) (s : σ) :
    ((self.emit P diag s).handled = false →
      (self.emit P diag s).diag.severity = DiagnosticSeverity.Error →
      (self.emit P diag s).errs =
        (if (self.emit P diag s).diag.loc = Location.UnknownLoc then ""
          else P.printLocation (self.emit P diag s).diag.loc ++ ": ")
        ++ "error: " ++ (self.emit P diag s).diag.str P ++ "\n") ∧
    ((self.emit P diag s).handled = false →
      (self.emit P diag s).diag.severity ≠ DiagnosticSeverity.Error →
      (self.emit P diag s).errs = "") ∧
    ((self.emit P diag s).handled = true → (self.emit P diag s).errs = "") ∧
    ((self.emit P diag s).handled = false →
      (∀ h ∈ self.handlers.entries, ∀ d0 s0,
        (h.2 d0 s0).1 = LogicalResult.failure → (h.2 d0 s0).2.1 = d0) →
      (self.emit P diag s).diag = diag) ∧
    (self.handlers.entries = [] →
      (self.emit P diag s).handled = false ∧ (self.emit P diag s).diag = diag) := by
  have herrs := walkHandlers_errs self.handlers.entries.reverse diag s
  obtain ⟨-, hhandled, hdiag⟩ := self.emit_calls P diag s
  refine ⟨?_, ?_, ?_, ?_, ?_⟩
  · intro hno hsev
    rw [hhandled] at hno
    rw [hdiag] at hsev ⊢
    unfold DiagnosticEngineImpl.emit
    simp only [hno, Diagnostic.getSeverity, hsev, Diagnostic.getLocation, Diagnostic.str]
    by_cases hu : (walkHandlers self.handlers.entries.reverse diag s).diag.loc
        = Location.UnknownLoc
    · simp [hu, Location.isUnknownLoc]
    · have hu2 : (walkHandlers self.handlers.entries.reverse diag s).diag.loc.isUnknownLoc
          = false := by
        cases hb : (walkHandlers self.handlers.entries.reverse diag s).diag.loc.isUnknownLoc
        · rfl
        · exact absurd ((Location.isUnknownLoc_iff _).mp hb) hu
      simp [hu, hu2]
  · intro hno hsev
    rw [hhandled] at hno
    rw [hdiag] at hsev
    unfold DiagnosticEngineImpl.emit
    simp only [hno, Diagnostic.getSeverity]
    simp [hsev, herrs]
  · intro hyes
    rw [hhandled] at hyes
    unfold DiagnosticEngineImpl.emit
    simp only [hyes]
    simp [herrs]
  · intro hno hkeep
    rw [hhandled] at hno
    rw [hdiag]
    exact walkHandlers_diag _ (fun h hm => hkeep h (List.mem_reverse.mp hm)) diag s hno
  · intro hnil
    rw [hhandled, hdiag, hnil]
    exact ⟨rfl, rfl⟩

/-- Witness of C5: the one handler declines an error at a.mlir:3:4. -/
theorem emit_default_printer_witness :
    (Example.engine1.impl.emit Example.printer Example.diagE []).handled = false ∧
    (Example.engine1.impl.emit Example.printer Example.diagE []).diag = Example.diagE ∧
    (Example.engine1.impl.emit Example.printer Example.diagE []).errs
      = "a.mlir:3:4: error: bad 'type3'-4\n" := by
  have h := (emit_default_printer Example.printer Example.engine1.impl Example.diagE []).1
    (by decide) (by decide)
  have hd := (emit_default_printer Example.printer Example.engine1.impl
    Example.diagE []).2.2.2.1 (by decide) (by
      intro h hm d0 s0 _
      have : h = (1, Example.decline) := by
        simpa [Example.engine1, DiagnosticEngine.registerHandler, DiagnosticEngine.create,
          DiagnosticEngineImpl.create, MapVector.insert, MapVector.empty] using hm
      subst this
      rfl)
  refine ⟨by decide, hd, ?_⟩
  rw [h]
  decide

/-! ## Lemmas on the handler registry -/

section Registry
variable {σ : Type}

theorem DiagnosticEngine.registerHandler_id (self : DiagnosticEngine σ) (handler : HandlerTy σ) :
    (self.registerHandler handler).2 = self.impl.uniqueHandlerId := rfl

theorem DiagnosticEngine.registerHandler_counter (self : DiagnosticEngine σ)
    (handler : HandlerTy σ) :
    (self.registerHandler handler).1.impl.uniqueHandlerId
      = (self.impl.uniqueHandlerId + 1) % 2 ^ 64 := rfl

theorem DiagnosticEngine.eraseHandler_counter (self : DiagnosticEngine σ) (id : HandlerID) :
    (self.eraseHandler id).impl.uniqueHandlerId = self.impl.uniqueHandlerId := rfl

/-- From an engine whose counter is `c`, a sequence of calls with `n` registrations, where
`c + n ≤ 2 ^ 64`, returns the identifiers `c, c + 1, ..., c + n - 1`. -/
theorem DiagnosticEngine.run_ids (ops : List (EngineOp σ)) :
    ∀ (self : DiagnosticEngine σ) (c n : Nat), self.impl.uniqueHandlerId = c →
      EngineOp.registrations ops = n → c + n ≤ 2 ^ 64 →
      (self.run ops).2 = List.range' c n := by
  induction ops with
  | nil => intro self c n _ hn _; subst hn; rfl
  | cons op ops ih =>
    intro self c n hc hn hbound
    cases op with
    | registerHandler handler =>
      simp only [EngineOp.registrations] at hn
      simp only [DiagnosticEngine.run]
      subst hn
      rw [List.range'_succ, DiagnosticEngine.registerHandler_id, hc]
      congr 1
      have hcnt : (self.registerHandler handler).1.impl.uniqueHandlerId = (c + 1) % 2 ^ 64 := by
        rw [DiagnosticEngine.registerHandler_counter, hc]
      by_cases hz : EngineOp.registrations ops = 0
      · have hlt : (c + 1) % 2 ^ 64 < 2 ^ 64 := Nat.mod_lt _ (by norm_num)
        rw [ih _ ((c + 1) % 2 ^ 64) 0 hcnt hz (by omega), hz]
        rfl
      · have hmod : (c + 1) % 2 ^ 64 = c + 1 := Nat.mod_eq_of_lt (by omega)
        rw [hmod] at hcnt
        exact ih _ (c + 1) _ hcnt rfl (by omega)
    | eraseHandler id =>
      simp only [EngineOp.registrations] at hn
      simp only [DiagnosticEngine.run]
      exact ih _ c n (by rw [DiagnosticEngine.eraseHandler_counter, hc]) hn hbound

theorem MapVector.erase_of_not_mem {K V : Type} [DecidableEq K] (m : MapVector K V) (k : K)
    (h : k ∉ m.keys) : m.erase k = m := by
  obtain ⟨entries, nodup⟩ := m
  simp only [MapVector.erase, MapVector.mk.injEq]
  apply List.eraseP_of_forall_not
  intro e he hk
  apply h
  simp only [MapVector.keys, List.mem_map]
  exact ⟨e, he, by simpa using hk⟩

theorem MapVector.not_mem_erase {K V : Type} [DecidableEq K] (m : MapVector K V) (k : K) :
    k ∉ (m.erase k).keys := by
  obtain ⟨entries, nodup⟩ := m
  simp only [MapVector.erase, MapVector.keys]
  induction entries with
  | nil => simp
  | cons e rest ih =>
    simp only [List.map_cons, List.nodup_cons] at nodup
    by_cases hk : e.1 = k
    · rw [List.eraseP_cons_of_pos (by simpa using hk)]
      rw [← hk]
      exact nodup.1
    · rw [List.eraseP_cons_of_neg (by simpa using hk)]
      simp only [List.map_cons, List.mem_cons, not_or]
      exact ⟨fun h => hk h.symm, ih nodup.2⟩

theorem MapVector.mem_keys_insert {K V : Type} [DecidableEq K] (m : MapVector K V) (k : K)
    (v : V) (x : K) (hx : x ∈ (m.insert k v).keys) : x ∈ m.keys ∨ x = k := by
  unfold MapVector.insert at hx
  split at hx
  · exact Or.inl hx
  · simp only [MapVector.keys, List.map_append, List.map_singleton, List.mem_append,
      List.mem_singleton] at hx
    exact hx

theorem MapVector.mem_keys_erase {K V : Type} [DecidableEq K] (m : MapVector K V) (k : K)
    (x : K) (hx : x ∈ (m.erase k).keys) : x ∈ m.keys :=
  (List.Sublist.map Prod.fst (List.eraseP_sublist m.entries)).subset hx

/-- Every identifier registered after a sequence of calls was registered before it or was
returned by one of its registrations. -/
theorem DiagnosticEngine.run_keys (ops : List (EngineOp σ)) :
    ∀ (self : DiagnosticEngine σ) (x : HandlerID), x ∈ (self.run ops).1.impl.handlers.keys →
      x ∈ self.impl.handlers.keys ∨ x ∈ (self.run ops).2 := by
  induction ops with
  | nil => intro self x hx; exact Or.inl hx
  | cons op ops ih =>
    intro self x hx
    cases op with
    | registerHandler handler =>
      simp only [DiagnosticEngine.run] at hx ⊢
      rcases ih _ x hx with h | h
      · rcases MapVector.mem_keys_insert _ _ _ x h with h2 | h2
        · exact Or.inl h2
        · exact Or.inr (List.mem_cons.mpr (Or.inl h2))
      · exact Or.inr (List.mem_cons_of_mem _ h)
    | eraseHandler id =>
      simp only [DiagnosticEngine.run] at hx ⊢
      rcases ih _ x hx with h | h
      · exact Or.inl (MapVector.mem_keys_erase _ _ x h)
      · exact Or.inr h

end Registry

/-- C6: starting from a fresh engine, a sequence of `registerHandler` and `eraseHandler`
calls that has fewer than 2^64 registrations returns, from its registrations in call order,
the identifiers 1, 2, 3, ...: the k-th registration returns k. Hence the identifiers are
strictly increasing, pairwise distinct (none is issued again after it was erased) and never
0. -/
theorem registerHandler_ids {σ : Type} (ops : List (EngineOp σ))
    (hbound : EngineOp.registrations ops < 2 ^ 64) :
    ((DiagnosticEngine.create : DiagnosticEngine σ).run ops).2
      = List.range' 1 (EngineOp.registrations ops) ∧
    (((DiagnosticEngine.create : DiagnosticEngine σ).run ops).2).Pairwise (fun a b => a < b) ∧
    (((DiagnosticEngine.create : DiagnosticEngine σ).run ops).2).Nodup ∧
    (∀ k, k < EngineOp.registrations ops →
      (((DiagnosticEngine.create : DiagnosticEngine σ).run ops).2)[k]? = some (k + 1)) ∧
    0 ∉ ((DiagnosticEngine.create : DiagnosticEngine σ).run ops).2 := by
  have h := DiagnosticEngine.run_ids ops (DiagnosticEngine.create : DiagnosticEngine σ)
    1 (EngineOp.registrations ops) rfl rfl (by omega)
  rw [h]
  refine ⟨rfl, ?_, ?_, ?_, ?_⟩
  · exact List.pairwise_lt_range' 1 _
  · exact List.nodup_range' 1 _
  · intro k hk
    rw [List.getElem?_range' 1 _ hk]
    simp [Nat.add_comm]
  · intro h0
    have := (List.mem_range'_1.mp h0).1
    omega

/-- Witness of C6: three registrations interleaved with three erasures. -/
theorem registerHandler_ids_witness :
    EngineOp.registrations Example.ops < 2 ^ 64 ∧
    ((DiagnosticEngine.create : DiagnosticEngine (List String)).run Example.ops).2 = [1, 2, 3] :=
  ⟨by decide, (registerHandler_ids Example.ops (by decide)).1.trans (by decide)⟩

/-- C7: `eraseHandler(id)` for an identifier that is not registered leaves the engine (the
registry and the counter) as it is. An identifier is not registered after `eraseHandler(id)`,
so a second `eraseHandler(id)` changes nothing; nor is it registered when no registration
returned it, which is the case of 0 as long as there were fewer than 2^64 registrations. -/
theorem eraseHandler_absent_noop {σ : Type} (self : DiagnosticEngine σ) (id : HandlerID) :
    (id ∉ self.impl.handlers.keys → self.eraseHandler id = self) ∧
    id ∉ (self.eraseHandler id).impl.handlers.keys ∧
    (self.eraseHandler id).eraseHandler id = self.eraseHandler id ∧
    (∀ ops : List (EngineOp σ), id ∉ (DiagnosticEngine.create.run ops).2 →
      (DiagnosticEngine.create.run ops).1.eraseHandler id
        = (DiagnosticEngine.create.run ops).1) ∧
    (∀ ops : List (EngineOp σ), EngineOp.registrations ops < 2 ^ 64 →
      (DiagnosticEngine.create.run ops).1.eraseHandler 0
        = (DiagnosticEngine.create.run ops).1) := by
  have habs : ∀ (e : DiagnosticEngine σ) (x : HandlerID),
      x ∉ e.impl.handlers.keys → e.eraseHandler x = e := by
    intro e x h
    obtain ⟨⟨handlers, counter⟩⟩ := e
    simp only [DiagnosticEngine.eraseHandler]
    rw [MapVector.erase_of_not_mem handlers x h]
  have hgone : id ∉ (self.eraseHandler id).impl.handlers.keys :=
    MapVector.not_mem_erase self.impl.handlers id
  have hissued : ∀ (ops : List (EngineOp σ)) (x : HandlerID),
      x ∉ (DiagnosticEngine.create.run ops).2 →
      x ∉ (DiagnosticEngine.create.run ops).1.impl.handlers.keys := by
    intro ops x hx hk
    rcases DiagnosticEngine.run_keys ops DiagnosticEngine.create x hk with h | h
    · simp [DiagnosticEngine.create, DiagnosticEngineImpl.create, MapVector.empty,
        MapVector.keys] at h
    · exact hx h
  refine ⟨habs self id, hgone, habs _ id hgone, fun ops hx => habs _ id (hissued ops id hx), ?_⟩
  intro ops hbound
  apply habs _ 0 (hissued ops 0 _)
  rw [DiagnosticEngine.run_ids ops DiagnosticEngine.create 1 (EngineOp.registrations ops)
    rfl rfl (by omega)]
  intro h0
  have := (List.mem_range'_1.mp h0).1
  omega

/-- Witness of C7: the identifier 9 is not registered in the engine with handlers 1, 2, 3. -/
theorem eraseHandler_absent_noop_witness :
    9 ∉ Example.engine3.impl.handlers.keys ∧
    Example.engine3.eraseHandler 9 = Example.engine3 :=
  ⟨by decide, (eraseHandler_absent_noop Example.engine3 9).1 (by decide)⟩

/-! ## Claims on the in-flight diagnostic -/

/-- C8: for an in-flight diagnostic that holds the record `d` and is owned by the engine
`owner`, `report()` makes exactly one call of `emit`, on `owner` and with the record `d`
itself (so with its arguments and notes), and leaves the object without owner and without
record; a `report()` on that object makes no call and leaves it as it is, and so does the
destructor. Going out of scope without an earlier `report()` makes that one call as well. -/
theorem report_emits_exactly_once (owner : EnginePtr) (d : Diagnostic) :
    (InFlightDiagnostic.create owner d).isInFlight = true ∧
    (InFlightDiagnostic.create owner d).report
      = some (InFlightDiagnostic.empty, [⟨owner, d⟩]) ∧
    InFlightDiagnostic.empty.report = some (InFlightDiagnostic.empty, []) ∧
    InFlightDiagnostic.empty.destroy = some [] ∧
    (InFlightDiagnostic.create owner d).destroy = some [⟨owner, d⟩] :=
  ⟨rfl, rfl, rfl, rfl, rfl⟩

/-- C9: `abandon()` makes no call of `emit`, whatever the state of the object; on the
abandoned object `report()` makes no call and leaves an object without owner and record, on
which every further `report()` makes no call either; the destructor of the abandoned object
makes no call. -/
theorem abandon_emits_nothing (self : InFlightDiagnostic) :
    self.abandon.2 = [] ∧
    self.abandon.1.report = some (InFlightDiagnostic.empty, []) ∧
    InFlightDiagnostic.empty.report = some (InFlightDiagnostic.empty, []) ∧
    self.abandon.1.destroy = some [] :=
  ⟨rfl, rfl, rfl, rfl⟩

/-- C10: the conversion to LogicalResult yields failure for every object that is Active, that
is, holds a record and has an owner; it yields success for the object that `report()` leaves
behind, and for the default-constructed object. -/
theorem toLogicalResult_active (self : InFlightDiagnostic) (h : self.isActive = true) :
    self.toLogicalResult = LogicalResult.failure ∧
    self.report.map (fun r => r.1.toLogicalResult) = some LogicalResult.success ∧
    InFlightDiagnostic.empty.toLogicalResult = LogicalResult.success := by
  obtain ⟨owner, impl⟩ := self
  cases owner with
  | none => cases impl <;> simp [InFlightDiagnostic.isActive] at h
  | some o =>
    cases impl with
    | none => simp [InFlightDiagnostic.isActive] at h
    | some d => exact ⟨rfl, rfl, rfl⟩

/-- Witness of C10: the object that the engine builds for the diagnostic with the message A is
Active. -/
theorem toLogicalResult_active_witness :
    (InFlightDiagnostic.create 7 Example.diagA).isActive = true ∧
    (InFlightDiagnostic.create 7 Example.diagA).toLogicalResult = LogicalResult.failure ∧
    (InFlightDiagnostic.create 7 Example.diagA).report.map (fun r => r.1.toLogicalResult)
      = some LogicalResult.success :=
  ⟨rfl, (toLogicalResult_active (InFlightDiagnostic.create 7 Example.diagA) rfl).1,
    (toLogicalResult_active (InFlightDiagnostic.create 7 Example.diagA) rfl).2.1⟩

/-! ## Claims on abandoning and on notes -/

/-- C11: every Active InFlightDiagnostic converts to failure, and after `abandon()` the
conversion to LogicalResult yields success: the object has no owner any more, so it is
neither Active nor in flight. -/
theorem abandon_converts_to_success (self : InFlightDiagnostic) (h : self.isActive = true) :
    self.toLogicalResult = LogicalResult.failure ∧
    self.abandon.1.toLogicalResult = LogicalResult.success ∧
    self.abandon.1.isActive = false ∧
    self.abandon.1.isInFlight = false := by
  have ha : self.abandon.1.isActive = false := by
    simp [InFlightDiagnostic.abandon, InFlightDiagnostic.isActive]
  refine ⟨?_, ?_, ha, rfl⟩
  · simp only [InFlightDiagnostic.toLogicalResult, h]
    rfl
  · simp only [InFlightDiagnostic.toLogicalResult, ha]
    rfl

/-- Witness of C11: the object that the engine builds for the diagnostic with the message A
converts to failure, and to success after `abandon()`. -/
theorem abandon_converts_to_success_witness :
    (InFlightDiagnostic.create 7 Example.diagA).toLogicalResult = LogicalResult.failure ∧
    (InFlightDiagnostic.create 7 Example.diagA).abandon.1.toLogicalResult
      = LogicalResult.success :=
  ⟨(abandon_converts_to_success (InFlightDiagnostic.create 7 Example.diagA) rfl).1,
    (abandon_converts_to_success (InFlightDiagnostic.create 7 Example.diagA) rfl).2.1⟩

theorem Diagnostic.attachNote_eq (d : Diagnostic) (l : Option Location)
    (hsev : d.severity ≠ DiagnosticSeverity.Note) :
    d.attachNote l
      = some ({ d with notes := d.notes ++ [Diagnostic.create (l.getD d.loc)
                  DiagnosticSeverity.Note] },
              Diagnostic.create (l.getD d.loc) DiagnosticSeverity.Note) := by
  unfold Diagnostic.attachNote
  rw [if_neg hsev]
  cases l <;> simp

theorem Diagnostic.attachNote_eq_none (d : Diagnostic) (l : Option Location)
    (hsev : d.severity = DiagnosticSeverity.Note) : d.attachNote l = none := by
  unfold Diagnostic.attachNote
  rw [if_pos hsev]

/-- C12: for a diagnostic `d` whose severity is not Note and an optional location `l`,
`attachNote(l)` succeeds and the record it returns has severity Note, the location `l` when
one is given and the location of `d` when none is given, no arguments and no notes. -/
theorem attachNote_returns_fresh_note (d : Diagnostic) (l : Option Location)
    (hsev : d.severity ≠ DiagnosticSeverity.Note) :
    ∃ d1 note, d.attachNote l = some (d1, note) ∧
      note.severity = DiagnosticSeverity.Note ∧
      note.loc = l.getD d.loc ∧
      note.arguments = [] ∧ note.notes = [] :=
  ⟨_, _, Diagnostic.attachNote_eq d l hsev, rfl, rfl, rfl, rfl⟩

/-- Witness of C12 on an error with one note already attached. -/
theorem attachNote_returns_fresh_note_witness :
    Example.diagE.severity ≠ DiagnosticSeverity.Note ∧
    ∃ d1 note, Example.diagE.attachNote none = some (d1, note) ∧
      note.severity = DiagnosticSeverity.Note ∧
      note.loc = Example.diagE.loc ∧ note.arguments = [] ∧ note.notes = [] :=
  ⟨by decide, attachNote_returns_fresh_note Example.diagE none (by decide)⟩

theorem Diagnostic.attachNotes_eq (locs : List (Option Location)) :
    ∀ d : Diagnostic, d.severity ≠ DiagnosticSeverity.Note →
      d.attachNotes locs
        = some { d with notes := d.notes ++ locs.map (fun l =>
            Diagnostic.create (l.getD d.loc) DiagnosticSeverity.Note) } := by
  induction locs with
  | nil => intro d _; cases d; simp [Diagnostic.attachNotes]
  | cons l rest ih =>
    intro d hsev
    simp only [Diagnostic.attachNotes, Diagnostic.attachNote_eq d l hsev]
    have h := ih { d with notes := d.notes ++ [Diagnostic.create (l.getD d.loc)
      DiagnosticSeverity.Note] } hsev
    rw [h]
    simp

/-- C13: for a diagnostic `d` whose severity is not Note, `attachNote` puts the new note at
the end of the notes of `d`: there is one note more, the earlier notes are where and what they
were, and severity, location and arguments of `d` are as before. Calling it once per location
of a list `locs` gives the notes of `d` followed by one note per location, in call order.
Streaming an argument into the note at position `i` changes that note only. -/
theorem attachNote_appends_note (d : Diagnostic) (l : Option Location)
    (hsev : d.severity ≠ DiagnosticSeverity.Note) :
    (∃ d1 note, d.attachNote l = some (d1, note) ∧
      d1.notes = d.notes ++ [note] ∧
      d1.notes.length = d.notes.length + 1 ∧
      (∀ i, i < d.notes.length → d1.notes[i]? = d.notes[i]?) ∧
      d1.severity = d.severity ∧ d1.loc = d.loc ∧ d1.arguments = d.arguments) ∧
    (∀ locs : List (Option Location), ∃ dn, d.attachNotes locs = some dn ∧
      dn.notes = d.notes ++ locs.map (fun l =>
        Diagnostic.create (l.getD d.loc) DiagnosticSeverity.Note) ∧
      dn.severity = d.severity ∧ dn.loc = d.loc ∧ dn.arguments = d.arguments) ∧
    (∀ i arg d2, d.appendToNote i arg = some d2 →
      d2.notes.length = d.notes.length ∧
      (∀ j, j ≠ i → d2.notes[j]? = d.notes[j]?) ∧
      d2.notes[i]? = (d.notes[i]?).map (fun n => n.append arg) ∧
      d2.severity = d.severity ∧ d2.loc = d.loc ∧ d2.arguments = d.arguments) := by
  refine ⟨⟨_, _, Diagnostic.attachNote_eq d l hsev, rfl, by simp, ?_, rfl, rfl, rfl⟩,
    fun locs => ⟨_, Diagnostic.attachNotes_eq locs d hsev, rfl, rfl, rfl, rfl⟩, ?_⟩
  · intro i hi
    exact List.getElem?_append_left hi
  · intro i arg d2 h
    unfold Diagnostic.appendToNote at h
    cases hn : d.notes[i]? with
    | none => rw [hn] at h; cases h
    | some note =>
      rw [hn] at h
      injection h with h
      subst h
      refine ⟨by simp, ?_, ?_, rfl, rfl, rfl⟩
      · intro j hj
        exact List.getElem?_set_ne (Ne.symm hj)
      · have hi : i < d.notes.length := by
          by_contra hc
          rw [List.getElem?_eq_none (by omega)] at hn
          cases hn
        simp [List.getElem?_set_self hi]

/-- Witness of C13 on an error with one note already attached. -/
theorem attachNote_appends_note_witness :
    Example.diagE.severity ≠ DiagnosticSeverity.Note ∧
    ∃ d1 note, Example.diagE.attachNote none = some (d1, note) ∧
      d1.notes = Example.diagE.notes ++ [note] ∧ d1.notes.length = 2 := by
  obtain ⟨d1, note, h, hnotes, hlen, _⟩ :=
    (attachNote_appends_note Example.diagE none (by decide)).1
  exact ⟨by decide, d1, note, h, hnotes, hlen⟩

theorem Diagnostic.NotesFlat.step {d d1 : Diagnostic} (op : DiagnosticOp)
    (hflat : d.NotesFlat) (h : d.step op = some d1) : d1.NotesFlat := by
  cases op with
  | append arg =>
    simp only [Diagnostic.step, Option.some.injEq] at h
    subst h
    exact hflat
  | attachNote noteLoc =>
    by_cases hsev : d.severity = DiagnosticSeverity.Note
    · simp [Diagnostic.step, Diagnostic.attachNote_eq_none d noteLoc hsev] at h
    · simp only [Diagnostic.step, Diagnostic.attachNote_eq d noteLoc hsev, Option.map_some',
        Option.some.injEq] at h
      subst h
      refine ⟨?_, fun hs => absurd hs hsev⟩
      intro n hn
      rcases List.mem_append.mp hn with h1 | h1
      · exact hflat.1 n h1
      · rw [List.mem_singleton] at h1
        subst h1
        exact ⟨rfl, rfl⟩
  | appendToNote i arg =>
    simp only [Diagnostic.step, Diagnostic.appendToNote] at h
    cases hn : d.notes[i]? with
    | none => rw [hn] at h; cases h
    | some note =>
      rw [hn] at h
      injection h with h
      subst h
      have hmem : note ∈ d.notes := List.getElem?_mem hn
      refine ⟨?_, ?_⟩
      · intro n hn2
        rcases List.mem_or_eq_of_mem_set hn2 with h1 | h1
        · exact hflat.1 n h1
        · subst h1
          exact hflat.1 note hmem
      · intro hs
        have := hflat.2 hs
        simp [this]
  | attachNoteToNote i noteLoc =>
    simp only [Diagnostic.step, Diagnostic.attachNoteToNote] at h
    cases hn : d.notes[i]? with
    | none => rw [hn] at h; cases h
    | some note =>
      rw [hn] at h
      have hmem : note ∈ d.notes := List.getElem?_mem hn
      simp only [Diagnostic.attachNote_eq_none note noteLoc (hflat.1 note hmem).1] at h
      cases h

theorem Diagnostic.NotesFlat.steps (ops : List DiagnosticOp) :
    ∀ {d d1 : Diagnostic}, d.NotesFlat → d.steps ops = some d1 → d1.NotesFlat := by
  induction ops with
  | nil =>
    intro d d1 hflat h
    simp only [Diagnostic.steps, Option.some.injEq] at h
    subst h
    exact hflat
  | cons op ops ih =>
    intro d d1 hflat h
    simp only [Diagnostic.steps] at h
    cases hs : d.step op with
    | none => rw [hs] at h; cases h
    | some d2 =>
      rw [hs] at h
      exact ih (hflat.step op hs) h

/-- C14: a diagnostic built from a freshly created record by stream operators and
`attachNote` calls, on the record or through references to its notes, none of which trips the
assertion, has flat notes: every note has severity Note and no notes of its own, and a record
of severity Note has no notes. `attachNote` fails its assertion exactly on a record of
severity Note, and what its body would do there (append a note) is what would break the
invariant. -/
theorem notes_never_nested :
    (∀ (loc : Location) (sev : DiagnosticSeverity) (ops : List DiagnosticOp) (d : Diagnostic),
      (Diagnostic.create loc sev).steps ops = some d → d.NotesFlat) ∧
    (∀ (d : Diagnostic) (l : Option Location),
      d.attachNote l = none ↔ d.severity = DiagnosticSeverity.Note) ∧
    (∀ (d : Diagnostic) (l : Option Location), d.severity = DiagnosticSeverity.Note →
      ¬ ({ d with notes := d.notes ++ [Diagnostic.create (l.getD d.loc)
            DiagnosticSeverity.Note] } : Diagnostic).NotesFlat) := by
  refine ⟨?_, ?_, ?_⟩
  · intro loc sev ops d h
    exact Diagnostic.NotesFlat.steps ops ⟨by simp [Diagnostic.create], fun _ => rfl⟩ h
  · intro d l
    constructor
    · intro h
      by_contra hsev
      rw [Diagnostic.attachNote_eq d l hsev] at h
      cases h
    · exact Diagnostic.attachNote_eq_none d l
  · intro d l hsev hflat
    have := hflat.2 hsev
    simp at this

/-- Witness of C14: five building steps on a fresh error; an `attachNote` through the
reference to its first note trips the assertion. -/
theorem notes_never_nested_witness :
    (Diagnostic.create (Location.FileLineColLoc "a.mlir" 3 4) DiagnosticSeverity.Error).steps
      Example.buildOps = some Example.built ∧
    Example.built.NotesFlat ∧
    Example.built.attachNoteToNote 0 none = none :=
  ⟨by decide,
    notes_never_nested.1 (Location.FileLineColLoc "a.mlir" 3 4) DiagnosticSeverity.Error
      Example.buildOps Example.built (by decide),
    by decide⟩

/-! ## Claims on the location to show -/

mutual
theorem findLocToShow_table_aux (filter : Location → Bool) :
    ∀ loc : Location, findLocToShow (some filter) loc = resolveByTable filter loc
  | Location.CallSiteLoc callee caller => by
    simp only [findLocToShow, resolveByTable]
    rw [findLocToShow_table_aux filter callee]
    cases filter (Location.CallSiteLoc callee caller) <;> rfl
  | Location.FileLineColLoc filename line column => by
    simp only [findLocToShow, resolveByTable]
    cases filter (Location.FileLineColLoc filename line column) <;> rfl
  | Location.FusedLoc locations => by
    simp only [findLocToShow, resolveByTable]
    rw [findLocToShow_children_aux filter locations]
    cases filter (Location.FusedLoc locations) <;> rfl
  | Location.NameLoc name childLoc => by
    simp only [findLocToShow, resolveByTable]
    rw [findLocToShow_table_aux filter childLoc]
    cases filter (Location.NameLoc name childLoc) <;> rfl
  | Location.OpaqueLoc fallbackLocation => by
    simp only [findLocToShow, resolveByTable]
    rw [findLocToShow_table_aux filter fallbackLocation]
    cases filter (Location.OpaqueLoc fallbackLocation) <;> rfl
  | Location.UnknownLoc => by
    simp only [findLocToShow, resolveByTable]
    cases filter Location.UnknownLoc <;> rfl
theorem findLocToShow_children_aux (filter : Location → Bool) :
    ∀ locations : List Location,
      findLocToShow.children (some filter) locations = resolveByTable.first filter locations
  | [] => by simp [findLocToShow.children, resolveByTable.first]
  | childLoc :: rest => by
    simp only [findLocToShow.children, resolveByTable.first]
    rw [findLocToShow_table_aux filter childLoc, findLocToShow_children_aux filter rest]
    cases resolveByTable filter childLoc <;> rfl
end

theorem findLocToShow_children_findSome (fn : ShouldShowLocFn) (locations : List Location) :
    findLocToShow.children fn locations = locations.findSome? (findLocToShow fn) := by
  induction locations with
  | nil => rfl
  | cons childLoc rest ih =>
    simp only [findLocToShow.children, List.findSome?_cons]
    cases findLocToShow fn childLoc with
    | none => exact ih
    | some l => rfl

/-- C15: with a filter present, `findLocToShow` is the resolution by the table of the spec,
for every location. In particular, for a fused location that the filter accepts, the result
is the result of the first of its locations, in order, that has one, and none if there is no
such location. -/
theorem findLocToShow_table (filter : Location → Bool) (loc : Location) :
    findLocToShow (some filter) loc = resolveByTable filter loc ∧
    (∀ locations : List Location,
      findLocToShow (some filter) (Location.FusedLoc locations)
        = if filter (Location.FusedLoc locations)
          then locations.findSome? (findLocToShow (some filter)) else none) := by
  refine ⟨findLocToShow_table_aux filter loc, ?_⟩
  intro locations
  simp only [findLocToShow]
  rw [findLocToShow_children_findSome]
  cases filter (Location.FusedLoc locations) <;> rfl

/-- C16, as stated, fails: with no filter an unknown location is shown as it is, and a name
location over a call site is not resolved to the callee. -/
theorem findLocToShow_no_filter_counterexample :
    findLocToShow none Location.UnknownLoc ≠ none ∧
    findLocToShow none Example.callLoc ≠ findLocToShow none (Location.FileLineColLoc "a.mlir" 3 4) := by
  decide

/-- C16 (amended): with no filter supplied, `findLocToShow(loc)` does not dispatch on the
kind of the location: for every location, of whatever kind (Unknown, CallSite, Name and
Opaque included), it returns the location itself. -/
theorem findLocToShow_no_filter (loc : Location) : findLocToShow none loc = some loc := by
  cases loc <;> simp [findLocToShow]

mutual
theorem getCallSiteLoc_isCallSite_aux : ∀ (loc r : Location), getCallSiteLoc loc = some r →
    ∃ callee caller, r = Location.CallSiteLoc callee caller
  | Location.NameLoc _ childLoc, r, h => by
    simp only [getCallSiteLoc] at h
    exact getCallSiteLoc_isCallSite_aux childLoc r h
  | Location.CallSiteLoc callee caller, r, h => by
    simp only [getCallSiteLoc, Option.some.injEq] at h
    exact ⟨callee, caller, h.symm⟩
  | Location.FusedLoc locations, r, h => by
    simp only [getCallSiteLoc] at h
    exact getCallSiteLoc_children_isCallSite_aux locations r h
  | Location.FileLineColLoc _ _ _, r, h => by simp [getCallSiteLoc] at h
  | Location.OpaqueLoc _, r, h => by simp [getCallSiteLoc] at h
  | Location.UnknownLoc, r, h => by simp [getCallSiteLoc] at h
theorem getCallSiteLoc_children_isCallSite_aux : ∀ (locations : List Location) (r : Location),
    getCallSiteLoc.children locations = some r →
    ∃ callee caller, r = Location.CallSiteLoc callee caller
  | [], r, h => by simp [getCallSiteLoc.children] at h
  | subLoc :: rest, r, h => by
    simp only [getCallSiteLoc.children] at h
    cases hs : getCallSiteLoc subLoc with
    | none =>
      rw [hs] at h
      exact getCallSiteLoc_children_isCallSite_aux rest r h
    | some callLoc =>
      rw [hs] at h
      simp only [Option.some.injEq] at h
      subst h
      exact getCallSiteLoc_isCallSite_aux subLoc callLoc hs
end

theorem getCallSiteLoc_children_findSome (locations : List Location) :
    getCallSiteLoc.children locations = locations.findSome? getCallSiteLoc := by
  induction locations with
  | nil => rfl
  | cons subLoc rest ih =>
    simp only [getCallSiteLoc.children, List.findSome?_cons]
    cases getCallSiteLoc subLoc with
    | none => exact ih
    | some l => rfl

/-- C17: `getCallSiteLoc` returns a call site itself, the result for the child of a name
location, for a fused location the first result that one of its locations has, in order (none
if none has one), and none for a file location, an opaque location and an unknown location;
whatever it returns is a call site. -/
theorem getCallSiteLoc_cases :
    (∀ callee caller, getCallSiteLoc (Location.CallSiteLoc callee caller)
      = some (Location.CallSiteLoc callee caller)) ∧
    (∀ name childLoc, getCallSiteLoc (Location.NameLoc name childLoc)
      = getCallSiteLoc childLoc) ∧
    (∀ locations, getCallSiteLoc (Location.FusedLoc locations)
      = locations.findSome? getCallSiteLoc) ∧
    (∀ filename line column,
      getCallSiteLoc (Location.FileLineColLoc filename line column) = none) ∧
    (∀ fallbackLocation, getCallSiteLoc (Location.OpaqueLoc fallbackLocation) = none) ∧
    getCallSiteLoc Location.UnknownLoc = none ∧
    (∀ loc r, getCallSiteLoc loc = some r →
      ∃ callee caller, r = Location.CallSiteLoc callee caller) := by
  refine ⟨?_, ?_, ?_, ?_, ?_, ?_, getCallSiteLoc_isCallSite_aux⟩
  · intro callee caller; simp [getCallSiteLoc]
  · intro name childLoc; simp [getCallSiteLoc]
  · intro locations
    simp only [getCallSiteLoc]
    exact getCallSiteLoc_children_findSome locations
  · intro filename line column; simp [getCallSiteLoc]
  · intro fallbackLocation; simp [getCallSiteLoc]
  · simp [getCallSiteLoc]

/-- Witness of C17: the call site under a name inside a fused location. -/
theorem getCallSiteLoc_cases_witness :
    getCallSiteLoc Example.fusedLoc
      = some (Location.CallSiteLoc (Location.FileLineColLoc "a.mlir" 3 4)
          (Location.FileLineColLoc "b.mlir" 9 1)) ∧
    ∃ callee caller, Location.CallSiteLoc (Location.FileLineColLoc "a.mlir" 3 4)
      (Location.FileLineColLoc "b.mlir" 9 1) = Location.CallSiteLoc callee caller :=
  ⟨by decide, getCallSiteLoc_cases.2.2.2.2.2.2 Example.fusedLoc _ (by decide)⟩

/-! ## Lemmas on the scan for expected diagnostics -/

namespace SourceMgrDiagnosticVerifierHandlerImpl

theorem setLineNos_length (lineNo : Nat) (idxs : List Nat) :
    ∀ l : List ExpectedDiag, (setLineNos lineNo idxs l).length = l.length := by
  induction idxs with
  | nil => intro l; rfl
  | cons i rest ih => intro l; simp [setLineNos, ih]

theorem setLineNos_getElem?_of_not_mem (lineNo : Nat) (idxs : List Nat) (k : Nat)
    (hk : k ∉ idxs) :
    ∀ l : List ExpectedDiag, (setLineNos lineNo idxs l)[k]? = l[k]? := by
  induction idxs with
  | nil => intro l; rfl
  | cons i rest ih =>
    intro l
    simp only [List.mem_cons, not_or] at hk
    simp only [setLineNos]
    rw [ih hk.2, List.getElem?_modify]
    have hne : ¬ i = k := fun h => hk.1 h.symm
    simp [hne]

/-- The shapes of one round on a line that is an annotation: the expected diagnostics and the
indices kept for the next line are as before, or one expected diagnostic is appended and
either the indices are as before or the index of the new one is added. -/
theorem scanLine_shape (env : VerifierEnv) (e lineNo lineStart : Nat) (line : List Char)
    (st : ScanState) (ms : RegexMatches)
    (hm : env.expected (String.mk (StringRef.rtrim line)) = some ms) :
    ((scanLine env e lineNo lineStart line st).expectedDiags = st.expectedDiags ∧
      (scanLine env e lineNo lineStart line st).designatorsForNextLine
        = st.designatorsForNextLine) ∨
    ∃ r, (scanLine env e lineNo lineStart line st).expectedDiags = st.expectedDiags ++ [r] ∧
      ((scanLine env e lineNo lineStart line st).designatorsForNextLine
          = st.designatorsForNextLine ∨
        (scanLine env e lineNo lineStart line st).designatorsForNextLine
          = st.designatorsForNextLine ++ [st.expectedDiags.length]) := by
  simp only [scanLine, hm, applyDesignator]
  split_ifs <;> simp

/-- One round keeps the invariant, and keeps every settled expected diagnostic settled and as
it is. -/
theorem scanLine_settled (env : VerifierEnv) (e lineNo lineStart : Nat) (line : List Char)
    (st : ScanState) (hinv : st.Inv) :
    (scanLine env e lineNo lineStart line st).Inv ∧
    ∀ k, st.Settled k →
      (scanLine env e lineNo lineStart line st).Settled k ∧
      (scanLine env e lineNo lineStart line st).expectedDiags[k]? = st.expectedDiags[k]? := by
  cases hm : env.expected (String.mk (StringRef.rtrim line)) with
  | none =>
    simp only [scanLine, hm]
    refine ⟨fun i hi => by simp at hi, ?_⟩
    intro k hk
    refine ⟨⟨by simpa [setLineNos_length] using hk.1, by simp⟩, ?_⟩
    exact setLineNos_getElem?_of_not_mem _ _ k hk.2 _
  | some ms =>
    rcases scanLine_shape env e lineNo lineStart line st ms hm with ⟨h1, h2⟩ | ⟨r, h1, h2⟩
    · refine ⟨fun i hi => ?_, fun k hk => ⟨⟨?_, ?_⟩, ?_⟩⟩
      · rw [h1]; rw [h2] at hi; exact hinv i hi
      · rw [h1]; exact hk.1
      · rw [h2]; exact hk.2
      · rw [h1]
    · refine ⟨fun i hi => ?_, fun k hk => ⟨⟨?_, ?_⟩, ?_⟩⟩
      · rw [h1, List.length_append, List.length_singleton]
        rcases h2 with h2 | h2
        · rw [h2] at hi
          have := hinv i hi
          omega
        · rw [h2] at hi
          rcases List.mem_append.mp hi with h | h
          · have := hinv i h; omega
          · rw [List.mem_singleton] at h; omega
      · rw [h1, List.length_append, List.length_singleton]
        have := hk.1
        omega
      · rcases h2 with h2 | h2
        · rw [h2]; exact hk.2
        · rw [h2]
          intro hmem
          rcases List.mem_append.mp hmem with h | h
          · exact hk.2 h
          · rw [List.mem_singleton] at h
            have := hk.1
            omega
      · rw [h1]
        exact List.getElem?_append_left hk.1

theorem scanLines_settled (env : VerifierEnv) (e : Nat) (lines : List (List Char)) :
    ∀ (lineNo lineStart : Nat) (st : ScanState), st.Inv →
      (scanLines env e lineNo lineStart lines st).Inv ∧
      ∀ k, st.Settled k →
        (scanLines env e lineNo lineStart lines st).Settled k ∧
        (scanLines env e lineNo lineStart lines st).expectedDiags[k]?
          = st.expectedDiags[k]? := by
  induction lines with
  | nil => intro lineNo lineStart st hinv; exact ⟨hinv, fun k hk => ⟨hk, rfl⟩⟩
  | cons line rest ih =>
    intro lineNo lineStart st hinv
    obtain ⟨hinv1, hstep⟩ := scanLine_settled env e lineNo lineStart line st hinv
    obtain ⟨hinv2, hrest⟩ := ih (lineNo + 1) (lineStart + line.length + 1) _ hinv1
    refine ⟨hinv2, fun k hk => ?_⟩
    obtain ⟨hk1, heq1⟩ := hstep k hk
    obtain ⟨hk2, heq2⟩ := hrest k hk1
    exact ⟨hk2, heq2.trans heq1⟩

theorem scanLines_append (env : VerifierEnv) (e : Nat) (pre rest : List (List Char)) :
    ∀ (lineNo lineStart : Nat) (st : ScanState),
      scanLines env e lineNo lineStart (pre ++ rest) st
        = scanLines env e (lineNo + pre.length) (lineStart + StringRef.offsetAfter pre) rest
            (scanLines env e lineNo lineStart pre st) := by
  induction pre with
  | nil => intro lineNo lineStart st; simp [scanLines, StringRef.offsetAfter]
  | cons line pre ih =>
    intro lineNo lineStart st
    have h1 : lineNo + (line :: pre).length = lineNo + 1 + pre.length := by
      simp only [List.length_cons]; omega
    have h2 : lineStart + StringRef.offsetAfter (line :: pre)
        = lineStart + line.length + 1 + StringRef.offsetAfter pre := by
      simp only [StringRef.offsetAfter, List.map_cons, List.sum_cons]; omega
    rw [h1, h2]
    simp only [List.cons_append, scanLines]
    exact ih _ _ _

/-- If the round of the line after `pre` appends the expected diagnostic `r` and leaves the
indices kept for the next line as they are, then `r` is in the result of the whole scan, at
the index it was appended at. -/
theorem scanLines_appended (env : VerifierEnv) (e : Nat) (pre post : List (List Char))
    (line : List Char) (st0 : ScanState) (r : ExpectedDiag) (hinv : st0.Inv)
    (hstep : (scanLine env e pre.length (StringRef.offsetAfter pre) line
        (scanLines env e 0 0 pre st0)).expectedDiags
      = (scanLines env e 0 0 pre st0).expectedDiags ++ [r])
    (hdes : (scanLine env e pre.length (StringRef.offsetAfter pre) line
        (scanLines env e 0 0 pre st0)).designatorsForNextLine
      = (scanLines env e 0 0 pre st0).designatorsForNextLine) :
    (scanLines env e 0 0 (pre ++ line :: post) st0).expectedDiags[
        (scanLines env e 0 0 pre st0).expectedDiags.length]? = some r := by
  obtain ⟨hinv1, -⟩ := scanLines_settled env e pre 0 0 st0 hinv
  obtain ⟨hinv2, -⟩ := scanLine_settled env e pre.length (StringRef.offsetAfter pre) line _ hinv1
  have hsettled : (scanLine env e pre.length (StringRef.offsetAfter pre) line
      (scanLines env e 0 0 pre st0)).Settled
        (scanLines env e 0 0 pre st0).expectedDiags.length := by
    refine ⟨by rw [hstep]; simp, ?_⟩
    rw [hdes]
    intro hmem
    exact Nat.lt_irrefl _ (hinv1 _ hmem)
  rw [scanLines_append]
  simp only [Nat.zero_add, scanLines]
  obtain ⟨-, hrest⟩ := scanLines_settled env e post (pre.length + 1)
    (StringRef.offsetAfter pre + line.length + 1) _ hinv2
  rw [(hrest _ hsettled).2, hstep]
  simp

end SourceMgrDiagnosticVerifierHandlerImpl

namespace ExpectedDiag

/-- With more rounds than characters the loop of `computeRegex` comes to its end. -/
theorem computeRegexLoop_isSome (env : VerifierEnv) :
    ∀ (fuel : Nat) (strToProcess : List Char) (regexOS : String),
      strToProcess.length < fuel →
      (computeRegexLoop env fuel strToProcess regexOS).isSome = true := by
  intro fuel
  induction fuel with
  | zero => intro s os h; omega
  | succ fuel ih =>
    intro s os h
    unfold computeRegexLoop
    split
    · rfl
    · rename_i hne
      cases h1 : StringRef.find ['{', '{'] s with
      | none => rfl
      | some regexIt =>
        simp only
        cases h2 : StringRef.find ['}', '}'] (List.drop (regexIt + 2) s) with
        | none => rfl
        | some regexEndIt =>
          simp only
          cases h3 : env.isValid
              (String.mk (List.take regexEndIt (List.drop (regexIt + 2) s))) with
          | some err => rfl
          | none =>
            simp only
            apply ih
            have hs : s ≠ [] := by
              intro hs
              apply hne
              rw [hs]
              rfl
            have hpos : 0 < s.length := List.length_pos.mpr hs
            simp only [List.length_drop]
            omega

/-- The member `computeRegex` changes at most the compiled regex of the record. -/
theorem computeRegex_fields (env : VerifierEnv) (self : ExpectedDiag) :
    (self.computeRegex env).2.1.kind = self.kind ∧
    (self.computeRegex env).2.1.lineNo = self.lineNo ∧
    (self.computeRegex env).2.1.fileLoc = self.fileLoc ∧
    (self.computeRegex env).2.1.matched = self.matched ∧
    (self.computeRegex env).2.1.substring = self.substring := by
  unfold computeRegex
  split <;> exact ⟨rfl, rfl, rfl, rfl, rfl⟩

end ExpectedDiag

namespace SourceMgrDiagnosticVerifierHandlerImpl

/-- The record of a round keeps what the constructor was given; `computeRegex` adds at most
the compiled regex. -/
theorem makeRecord_fields (env : VerifierEnv) (lineNo lineStart : Nat) (ms : RegexMatches) :
    (makeRecord env lineNo lineStart ms).2.1.kind = kindOfKeyword (ms.get 1) ∧
    (makeRecord env lineNo lineStart ms).2.1.lineNo = lineNo + 1 ∧
    (makeRecord env lineNo lineStart ms).2.1.fileLoc = some (lineStart + ms.start) ∧
    (makeRecord env lineNo lineStart ms).2.1.matched = false ∧
    (makeRecord env lineNo lineStart ms).2.1.substring = ms.get 5 := by
  unfold makeRecord
  simp only
  split
  · exact ExpectedDiag.computeRegex_fields env _
  · exact ⟨rfl, rfl, rfl, rfl, rfl⟩

theorem makeRecord_ok (env : VerifierEnv) (lineNo lineStart : Nat) (ms : RegexMatches)
    (hc : ms.Compiles env) : failed (makeRecord env lineNo lineStart ms).1 = false := by
  unfold makeRecord
  simp only
  rcases hc with h | ⟨regexStr, h⟩
  · simp [h, failed, succeeded]
  · split
    · simp only [ExpectedDiag.computeRegex, ExpectedDiag.create, h]
      rfl
    · rfl

/-- One round on an annotation that yields an expected diagnostic is the block on the
designator, applied to the record of the round. -/
theorem scanLine_compiles (env : VerifierEnv) (e lineNo lineStart : Nat)
    (line : List Char) (st : ScanState) (ms : RegexMatches)
    (hm : env.expected (String.mk (StringRef.rtrim line)) = some ms)
    (hc : ms.Compiles env) :
    scanLine env e lineNo lineStart line st
      = applyDesignator env e st (makeRecord env lineNo lineStart ms).2.1 (ms.get 3).data := by
  have hok := makeRecord_ok env lineNo lineStart ms hc
  simp only [scanLine, hm]
  rcases hmk : makeRecord env lineNo lineStart ms with ⟨result, record, printed⟩
  rw [hmk] at hok
  simp only at hok
  simp [hok]

end SourceMgrDiagnosticVerifierHandlerImpl

namespace SourceMgrDiagnosticVerifierHandlerImpl

theorem applyDesignator_empty (env : VerifierEnv) (e : Nat) (st : ScanState)
    (record : ExpectedDiag) :
    applyDesignator env e st record []
      = { st with expectedDiags := st.expectedDiags ++ [record] } := by
  simp [applyDesignator]

theorem applyDesignator_plus (env : VerifierEnv) (e : Nat) (st : ScanState)
    (record : ExpectedDiag) (digits : List Char) (value : Int)
    (hvalue : StringRef.getAsInteger 0 digits = some value) :
    applyDesignator env e st record ('@' :: '+' :: digits)
      = { st with expectedDiags := st.expectedDiags ++
          [{ record with lineNo := (((record.lineNo : Int) + value) % 2 ^ 32).toNat }] } := by
  simp [applyDesignator, hvalue]

theorem applyDesignator_minus (env : VerifierEnv) (e : Nat) (st : ScanState)
    (record : ExpectedDiag) (digits : List Char) (value : Int)
    (hvalue : StringRef.getAsInteger 0 digits = some value) :
    applyDesignator env e st record ('@' :: '-' :: digits)
      = { st with expectedDiags := st.expectedDiags ++
          [{ record with lineNo := (((record.lineNo : Int) - value) % 2 ^ 32).toNat }] } := by
  simp [applyDesignator, hvalue]

theorem applyDesignator_above (env : VerifierEnv) (e : Nat) (st : ScanState)
    (record : ExpectedDiag) :
    applyDesignator env e st record "@above".data
      = { st with expectedDiags := st.expectedDiags ++
          [{ record with lineNo := st.lastNonDesignatorLine + 1 }] } := by
  simp [applyDesignator, StringRef.startsWith]

/-- A round on a line that matches leaves the number of the last line that did not match as
it is. -/
theorem scanLine_last_of_match (env : VerifierEnv) (e lineNo lineStart : Nat)
    (line : List Char) (st : ScanState) (ms : RegexMatches)
    (hm : env.expected (String.mk (StringRef.rtrim line)) = some ms) :
    (scanLine env e lineNo lineStart line st).lastNonDesignatorLine
      = st.lastNonDesignatorLine := by
  simp only [scanLine, hm, applyDesignator]
  split_ifs <;> simp

theorem scanLine_last_of_no_match (env : VerifierEnv) (e lineNo lineStart : Nat)
    (line : List Char) (st : ScanState)
    (hm : env.expected (String.mk (StringRef.rtrim line)) = none) :
    (scanLine env e lineNo lineStart line st).lastNonDesignatorLine = lineNo := by
  simp only [scanLine, hm]

theorem scanLines_last_of_match (env : VerifierEnv) (e : Nat) (mid : List (List Char))
    (hmid : ∀ l ∈ mid, env.expected (String.mk (StringRef.rtrim l)) ≠ none) :
    ∀ (lineNo lineStart : Nat) (st : ScanState),
      (scanLines env e lineNo lineStart mid st).lastNonDesignatorLine
        = st.lastNonDesignatorLine := by
  induction mid with
  | nil => intro lineNo lineStart st; rfl
  | cons l rest ih =>
    intro lineNo lineStart st
    simp only [scanLines]
    rw [ih (fun l2 h2 => hmid l2 (List.mem_cons_of_mem _ h2))]
    cases hm : env.expected (String.mk (StringRef.rtrim l)) with
    | none => exact absurd hm (hmid l (List.mem_cons_self _ _))
    | some ms => exact scanLine_last_of_match env e lineNo lineStart l st ms hm

/-- After the lines `pre1`, a line that does not match and lines `mid` that all match, the
number of the last line that did not match is the number of lines of `pre1`. -/
theorem scanLines_last (env : VerifierEnv) (e : Nat) (pre1 mid : List (List Char))
    (plain : List Char) (st : ScanState)
    (hplain : env.expected (String.mk (StringRef.rtrim plain)) = none)
    (hmid : ∀ l ∈ mid, env.expected (String.mk (StringRef.rtrim l)) ≠ none) :
    (scanLines env e 0 0 (pre1 ++ plain :: mid) st).lastNonDesignatorLine = pre1.length := by
  rw [scanLines_append]
  simp only [scanLines, Nat.zero_add]
  rw [scanLines_last_of_match env e mid hmid]
  exact scanLine_last_of_no_match env e _ _ plain _ hplain

/-- The expected diagnostic that the round of one line appends is among those that
`computeExpectedDiags` returns, and what it returns is the collection of the buffer
afterwards. -/
theorem computeExpectedDiags_appended (env : VerifierEnv)
    (self : SourceMgrDiagnosticVerifierHandlerImpl) (buf : MemoryBuffer)
    (pre post : List (List Char)) (line : List Char) (r : ExpectedDiag)
    (hlines : StringRef.split '\n' buf.buffer.data = pre ++ line :: post)
    (hstep : ∀ st : ScanState,
      st = scanLines env (pre ++ line :: post).length 0 0 pre
        ⟨(self.expectedDiagsPerFile.get? buf.bufferIdentifier).getD [],
          self.expectedUnknownLocDiags, self.status, 0, [], []⟩ →
      scanLine env (pre ++ line :: post).length pre.length (StringRef.offsetAfter pre) line st
        = { st with expectedDiags := st.expectedDiags ++ [r] }) :
    r ∈ (computeExpectedDiags env self (some buf)).2.1 ∧
    (computeExpectedDiags env self (some buf)).1.getExpectedDiags buf.bufferIdentifier
      = some (computeExpectedDiags env self (some buf)).2.1 := by
  constructor
  · simp only [computeExpectedDiags, hlines]
    have h := hstep _ rfl
    apply List.getElem?_mem
    exact scanLines_appended env _ pre post line _ r (fun i hi => by simp at hi)
      (by rw [h]) (by rw [h])
  · simp only [computeExpectedDiags, getExpectedDiags]
    exact DenseMap.get?_set_self _ _ _

end SourceMgrDiagnosticVerifierHandlerImpl

namespace StringRef

theorem charVal_of_isDigit (c : Char) (h : c.isDigit = true) :
    charVal c = some (c.toNat - '0'.toNat) ∧ c.toNat - '0'.toNat < 10 := by
  have h2 : 48 ≤ c.toNat ∧ c.toNat ≤ 57 := by
    simp only [Char.isDigit, Bool.and_eq_true, decide_eq_true_eq] at h
    exact ⟨h.1, h.2⟩
  have h0 : '0' ≤ c := by
    show ('0' : Char).val ≤ c.val
    exact h2.1
  have h9 : c ≤ '9' := by
    show c.val ≤ ('9' : Char).val
    exact h2.2
  refine ⟨?_, ?_⟩
  · simp [charVal, h0, h9]
  · have : ('0' : Char).toNat = 48 := rfl
    omega

theorem le_foldl_decimal (digits : List Char) :
    ∀ acc : Nat, acc ≤ digits.foldl (fun n c => 10 * n + (c.toNat - '0'.toNat)) acc := by
  induction digits with
  | nil => intro acc; exact Nat.le_refl _
  | cons c cs ih =>
    intro acc
    simp only [List.foldl_cons]
    exact Nat.le_trans (by omega) (ih _)

theorem consumeDigits_decimal (digits : List Char) (hdig : ∀ c ∈ digits, c.isDigit = true) :
    ∀ acc : Nat, digits.foldl (fun n c => 10 * n + (c.toNat - '0'.toNat)) acc < 2 ^ 64 →
      consumeDigits 10 digits acc
        = some (digits.foldl (fun n c => 10 * n + (c.toNat - '0'.toNat)) acc, []) := by
  induction digits with
  | nil => intro acc _; rfl
  | cons c cs ih =>
    intro acc hfit
    obtain ⟨hv, hlt⟩ := charVal_of_isDigit c (hdig c (List.mem_cons_self _ _))
    simp only [List.foldl_cons] at hfit ⊢
    have hstep : 10 * acc + (c.toNat - '0'.toNat) < 2 ^ 64 :=
      Nat.lt_of_le_of_lt (le_foldl_decimal cs _) hfit
    have hmod : (acc * 10 + (c.toNat - '0'.toNat)) % 2 ^ 64
        = 10 * acc + (c.toNat - '0'.toNat) := by
      rw [Nat.mod_eq_of_lt (by omega)]
      omega
    simp only [consumeDigits, hv]
    rw [if_neg (by omega), hmod, if_neg (by omega)]
    exact ih (fun c2 h2 => hdig c2 (List.mem_cons_of_mem _ h2)) _ hfit

theorem getAutoSenseRadix_decimal (digits : List Char)
    (hdig : ∀ c ∈ digits, c.isDigit = true)
    (hlead : digits.head? ≠ some '0' ∨ digits = ['0']) :
    getAutoSenseRadix digits = (10, digits) := by
  unfold getAutoSenseRadix
  split
  · rename_i rest
    have := hdig 'x' (by simp)
    simp [Char.isDigit] at this
  · rename_i rest
    have := hdig 'X' (by simp)
    simp [Char.isDigit] at this
  · rename_i rest
    have := hdig 'b' (by simp)
    simp [Char.isDigit] at this
  · rename_i rest
    have := hdig 'B' (by simp)
    simp [Char.isDigit] at this
  · rename_i rest
    have := hdig 'o' (by simp)
    simp [Char.isDigit] at this
  · rcases hlead with h | h
    · simp at h
    · simp at h
  · rfl

/-- A non-empty string of decimal digits that does not start with a superfluous 0 and whose
decimal value is below 2^31 is read by `getAsInteger` with radix 0 as that value. -/
theorem getAsInteger_decimal (digits : List Char) (hne : digits ≠ [])
    (hdig : ∀ c ∈ digits, c.isDigit = true)
    (hlead : digits.head? ≠ some '0' ∨ digits = ['0'])
    (hfit : decimalValue digits < 2 ^ 31) :
    getAsInteger 0 digits = some (decimalValue digits : Int) := by
  have hcons : consumeDigits 10 digits 0 = some (decimalValue digits, []) :=
    consumeDigits_decimal digits hdig 0 (Nat.lt_of_lt_of_le hfit (by norm_num))
  have hunsigned : consumeUnsignedInteger 0 digits = some (decimalValue digits, []) := by
    simp only [consumeUnsignedInteger, if_true, getAutoSenseRadix_decimal digits hdig hlead,
      hcons]
    cases digits with
    | nil => exact absurd rfl hne
    | cons c cs => simp
  have hsigned : consumeSignedInteger 0 digits = some ((decimalValue digits : Int), []) := by
    cases digits with
    | nil => exact absurd rfl hne
    | cons c cs =>
      have hc : c ≠ '-' := by
        intro h
        have := hdig c (List.mem_cons_self _ _)
        rw [h] at this
        simp [Char.isDigit] at this
      unfold consumeSignedInteger
      split
      · rename_i str2 heq
        injection heq with h1 h2
        exact absurd h1 hc
      · rw [hunsigned]
        have hlt : decimalValue (c :: cs) < 9223372036854775808 := by
          have h31 : (2 : Nat) ^ 31 = 2147483648 := by norm_num
          omega
        simp [hlt]
  simp only [getAsInteger, hsigned]
  have h31 : (2 : Nat) ^ 31 = 2147483648 := by norm_num
  have h2 : decimalValue digits < 2147483648 := by omega
  have h3 : (-2147483648 : Int) ≤ (decimalValue digits : Int) := by omega
  simp [h2, h3]

end StringRef

/-! ## Claims on the expected diagnostics of a buffer -/

/-- C18, as stated, fails: the one line of the buffer is an annotation without designator
(the pattern matches it, with `-re` and an empty designator group), and
`computeExpectedDiags` appends no expected diagnostic for it; it sets the status to failure
and prints one message. -/
theorem no_designator_counterexample :
    Example.env.expected "// expected-error-re \x7b\x7bfoo\x7b\x7bbar\x7d\x7d"
      = some ⟨3, ["expected-error-re \x7b\x7bfoo\x7b\x7bbar\x7d\x7d", "error", "-re", "", "", "foo\x7b\x7bbar"]⟩ ∧
    (SourceMgrDiagnosticVerifierHandlerImpl.computeExpectedDiags Example.env
      (SourceMgrDiagnosticVerifierHandlerImpl.create Level.All)
      (some Example.bufUnterminated)).2.1 = [] ∧
    (SourceMgrDiagnosticVerifierHandlerImpl.computeExpectedDiags Example.env
      (SourceMgrDiagnosticVerifierHandlerImpl.create Level.All)
      (some Example.bufUnterminated)).1.status = LogicalResult.failure ∧
    ((SourceMgrDiagnosticVerifierHandlerImpl.computeExpectedDiags Example.env
      (SourceMgrDiagnosticVerifierHandlerImpl.create Level.All)
      (some Example.bufUnterminated)).2.2).map (fun m => m.msg)
      = ["found start of regex with no end '\x7d\x7d'"] := by
  decide

/-- C18 (amended): let the line after the lines `pre` of a buffer match the pattern of the
annotations with an empty designator group, and let it have no `-re` or a text that
`computeRegex` compiles. Then the expected diagnostics that `computeExpectedDiags` returns,
which are the collection of the buffer afterwards, contain one with the line number
`pre.length + 1` (the 0-based index of the line plus 1), the kind of the keyword, the text of
the last group (the text between the outer braces) as pattern, matched = false, and the
start of the match as anchor. The kinds of the four keywords are as named. -/
theorem computeExpectedDiags_no_designator (env : VerifierEnv)
    (self : SourceMgrDiagnosticVerifierHandlerImpl) (buf : MemoryBuffer)
    (pre post : List (List Char)) (line : List Char) (ms : RegexMatches)
    (hlines : StringRef.split '\n' buf.buffer.data = pre ++ line :: post)
    (hm : env.expected (String.mk (StringRef.rtrim line)) = some ms)
    (hdes : ms.get 3 = "") (hc : ms.Compiles env) :
    (∃ r ∈ (SourceMgrDiagnosticVerifierHandlerImpl.computeExpectedDiags env self
        (some buf)).2.1,
      r.lineNo = pre.length + 1 ∧
      r.kind = SourceMgrDiagnosticVerifierHandlerImpl.kindOfKeyword (ms.get 1) ∧
      r.substring = ms.get 5 ∧ r.matched = false ∧
      r.fileLoc = some (StringRef.offsetAfter pre + ms.start)) ∧
    (SourceMgrDiagnosticVerifierHandlerImpl.computeExpectedDiags env self
        (some buf)).1.getExpectedDiags buf.bufferIdentifier
      = some (SourceMgrDiagnosticVerifierHandlerImpl.computeExpectedDiags env self
        (some buf)).2.1 ∧
    SourceMgrDiagnosticVerifierHandlerImpl.kindOfKeyword "error" = DiagnosticSeverity.Error ∧
    SourceMgrDiagnosticVerifierHandlerImpl.kindOfKeyword "warning"
      = DiagnosticSeverity.Warning ∧
    SourceMgrDiagnosticVerifierHandlerImpl.kindOfKeyword "remark"
      = DiagnosticSeverity.Remark ∧
    SourceMgrDiagnosticVerifierHandlerImpl.kindOfKeyword "note" = DiagnosticSeverity.Note := by
  obtain ⟨hk, hl, hf, hmt, hs⟩ := SourceMgrDiagnosticVerifierHandlerImpl.makeRecord_fields env
    pre.length (StringRef.offsetAfter pre) ms
  have happ := SourceMgrDiagnosticVerifierHandlerImpl.computeExpectedDiags_appended env self
    buf pre post line
    (SourceMgrDiagnosticVerifierHandlerImpl.makeRecord env pre.length
      (StringRef.offsetAfter pre) ms).2.1 hlines
    (by
      intro st _
      rw [SourceMgrDiagnosticVerifierHandlerImpl.scanLine_compiles env _ _ _ line st ms hm hc,
        hdes]
      exact SourceMgrDiagnosticVerifierHandlerImpl.applyDesignator_empty env _ st _)
  exact ⟨⟨_, happ.1, hl, hk, hs, hmt, hf⟩, happ.2, by decide, by decide, by decide, by decide⟩

set_option maxRecDepth 100000 in
/-- Witness of C18 (amended): the second line of a buffer is a warning annotation without
designator. -/
theorem computeExpectedDiags_no_designator_witness :
    ∃ r ∈ (SourceMgrDiagnosticVerifierHandlerImpl.computeExpectedDiags Example.env
        (SourceMgrDiagnosticVerifierHandlerImpl.create Level.All)
        (some Example.bufPlain)).2.1,
      r.lineNo = 2 ∧ r.kind = DiagnosticSeverity.Warning ∧
      r.substring = "cannot find 'foo'" ∧ r.matched = false ∧ r.fileLoc = some 8 :=
  (computeExpectedDiags_no_designator Example.env
    (SourceMgrDiagnosticVerifierHandlerImpl.create Level.All) Example.bufPlain
    ["code".data] [] "// expected-warning \x7b\x7bcannot find 'foo'\x7d\x7d".data
    ⟨3, ["expected-warning \x7b\x7bcannot find 'foo'\x7d\x7d", "warning", "", "", "", "cannot find 'foo'"]⟩
    (by decide) (by decide) (by decide) (Or.inl (by decide))).1

set_option maxRecDepth 100000 in
/-- C19, as stated, fails. An annotation with `@-3` on the first line (index 0) gets the line
number 4294967294, not 0 + 1 - 3: the line number is a 32-bit unsigned value and the
subtraction wraps. An annotation with `@+010` on the first line gets the line number 9, not
0 + 1 + 10: a number with a leading zero is read as octal. -/
theorem offset_designator_counterexample :
    ((SourceMgrDiagnosticVerifierHandlerImpl.computeExpectedDiags Example.env
      (SourceMgrDiagnosticVerifierHandlerImpl.create Level.All)
      (some Example.bufMinus)).2.1).map (fun r => (r.lineNo : Int)) = [4294967294] ∧
    ((SourceMgrDiagnosticVerifierHandlerImpl.computeExpectedDiags Example.env
      (SourceMgrDiagnosticVerifierHandlerImpl.create Level.All)
      (some Example.bufMinus)).2.1).map (fun r => (r.lineNo : Int)) ≠ [0 + 1 - 3] ∧
    ((SourceMgrDiagnosticVerifierHandlerImpl.computeExpectedDiags Example.env
      (SourceMgrDiagnosticVerifierHandlerImpl.create Level.All)
      (some Example.bufOctal)).2.1).map (fun r => (r.lineNo : Int)) = [9] ∧
    ((SourceMgrDiagnosticVerifierHandlerImpl.computeExpectedDiags Example.env
      (SourceMgrDiagnosticVerifierHandlerImpl.create Level.All)
      (some Example.bufOctal)).2.1).map (fun r => (r.lineNo : Int)) ≠ [0 + 1 + 10] := by
  decide

/-- C19 (amended): let the line after the lines `pre` of a buffer (0-based index
`pre.length`) match the pattern of the annotations with the designator `@+digits`
(`plus = true`) or `@-digits` (`plus = false`), where `digits` is a non-empty string of
decimal digits that does not start with a superfluous 0 and whose decimal value N is below
2^31, and let the annotation have no `-re` or a text that `computeRegex` compiles. Then the
expected diagnostics returned contain one, anchored at the start of the match, whose line
number is `pre.length + 1 + N`, respectively `pre.length + 1 - N`, reduced modulo 2^32: it is
`pre.length + 1 + N` when that is below 2^32, and `pre.length + 1 - N` when N is at most
`pre.length + 1` and the buffer has fewer than 2^32 lines. -/
theorem computeExpectedDiags_offset (env : VerifierEnv)
    (self : SourceMgrDiagnosticVerifierHandlerImpl) (buf : MemoryBuffer)
    (pre post : List (List Char)) (line : List Char) (ms : RegexMatches)
    (plus : Bool) (digits : List Char)
    (hlines : StringRef.split '\n' buf.buffer.data = pre ++ line :: post)
    (hm : env.expected (String.mk (StringRef.rtrim line)) = some ms)
    (hdes : (ms.get 3).data = '@' :: (if plus then '+' else '-') :: digits)
    (hc : ms.Compiles env)
    (hne : digits ≠ []) (hdig : ∀ c ∈ digits, c.isDigit = true)
    (hlead : digits.head? ≠ some '0' ∨ digits = ['0'])
    (hfit : StringRef.decimalValue digits < 2 ^ 31) :
    ∃ r ∈ (SourceMgrDiagnosticVerifierHandlerImpl.computeExpectedDiags env self
        (some buf)).2.1,
      r.fileLoc = some (StringRef.offsetAfter pre + ms.start) ∧
      (r.lineNo : Int) = (if plus
        then ((pre.length + 1 : Nat) : Int) + (StringRef.decimalValue digits : Int)
        else ((pre.length + 1 : Nat) : Int) - (StringRef.decimalValue digits : Int)) % 2 ^ 32 ∧
      (plus = true → pre.length + 1 + StringRef.decimalValue digits < 2 ^ 32 →
        r.lineNo = pre.length + 1 + StringRef.decimalValue digits) ∧
      (plus = false → StringRef.decimalValue digits ≤ pre.length + 1 →
        pre.length + 1 < 2 ^ 32 →
        r.lineNo = pre.length + 1 - StringRef.decimalValue digits) := by
  obtain ⟨hk, hl, hf, hmt, hs⟩ := SourceMgrDiagnosticVerifierHandlerImpl.makeRecord_fields env
    pre.length (StringRef.offsetAfter pre) ms
  have hval := StringRef.getAsInteger_decimal digits hne hdig hlead hfit
  have h32 : ((2 : Int) ^ 32) = 4294967296 := by norm_num
  have h32n : ((2 : Nat) ^ 32) = 4294967296 := by norm_num
  cases plus with
  | true =>
    simp only [if_true] at hdes ⊢
    have happ := SourceMgrDiagnosticVerifierHandlerImpl.computeExpectedDiags_appended env self
      buf pre post line _ hlines
      (by
        intro st _
        rw [SourceMgrDiagnosticVerifierHandlerImpl.scanLine_compiles env _ _ _ line st ms hm
          hc, hdes]
        exact SourceMgrDiagnosticVerifierHandlerImpl.applyDesignator_plus env _ st _ digits _
          hval)
    refine ⟨_, happ.1, hf, ?_, ?_, ?_⟩
    · simp only [hl]
      rw [Int.toNat_of_nonneg (Int.emod_nonneg _ (by norm_num))]
    · intro _ hlt
      simp only [hl]
      rw [h32n] at hlt
      omega
    · intro h; cases h
  | false =>
    simp only [Bool.false_eq_true, if_false] at hdes ⊢
    have happ := SourceMgrDiagnosticVerifierHandlerImpl.computeExpectedDiags_appended env self
      buf pre post line _ hlines
      (by
        intro st _
        rw [SourceMgrDiagnosticVerifierHandlerImpl.scanLine_compiles env _ _ _ line st ms hm
          hc, hdes]
        exact SourceMgrDiagnosticVerifierHandlerImpl.applyDesignator_minus env _ st _ digits _
          hval)
    refine ⟨_, happ.1, hf, ?_, ?_, ?_⟩
    · simp only [hl]
      rw [Int.toNat_of_nonneg (Int.emod_nonneg _ (by norm_num))]
    · intro h; cases h
    · intro _ hle hlt
      simp only [hl]
      rw [h32n] at hlt
      omega

set_option maxRecDepth 100000 in
/-- Witness of C19 (amended): the third line of a buffer (index 2) is an annotation with
`@-2`; its expected diagnostic has the line number 1. -/
theorem computeExpectedDiags_offset_witness :
    ∃ r ∈ (SourceMgrDiagnosticVerifierHandlerImpl.computeExpectedDiags Example.env
        (SourceMgrDiagnosticVerifierHandlerImpl.create Level.All)
        (some Example.bufOffset)).2.1,
      r.fileLoc = some 7 ∧ r.lineNo = 1 := by
  obtain ⟨r, hr, hloc, _, _, hminus⟩ := computeExpectedDiags_offset Example.env
    (SourceMgrDiagnosticVerifierHandlerImpl.create Level.All) Example.bufOffset
    ["a".data, "b".data] [] "// expected-remark@-2 \x7b\x7bq\x7d\x7d".data
    ⟨3, ["expected-remark@-2 \x7b\x7bq\x7d\x7d", "remark", "", "@-2", "-2", "q"]⟩ false "2".data
    (by decide) (by decide) (by decide) (Or.inl (by decide)) (by decide) (by decide)
    (by decide) (by decide)
  exact ⟨r, hr, hloc, hminus rfl (by decide) (by decide)⟩

/-- C20: let the line after the lines `pre1 ++ plain :: mid` of a buffer match the pattern of
the annotations with the designator `@above`, where `plain` does not match the pattern and
every line of `mid` does (so `plain` is the nearest line before the annotation that is not an
annotation), and let the annotation have no `-re` or a text that `computeRegex` compiles.
Then the expected diagnostics returned contain one, anchored at the start of the match, whose
line number is `pre1.length + 1`, the 1-indexed number of `plain`. -/
theorem computeExpectedDiags_above (env : VerifierEnv)
    (self : SourceMgrDiagnosticVerifierHandlerImpl) (buf : MemoryBuffer)
    (pre1 mid post : List (List Char)) (plain line : List Char) (ms : RegexMatches)
    (hlines : StringRef.split '\n' buf.buffer.data = (pre1 ++ plain :: mid) ++ line :: post)
    (hplain : env.expected (String.mk (StringRef.rtrim plain)) = none)
    (hmid : ∀ l ∈ mid, env.expected (String.mk (StringRef.rtrim l)) ≠ none)
    (hm : env.expected (String.mk (StringRef.rtrim line)) = some ms)
    (hdes : ms.get 3 = "@above") (hc : ms.Compiles env) :
    ∃ r ∈ (SourceMgrDiagnosticVerifierHandlerImpl.computeExpectedDiags env self
        (some buf)).2.1,
      r.fileLoc = some (StringRef.offsetAfter (pre1 ++ plain :: mid) + ms.start) ∧
      r.lineNo = pre1.length + 1 ∧
      r.kind = SourceMgrDiagnosticVerifierHandlerImpl.kindOfKeyword (ms.get 1) ∧
      r.substring = ms.get 5 ∧ r.matched = false := by
  obtain ⟨hk, hl, hf, hmt, hs⟩ := SourceMgrDiagnosticVerifierHandlerImpl.makeRecord_fields env
    (pre1 ++ plain :: mid).length (StringRef.offsetAfter (pre1 ++ plain :: mid)) ms
  have happ := SourceMgrDiagnosticVerifierHandlerImpl.computeExpectedDiags_appended env self
    buf (pre1 ++ plain :: mid) post line
    { (SourceMgrDiagnosticVerifierHandlerImpl.makeRecord env (pre1 ++ plain :: mid).length
        (StringRef.offsetAfter (pre1 ++ plain :: mid)) ms).2.1 with
      lineNo := pre1.length + 1 } hlines
    (by
      intro st hst
      rw [SourceMgrDiagnosticVerifierHandlerImpl.scanLine_compiles env _ _ _ line st ms hm hc,
        hdes, SourceMgrDiagnosticVerifierHandlerImpl.applyDesignator_above]
      have hlast : st.lastNonDesignatorLine = pre1.length := by
        rw [hst]
        exact SourceMgrDiagnosticVerifierHandlerImpl.scanLines_last env _ pre1 mid plain _
          hplain hmid
      rw [hlast])
  exact ⟨_, happ.1, hf, rfl, hk, hs, hmt⟩

set_option maxRecDepth 100000 in
/-- Witness of C20: line 1 is code and line 2 an annotation with `@above`; the expected
diagnostic binds to line 1. -/
theorem computeExpectedDiags_above_witness :
    ∃ r ∈ (SourceMgrDiagnosticVerifierHandlerImpl.computeExpectedDiags Example.env
        (SourceMgrDiagnosticVerifierHandlerImpl.create Level.All)
        (some Example.bufAbove)).2.1,
      r.fileLoc = some 8 ∧ r.lineNo = 1 ∧ r.kind = DiagnosticSeverity.Error ∧
      r.substring = "m" ∧ r.matched = false :=
  computeExpectedDiags_above Example.env
    (SourceMgrDiagnosticVerifierHandlerImpl.create Level.All) Example.bufAbove
    [] [] ["more".data] "code".data "// expected-error@above \x7b\x7bm\x7d\x7d".data
    ⟨3, ["expected-error@above \x7b\x7bm\x7d\x7d", "error", "", "@above", "above", "m"]⟩
    (by decide) (by decide) (by decide) (by decide) (by decide) (Or.inl (by decide))

/-! ## Lemmas on the designator `@below` -/

namespace SourceMgrDiagnosticVerifierHandlerImpl

theorem setLineNos_getElem?_of_mem (lineNo : Nat) (idxs : List Nat) (k : Nat)
    (hk : k ∈ idxs) :
    ∀ l : List ExpectedDiag,
      (setLineNos lineNo idxs l)[k]? = l[k]?.map (fun e => { e with lineNo := lineNo }) := by
  induction idxs with
  | nil => simp at hk
  | cons i rest ih =>
    intro l
    simp only [setLineNos]
    by_cases hmem : k ∈ rest
    · rw [ih hmem, List.getElem?_modify]
      by_cases hik : i = k
      · subst hik
        cases l[i]? <;> simp
      · simp [hik]
    · have hki : k = i := by
        rcases List.mem_cons.mp hk with h | h
        · exact h
        · exact absurd h hmem
      subst hki
      rw [setLineNos_getElem?_of_not_mem _ _ _ hmem, List.getElem?_modify]
      simp

theorem applyDesignator_below (env : VerifierEnv) (e : Nat) (st : ScanState)
    (record : ExpectedDiag) :
    applyDesignator env e st record "@below".data
      = { st with
          designatorsForNextLine := st.designatorsForNextLine ++ [st.expectedDiags.length],
          expectedDiags := st.expectedDiags ++ [{ record with lineNo := e }] } := by
  simp [applyDesignator, StringRef.startsWith]

/-- An expected diagnostic that waits for the next line gets the number of the first line left
that does not match the pattern, and keeps its line number when every line left matches. -/
theorem scanLines_pending (env : VerifierEnv) (e k : Nat) (r : ExpectedDiag)
    (rest : List (List Char)) :
    ∀ (lineNo lineStart : Nat) (st : ScanState), st.Inv →
      k ∈ st.designatorsForNextLine → st.expectedDiags[k]? = some r →
      (scanLines env e lineNo lineStart rest st).expectedDiags[k]?
        = some { r with lineNo :=
            match nextNonDesignatorLine env rest with
            | some j => lineNo + j + 1
            | none => r.lineNo } := by
  induction rest with
  | nil => intro lineNo lineStart st _ _ hr; simpa [scanLines, nextNonDesignatorLine] using hr
  | cons line rest ih =>
    intro lineNo lineStart st hinv hk hr
    obtain ⟨hinv1, -⟩ := scanLine_settled env e lineNo lineStart line st hinv
    simp only [scanLines, nextNonDesignatorLine]
    cases hm : env.expected (String.mk (StringRef.rtrim line)) with
    | none =>
      have hset : (scanLine env e lineNo lineStart line st).Settled k := by
        simp only [scanLine, hm, ScanState.Settled, setLineNos_length]
        exact ⟨hinv k hk, by simp⟩
      have hval : (scanLine env e lineNo lineStart line st).expectedDiags[k]?
          = some { r with lineNo := lineNo + 1 } := by
        simp only [scanLine, hm]
        rw [setLineNos_getElem?_of_mem _ _ _ hk, hr]
        rfl
      obtain ⟨-, hrest⟩ := scanLines_settled env e rest (lineNo + 1)
        (lineStart + line.length + 1) _ hinv1
      rw [(hrest k hset).2, hval]
      simp
    | some ms =>
      have hlt := hinv k hk
      have hk1 : k ∈ (scanLine env e lineNo lineStart line st).designatorsForNextLine ∧
          (scanLine env e lineNo lineStart line st).expectedDiags[k]? = some r := by
        rcases scanLine_shape env e lineNo lineStart line st ms hm with ⟨h1, h2⟩ | ⟨r2, h1, h2⟩
        · rw [h1, h2]; exact ⟨hk, hr⟩
        · refine ⟨?_, ?_⟩
          · rcases h2 with h2 | h2
            · rw [h2]; exact hk
            · rw [h2]; exact List.mem_append_left _ hk
          · rw [h1, List.getElem?_append_left hlt]; exact hr
      rw [ih (lineNo + 1) (lineStart + line.length + 1) _ hinv1 hk1.1 hk1.2]
      cases hn : nextNonDesignatorLine env rest with
      | none => simp
      | some j =>
        simp only [Option.isNone_some, Bool.false_eq_true, if_false, Option.map_some']
        congr 2
        omega

end SourceMgrDiagnosticVerifierHandlerImpl

/-! ## Claims on the designators `@below` and `@unknown` -/

/-- C21: let the line after the lines `pre` of a buffer match the pattern of the annotations
with the designator `@below`, and let the annotation yield an expected diagnostic (it has no
`-re`, or a text that `computeRegex` compiles). Then the expected diagnostics returned contain
the one of this annotation, anchored at the start of the match, and its line number is the
1-indexed number of the first of the following lines `post` that does not match the pattern
(the line at position `j` of `post` has the number `pre.length + 1 + j + 1`), whatever
annotations stand in between, and the number of lines of the buffer, the count of the pieces
of the split at newlines, when every following line matches the pattern. -/
theorem computeExpectedDiags_below (env : VerifierEnv)
    (self : SourceMgrDiagnosticVerifierHandlerImpl) (buf : MemoryBuffer)
    (pre post : List (List Char)) (line : List Char) (ms : RegexMatches)
    (hlines : StringRef.split '\n' buf.buffer.data = pre ++ line :: post)
    (hm : env.expected (String.mk (StringRef.rtrim line)) = some ms)
    (hdes : ms.get 3 = "@below") (hc : ms.Compiles env) :
    ∃ r ∈ (SourceMgrDiagnosticVerifierHandlerImpl.computeExpectedDiags env self
        (some buf)).2.1,
      r.fileLoc = some (StringRef.offsetAfter pre + ms.start) ∧
      r.kind = SourceMgrDiagnosticVerifierHandlerImpl.kindOfKeyword (ms.get 1) ∧
      r.substring = ms.get 5 ∧ r.matched = false ∧
      r.lineNo = (match nextNonDesignatorLine env post with
        | some j => pre.length + 1 + j + 1
        | none => (StringRef.split '\n' buf.buffer.data).length) := by
  obtain ⟨hk, hl, hf, hmt, hs⟩ := SourceMgrDiagnosticVerifierHandlerImpl.makeRecord_fields env
    pre.length (StringRef.offsetAfter pre) ms
  simp only [SourceMgrDiagnosticVerifierHandlerImpl.computeExpectedDiags, hlines]
  rw [SourceMgrDiagnosticVerifierHandlerImpl.scanLines_append]
  simp only [Nat.zero_add, SourceMgrDiagnosticVerifierHandlerImpl.scanLines]
  generalize hst : SourceMgrDiagnosticVerifierHandlerImpl.scanLines env
    (pre ++ line :: post).length 0 0 pre
    ⟨(self.expectedDiagsPerFile.get? buf.bufferIdentifier).getD [],
      self.expectedUnknownLocDiags, self.status, 0, [], []⟩ = st
  have hinv : st.Inv := by
    rw [← hst]
    exact (SourceMgrDiagnosticVerifierHandlerImpl.scanLines_settled env _ pre 0 0 _
      (fun i hi => by simp at hi)).1
  obtain ⟨hinv1, -⟩ := SourceMgrDiagnosticVerifierHandlerImpl.scanLine_settled env
    (pre ++ line :: post).length pre.length (StringRef.offsetAfter pre) line st hinv
  have hstep := SourceMgrDiagnosticVerifierHandlerImpl.scanLine_compiles env
    (pre ++ line :: post).length pre.length (StringRef.offsetAfter pre) line st ms hm hc
  rw [hdes, SourceMgrDiagnosticVerifierHandlerImpl.applyDesignator_below] at hstep
  rw [hstep] at hinv1 ⊢
  have hpend := SourceMgrDiagnosticVerifierHandlerImpl.scanLines_pending env
    (pre ++ line :: post).length st.expectedDiags.length
    { (SourceMgrDiagnosticVerifierHandlerImpl.makeRecord env pre.length
        (StringRef.offsetAfter pre) ms).2.1 with lineNo := (pre ++ line :: post).length }
    post (pre.length + 1) (StringRef.offsetAfter pre + line.length + 1) _ hinv1
    (by simp) (by simp)
  refine ⟨_, List.getElem?_mem hpend, hf, hk, hs, hmt, ?_⟩
  cases nextNonDesignatorLine env post <;> rfl

set_option maxRecDepth 100000 in
/-- Witness of C21: the first line of a buffer is an annotation with `@below`, the second one
too, the third is code; the expected diagnostic of the first line binds to line 3. -/
theorem computeExpectedDiags_below_witness :
    ∃ r ∈ (SourceMgrDiagnosticVerifierHandlerImpl.computeExpectedDiags Example.env
        (SourceMgrDiagnosticVerifierHandlerImpl.create Level.All)
        (some Example.bufBelow)).2.1,
      r.fileLoc = some 3 ∧ r.kind = DiagnosticSeverity.Error ∧ r.substring = "m" ∧
      r.matched = false ∧ r.lineNo = 3 :=
  computeExpectedDiags_below Example.env
    (SourceMgrDiagnosticVerifierHandlerImpl.create Level.All) Example.bufBelow
    [] ["// expected-warning@below \x7b\x7bn\x7d\x7d".data, "code".data]
    "// expected-error@below \x7b\x7bm\x7d\x7d".data
    ⟨3, ["expected-error@below \x7b\x7bm\x7d\x7d", "error", "", "@below", "below", "m"]⟩
    (by decide) (by decide) (by decide) (Or.inl (by decide))

/-! ## What a round of the scan depends on -/

namespace SourceMgrDiagnosticVerifierHandlerImpl

/-- What a round adds to the expected diagnostics of unknown location, whether it sets the
status to failure and what it prints do not depend on the state it starts from. -/
theorem scanLine_frame (env : VerifierEnv) (e lineNo lineStart : Nat) (line : List Char) :
    ∃ (added : List ExpectedDiag) (fails : Bool) (printed : List SMMessage),
      ∀ st : ScanState,
        (scanLine env e lineNo lineStart line st).expectedUnknownLocDiags
          = st.expectedUnknownLocDiags ++ added ∧
        (scanLine env e lineNo lineStart line st).status
          = (if fails then LogicalResult.failure else st.status) ∧
        (scanLine env e lineNo lineStart line st).printed = st.printed ++ printed := by
  cases hm : env.expected (String.mk (StringRef.rtrim line)) with
  | none => exact ⟨[], false, [], fun st => by simp [scanLine, hm]⟩
  | some ms =>
    rcases hmk : makeRecord env lineNo lineStart ms with ⟨result, record, printed⟩
    by_cases hf : failed result = true
    · exact ⟨[], true, printed, fun st => by simp [scanLine, hm, hmk, hf]⟩
    · by_cases h1 : (!(ms.get 3).data.isEmpty) = true
      · by_cases h2 : ((ms.get 3).data.drop 1).head? = some '+' ∨
            ((ms.get 3).data.drop 1).head? = some '-'
        · exact ⟨[], false, [], fun st => by
            simp only [scanLine, hm, hmk, hf, applyDesignator, h1, h2]
            simp⟩
        · by_cases h3 : StringRef.startsWith ((ms.get 3).data.drop 1) "unknown".data = true
          · exact ⟨[{ record with fileLoc := none }], false, [], fun st => by
              simp only [scanLine, hm, hmk, hf, applyDesignator, h1, h2, h3]
              simp⟩
          · by_cases h4 : StringRef.startsWith ((ms.get 3).data.drop 1) "above".data = true
            · exact ⟨[], false, [], fun st => by
                simp only [scanLine, hm, hmk, hf, applyDesignator, h1, h2, h3, h4]
                simp⟩
            · exact ⟨[], false, [], fun st => by
                simp only [scanLine, hm, hmk, hf, applyDesignator, h1, h2, h3, h4]
                simp⟩
      · exact ⟨[], false, [], fun st => by
          simp only [scanLine, hm, hmk, hf, applyDesignator, h1]
          simp⟩

/-- The expected diagnostics of the buffer, the number of the last line that did not match
and the indices kept for the next line after a round depend on these three alone. -/
theorem scanLine_core (env : VerifierEnv) (e lineNo lineStart : Nat) (line : List Char)
    (st1 st2 : ScanState) (h1 : st1.expectedDiags = st2.expectedDiags)
    (h2 : st1.lastNonDesignatorLine = st2.lastNonDesignatorLine)
    (h3 : st1.designatorsForNextLine = st2.designatorsForNextLine) :
    (scanLine env e lineNo lineStart line st1).expectedDiags
      = (scanLine env e lineNo lineStart line st2).expectedDiags ∧
    (scanLine env e lineNo lineStart line st1).lastNonDesignatorLine
      = (scanLine env e lineNo lineStart line st2).lastNonDesignatorLine ∧
    (scanLine env e lineNo lineStart line st1).designatorsForNextLine
      = (scanLine env e lineNo lineStart line st2).designatorsForNextLine := by
  cases hm : env.expected (String.mk (StringRef.rtrim line)) with
  | none => simp [scanLine, hm, h1, h2, h3]
  | some ms =>
    simp only [scanLine, hm, applyDesignator]
    split_ifs <;> simp [h1, h2, h3]

theorem scanLines_frame (env : VerifierEnv) (e : Nat) (lines : List (List Char)) :
    ∀ (lineNo lineStart : Nat),
      ∃ (added : List ExpectedDiag) (fails : Bool) (printed : List SMMessage),
        ∀ st : ScanState,
          (scanLines env e lineNo lineStart lines st).expectedUnknownLocDiags
            = st.expectedUnknownLocDiags ++ added ∧
          (scanLines env e lineNo lineStart lines st).status
            = (if fails then LogicalResult.failure else st.status) ∧
          (scanLines env e lineNo lineStart lines st).printed = st.printed ++ printed := by
  induction lines with
  | nil => intro lineNo lineStart; exact ⟨[], false, [], fun st => by simp [scanLines]⟩
  | cons line rest ih =>
    intro lineNo lineStart
    obtain ⟨a1, f1, p1, hstep⟩ := scanLine_frame env e lineNo lineStart line
    obtain ⟨a2, f2, p2, hrest⟩ := ih (lineNo + 1) (lineStart + line.length + 1)
    refine ⟨a1 ++ a2, f1 || f2, p1 ++ p2, fun st => ?_⟩
    obtain ⟨hu1, hs1, hp1⟩ := hstep st
    obtain ⟨hu2, hs2, hp2⟩ := hrest (scanLine env e lineNo lineStart line st)
    simp only [scanLines]
    refine ⟨?_, ?_, ?_⟩
    · rw [hu2, hu1, List.append_assoc]
    · rw [hs2, hs1]
      cases f1 <;> cases f2 <;> simp
    · rw [hp2, hp1, List.append_assoc]

theorem scanLines_core (env : VerifierEnv) (e : Nat) (lines : List (List Char)) :
    ∀ (lineNo lineStart : Nat) (st1 st2 : ScanState),
      st1.expectedDiags = st2.expectedDiags →
      st1.lastNonDesignatorLine = st2.lastNonDesignatorLine →
      st1.designatorsForNextLine = st2.designatorsForNextLine →
      (scanLines env e lineNo lineStart lines st1).expectedDiags
        = (scanLines env e lineNo lineStart lines st2).expectedDiags := by
  induction lines with
  | nil => intro lineNo lineStart st1 st2 h1 _ _; exact h1
  | cons line rest ih =>
    intro lineNo lineStart st1 st2 h1 h2 h3
    obtain ⟨g1, g2, g3⟩ := scanLine_core env e lineNo lineStart line st1 st2 h1 h2 h3
    exact ih _ _ _ _ g1 g2 g3

/-- A scan does not take the status back from failure. -/
theorem scanLines_status (env : VerifierEnv) (e : Nat) (lines : List (List Char))
    (lineNo lineStart : Nat) (st : ScanState) (h : st.status = LogicalResult.failure) :
    (scanLines env e lineNo lineStart lines st).status = LogicalResult.failure := by
  obtain ⟨a, f, p, hall⟩ := scanLines_frame env e lines lineNo lineStart
  rw [(hall st).2.1, h]
  cases f <;> rfl

theorem computeExpectedDiags_status (env : VerifierEnv)
    (self : SourceMgrDiagnosticVerifierHandlerImpl) (buf : Option MemoryBuffer)
    (h : self.status = LogicalResult.failure) :
    (computeExpectedDiags env self buf).1.status = LogicalResult.failure := by
  cases buf with
  | none => exact h
  | some b =>
    simp only [computeExpectedDiags]
    exact scanLines_status env _ _ 0 0 _ h

theorem computeExpectedDiags_level (env : VerifierEnv)
    (self : SourceMgrDiagnosticVerifierHandlerImpl) (buf : Option MemoryBuffer) :
    (computeExpectedDiags env self buf).1.level = self.level := by
  cases buf with
  | none => rfl
  | some b => rfl

end SourceMgrDiagnosticVerifierHandlerImpl

/-! ## Lemmas on processing a diagnostic -/

namespace DenseMap

variable {K V : Type} [DecidableEq K]

theorem get?_update_self (m : DenseMap K V) (k : K) (v0 v : V) (h : get? m k = some v0) :
    get? (update m k v) k = some v := by
  induction m with
  | nil => simp [get?] at h
  | cons e rest ih =>
    obtain ⟨k1, v1⟩ := e
    by_cases hk : k1 = k
    · simp [update, get?, hk]
    · simp only [get?, hk, if_false] at h
      simp only [update, hk, if_false, get?]
      exact ih h

theorem update_eq_self (m : DenseMap K V) (k : K) (v : V) (h : get? m k = some v) :
    update m k v = m := by
  induction m with
  | nil => rfl
  | cons e rest ih =>
    obtain ⟨k1, v1⟩ := e
    by_cases hk : k1 = k
    · simp only [get?, hk, if_true, Option.some.injEq] at h
      simp [update, hk, h]
    · simp only [get?, hk, if_false] at h
      simp only [update, hk, if_false]
      rw [ih h]

theorem get?_erase_of_ne (m : DenseMap K V) (k k2 : K) (h : k2 ≠ k) :
    get? (erase m k) k2 = get? m k2 := by
  induction m with
  | nil => rfl
  | cons e rest ih =>
    obtain ⟨k1, v1⟩ := e
    by_cases hk : k1 = k
    · have hk2 : ¬ k1 = k2 := by rw [hk]; exact fun e => h e.symm
      have : erase ((k1, v1) :: rest) k = erase rest k := by
        simp [erase, List.filter_cons, hk]
      rw [this, ih]
      simp [get?, hk2]
    · have : erase ((k1, v1) :: rest) k = (k1, v1) :: erase rest k := by
        simp [erase, List.filter_cons, hk]
      rw [this]
      simp only [get?, ih]

theorem get?_set_of_ne (m : DenseMap K V) (k k2 : K) (v : V) (h : k2 ≠ k) :
    get? (set m k v) k2 = get? m k2 := by
  have hne : ¬ k = k2 := fun e => h e.symm
  simp only [set, get?, hne, if_false]
  exact get?_erase_of_ne m k k2 h

end DenseMap

namespace SourceMgrDiagnosticVerifierHandler

/-- The test of the loop of `process` on one expected diagnostic, in terms of
`isCandidate`. -/
theorem isCandidate_eq (env : VerifierEnv) (fileLine : Option Nat) (msg : String)
    (e : ExpectedDiag) :
    e.isCandidate env fileLine msg
      = (!decide (fileLine.isSome ∧ fileLine ≠ some e.lineNo) && e.isMatch env msg) := by
  cases fileLine with
  | none => simp [ExpectedDiag.isCandidate]
  | some line =>
    by_cases h : line = e.lineNo
    · simp [ExpectedDiag.isCandidate, h]
    · simp [ExpectedDiag.isCandidate, h]

/-- The loop of `process` when no candidate has the kind of the diagnostic: it runs to its
end, changes nothing, and the near miss is the last candidate, if there is one. -/
theorem processLoop_miss (env : VerifierEnv) (fileLine : Option Nat) (msg : String)
    (kind : DiagnosticSeverity) (diags : List ExpectedDiag) :
    ∀ nearMiss : Option ExpectedDiag,
      (∀ x ∈ diags, x.isCandidate env fileLine msg = true → x.kind ≠ kind) →
      processLoop env fileLine msg kind diags nearMiss
        = (diags, false,
            diags.foldl (fun nm x => if x.isCandidate env fileLine msg then some x else nm)
              nearMiss) := by
  induction diags with
  | nil => intro nearMiss _; rfl
  | cons e rest ih =>
    intro nearMiss h
    have hrest : ∀ x ∈ rest, x.isCandidate env fileLine msg = true → x.kind ≠ kind :=
      fun x hx => h x (List.mem_cons_of_mem _ hx)
    have hc := isCandidate_eq env fileLine msg e
    simp only [processLoop, List.foldl_cons]
    by_cases hline : fileLine.isSome ∧ fileLine ≠ some e.lineNo
    · have hce : e.isCandidate env fileLine msg = false := by rw [hc]; simp [hline]
      rw [if_pos hline, ih nearMiss hrest, hce]
      simp
    · rw [if_neg hline]
      by_cases hmatch : e.isMatch env msg = true
      · have hce : e.isCandidate env fileLine msg = true := by rw [hc]; simp [hline, hmatch]
        have hk : ¬ e.kind = kind := h e (List.mem_cons_self _ _) hce
        rw [if_pos hmatch, if_neg hk, ih (some e) hrest, hce]
        simp
      · have hce : e.isCandidate env fileLine msg = false := by rw [hc]; simp [hmatch]
        rw [if_neg hmatch, ih nearMiss hrest, hce]
        simp

/-- The near miss at the end of the loop when no expected diagnostic is a candidate. -/
theorem nearMiss_of_no_candidate (env : VerifierEnv) (fileLine : Option Nat) (msg : String)
    (diags : List ExpectedDiag) :
    ∀ nearMiss : Option ExpectedDiag,
      (∀ x ∈ diags, x.isCandidate env fileLine msg = false) →
      diags.foldl (fun nm x => if x.isCandidate env fileLine msg then some x else nm) nearMiss
        = nearMiss := by
  induction diags with
  | nil => intro nearMiss _; rfl
  | cons e rest ih =>
    intro nearMiss h
    simp only [List.foldl_cons, h e (List.mem_cons_self _ _)]
    exact ih nearMiss (fun x hx => h x (List.mem_cons_of_mem _ hx))

/-- The near miss at the end of the loop when some expected diagnostic is a candidate: it is
the last of the candidates. -/
theorem nearMiss_of_candidate (env : VerifierEnv) (fileLine : Option Nat) (msg : String)
    (diags : List ExpectedDiag) :
    ∀ nearMiss : Option ExpectedDiag,
      (∃ x ∈ diags, x.isCandidate env fileLine msg = true) →
      ∃ front y back, diags = front ++ y :: back ∧
        y.isCandidate env fileLine msg = true ∧
        (∀ x ∈ back, x.isCandidate env fileLine msg = false) ∧
        diags.foldl (fun nm x => if x.isCandidate env fileLine msg then some x else nm)
          nearMiss = some y := by
  induction diags with
  | nil => intro nearMiss h; obtain ⟨x, hx, _⟩ := h; simp at hx
  | cons e rest ih =>
    intro nearMiss h
    simp only [List.foldl_cons]
    by_cases hrest : ∃ x ∈ rest, x.isCandidate env fileLine msg = true
    · obtain ⟨front, y, back, hsplit, hcy, hback, hfold⟩ :=
        ih (if e.isCandidate env fileLine msg then some e else nearMiss) hrest
      exact ⟨e :: front, y, back, by rw [hsplit]; rfl, hcy, hback, hfold⟩
    · have hnone : ∀ x ∈ rest, x.isCandidate env fileLine msg = false := by
        intro x hx
        cases hcx : x.isCandidate env fileLine msg with
        | false => rfl
        | true => exact absurd ⟨x, hx, hcx⟩ hrest
      obtain ⟨x, hx, hcx⟩ := h
      have hxe : x = e := by
        rcases List.mem_cons.mp hx with h1 | h1
        · exact h1
        · rw [hnone x h1] at hcx; cases hcx
      subst hxe
      rw [nearMiss_of_no_candidate env fileLine msg rest _ hnone, hcx]
      exact ⟨[], x, rest, rfl, hcx, hnone, by simp⟩

/-- The loop of `process` when a candidate has the kind of the diagnostic: the first such
candidate is marked, nothing else changes, and the loop returns from `process`. -/
theorem processLoop_hit (env : VerifierEnv) (fileLine : Option Nat) (msg : String)
    (kind : DiagnosticSeverity) (e : ExpectedDiag) (after : List ExpectedDiag)
    (he : e.isCandidate env fileLine msg = true) (hk : e.kind = kind)
    (before : List ExpectedDiag) :
    ∀ nearMiss : Option ExpectedDiag,
      (∀ x ∈ before, x.isCandidate env fileLine msg = true → x.kind ≠ kind) →
      ∃ nearMiss1, processLoop env fileLine msg kind (before ++ e :: after) nearMiss
        = (before ++ { e with matched := true } :: after, true, nearMiss1) := by
  induction before with
  | nil =>
    intro nearMiss _
    have hc := isCandidate_eq env fileLine msg e
    rw [he] at hc
    have hline : ¬ (fileLine.isSome ∧ fileLine ≠ some e.lineNo) := by
      intro hl; simp [hl] at hc
    have hmatch : e.isMatch env msg = true := by
      cases hm : e.isMatch env msg with
      | true => rfl
      | false => rw [hm] at hc; simp at hc
    exact ⟨nearMiss, by
      simp only [List.nil_append, processLoop]
      rw [if_neg hline, if_pos hmatch, if_pos hk]⟩
  | cons b rest ih =>
    intro nearMiss h
    have hrest : ∀ x ∈ rest, x.isCandidate env fileLine msg = true → x.kind ≠ kind :=
      fun x hx => h x (List.mem_cons_of_mem _ hx)
    have hc := isCandidate_eq env fileLine msg b
    by_cases hline : fileLine.isSome ∧ fileLine ≠ some b.lineNo
    · obtain ⟨n1, hn1⟩ := ih nearMiss hrest
      exact ⟨n1, by
        rw [List.cons_append, List.cons_append]
        simp only [processLoop]
        rw [if_pos hline, hn1]⟩
    · by_cases hmatch : b.isMatch env msg = true
      · have hcb : b.isCandidate env fileLine msg = true := by rw [hc]; simp [hline, hmatch]
        have hkb : ¬ b.kind = kind := h b (List.mem_cons_self _ _) hcb
        obtain ⟨n1, hn1⟩ := ih (some b) hrest
        exact ⟨n1, by
          rw [List.cons_append, List.cons_append]
          simp only [processLoop]
          rw [if_neg hline, if_pos hmatch, if_neg hkb, hn1]⟩
      · obtain ⟨n1, hn1⟩ := ih nearMiss hrest
        exact ⟨n1, by
          rw [List.cons_append, List.cons_append]
          simp only [processLoop]
          rw [if_neg hline, if_neg hmatch, hn1]⟩

/-- The array `diags` of `process` for a diagnostic without file location. -/
theorem getDiags_none (env : VerifierEnv) (senv : SourceMgrEnv)
    (self : SourceMgrDiagnosticVerifierHandler) :
    getDiags env senv self none = (self, DiagsRef.unknownLoc, []) := rfl

/-- The array `diags` of `process` for a diagnostic in a file whose expected diagnostics have
been computed. -/
theorem getDiags_cached (env : VerifierEnv) (senv : SourceMgrEnv)
    (self : SourceMgrDiagnosticVerifierHandler) (filename : String) (line column : Nat)
    (diags : List ExpectedDiag) (h : self.impl.getExpectedDiags filename = some diags) :
    getDiags env senv self (some (filename, line, column))
      = (self, DiagsRef.perFile filename, []) := by
  simp [getDiags, h]

/-- Finding the array `diags` leaves the level as it is and does not take the status back from
failure. -/
theorem getDiags_level_status (env : VerifierEnv) (senv : SourceMgrEnv)
    (self : SourceMgrDiagnosticVerifierHandler) (fileLoc : Option (String × Nat × Nat)) :
    (getDiags env senv self fileLoc).1.impl.level = self.impl.level ∧
    (self.impl.status = LogicalResult.failure →
      (getDiags env senv self fileLoc).1.impl.status = LogicalResult.failure) := by
  cases fileLoc with
  | none => exact ⟨rfl, fun h => h⟩
  | some f =>
    obtain ⟨filename, line, column⟩ := f
    simp only [getDiags]
    cases hg : self.impl.getExpectedDiags filename with
    | some d => exact ⟨rfl, fun h => h⟩
    | none =>
      exact ⟨SourceMgrDiagnosticVerifierHandlerImpl.computeExpectedDiags_level env _ _,
        fun h => SourceMgrDiagnosticVerifierHandlerImpl.computeExpectedDiags_status env _ _ h⟩

end SourceMgrDiagnosticVerifierHandler

namespace SourceMgrDiagnosticVerifierHandlerImpl

theorem writeDiags_status (self : SourceMgrDiagnosticVerifierHandlerImpl) (ref : DiagsRef)
    (diags : List ExpectedDiag) :
    (self.writeDiags ref diags).status = self.status ∧
    (self.writeDiags ref diags).level = self.level := by
  cases ref <;> exact ⟨rfl, rfl⟩

/-- Writing back the elements that were read changes nothing. -/
theorem writeDiags_readDiags (self : SourceMgrDiagnosticVerifierHandlerImpl) (ref : DiagsRef) :
    self.writeDiags ref (self.readDiags ref) = self := by
  cases ref with
  | perFile bufName =>
    simp only [writeDiags, readDiags]
    cases hg : self.expectedDiagsPerFile.get? bufName with
    | none =>
      have hnil : ∀ (m : DenseMap String (List ExpectedDiag)) (v : List ExpectedDiag),
          m.get? bufName = none → m.update bufName v = m := by
        intro m v
        induction m with
        | nil => intro _; rfl
        | cons e rest ih =>
          obtain ⟨k1, v1⟩ := e
          intro h
          by_cases hk : k1 = bufName
          · simp [DenseMap.get?, hk] at h
          · simp only [DenseMap.get?, hk, if_false] at h
            simp only [DenseMap.update, hk, if_false]
            rw [ih h]
      rw [hnil _ _ hg]
    | some d =>
      simp only [Option.getD_some]
      rw [DenseMap.update_eq_self _ _ _ hg]
  | unknownLoc => rfl
  | empty => rfl

end SourceMgrDiagnosticVerifierHandlerImpl

namespace SourceMgrDiagnosticVerifierHandler

/-- The result of `process` when a candidate has the kind of the diagnostic: the first such
candidate of the array is marked, and nothing is written beyond what finding the array
wrote. -/
theorem process_of_hit (P : ValuePrinter) (env : VerifierEnv) (senv : SourceMgrEnv)
    (self : SourceMgrDiagnosticVerifierHandler) (loc : Location) (msg : String)
    (kind : DiagnosticSeverity) (before after : List ExpectedDiag) (e : ExpectedDiag)
    (hd : (getDiags env senv self loc.findInstanceOf).1.impl.readDiags
        (getDiags env senv self loc.findInstanceOf).2.1 = before ++ e :: after)
    (hbefore : ∀ x ∈ before,
      x.isCandidate env (loc.findInstanceOf.map (fun fileLoc => fileLoc.2.1)) msg = true →
        x.kind ≠ kind)
    (he : e.isCandidate env (loc.findInstanceOf.map (fun fileLoc => fileLoc.2.1)) msg = true)
    (hk : e.kind = kind) :
    self.process P env senv loc msg kind
      = ({ (getDiags env senv self loc.findInstanceOf).1 with
            impl := (getDiags env senv self loc.findInstanceOf).1.impl.writeDiags
              (getDiags env senv self loc.findInstanceOf).2.1
              (before ++ { e with matched := true } :: after) },
          (getDiags env senv self loc.findInstanceOf).2.2) := by
  obtain ⟨nm, hloop⟩ := processLoop_hit env
    (loc.findInstanceOf.map (fun fileLoc => fileLoc.2.1)) msg kind e after he hk before none
    hbefore
  rcases hG : getDiags env senv self loc.findInstanceOf with ⟨self1, ref, printed1⟩
  rw [hG] at hd
  simp only at hd
  simp only [process, hG, hd, hloop]

/-- The result of `process` when no candidate has the kind of the diagnostic. -/
theorem process_of_miss (P : ValuePrinter) (env : VerifierEnv) (senv : SourceMgrEnv)
    (self : SourceMgrDiagnosticVerifierHandler) (loc : Location) (msg : String)
    (kind : DiagnosticSeverity)
    (h : ∀ x ∈ (getDiags env senv self loc.findInstanceOf).1.impl.readDiags
        (getDiags env senv self loc.findInstanceOf).2.1,
      x.isCandidate env (loc.findInstanceOf.map (fun fileLoc => fileLoc.2.1)) msg = true →
        x.kind ≠ kind) :
    self.process P env senv loc msg kind
      = (if (getDiags env senv self loc.findInstanceOf).1.impl.level = Level.OnlyExpected then
          ((getDiags env senv self loc.findInstanceOf).1,
            (getDiags env senv self loc.findInstanceOf).2.2)
        else
          match ((getDiags env senv self loc.findInstanceOf).1.impl.readDiags
              (getDiags env senv self loc.findInstanceOf).2.1).foldl
            (fun nm x =>
              if x.isCandidate env (loc.findInstanceOf.map (fun fileLoc => fileLoc.2.1)) msg
              then some x else nm) none with
          | some nearMiss =>
            (⟨(getDiags env senv self loc.findInstanceOf).1.base,
                { (getDiags env senv self loc.findInstanceOf).1.impl with
                  status := LogicalResult.failure }⟩,
              (getDiags env senv self loc.findInstanceOf).2.2 ++
                [SMOutput.PrintMessage ⟨nearMiss.fileLoc, DiagKind.DK_Error,
                  "'" ++ getDiagKindStr kind ++ "' diagnostic emitted when expecting a '" ++
                    getDiagKindStr nearMiss.kind ++ "'", none⟩])
          | none =>
            (⟨((getDiags env senv self loc.findInstanceOf).1.base.emitDiagnostic P senv loc
                  ("unexpected " ++ getDiagKindStr kind ++ ": " ++ msg)
                  DiagnosticSeverity.Error true).1,
                { (getDiags env senv self loc.findInstanceOf).1.impl with
                  status := LogicalResult.failure }⟩,
              (getDiags env senv self loc.findInstanceOf).2.2 ++
                ((getDiags env senv self loc.findInstanceOf).1.base.emitDiagnostic P senv loc
                  ("unexpected " ++ getDiagKindStr kind ++ ": " ++ msg)
                  DiagnosticSeverity.Error true).2)) := by
  rcases hG : getDiags env senv self loc.findInstanceOf with ⟨self1, ref, printed1⟩
  rw [hG] at h
  simp only at h
  have hloop := processLoop_miss env (loc.findInstanceOf.map (fun fileLoc => fileLoc.2.1)) msg
    kind (self1.impl.readDiags ref) none h
  simp only [process, hG, hloop]

/-- What `emitDiagnostic(loc, message, kind, displaySourceLine)` writes: one message of the
kind of the severity, whose text is the message, after the printed location when the
location holds no file location and is not unknown. -/
theorem emitDiagnostic_output (P : ValuePrinter) (senv : SourceMgrEnv)
    (self : SourceMgrDiagnosticHandler) (loc : Location) (message : String)
    (kind : DiagnosticSeverity) (displaySourceLine : Bool) :
    ∃ o, (self.emitDiagnostic P senv loc message kind displaySourceLine).2 = [o] ∧
      o.kind = getDiagKind kind ∧
      o.msg = (if loc.findInstanceOf = none ∧ loc.isUnknownLoc = false
        then P.printLocation loc ++ ": " else "") ++ message := by
  unfold SourceMgrDiagnosticHandler.emitDiagnostic
  cases hloc : loc.findInstanceOf with
  | none =>
    refine ⟨_, rfl, rfl, ?_⟩
    cases hu : loc.isUnknownLoc <;> simp [SMOutput.msg]
  | some f =>
    obtain ⟨filename, line, column⟩ := f
    simp only
    split
    · exact ⟨_, rfl, rfl, by simp [SMOutput.msg]⟩
    · exact ⟨_, rfl, rfl, by simp [SMOutput.msg]⟩

/-- The status after the checks of `verify` on a list of expected diagnostics. -/
theorem foldl_checkExpectedDiags (l : List ExpectedDiag) :
    ∀ st : LogicalResult × List SMMessage,
      (l.foldl (fun st err => checkExpectedDiags err st) st).1 = LogicalResult.success ↔
        st.1 = LogicalResult.success ∧ ∀ e ∈ l, e.matched = true := by
  induction l with
  | nil => intro st; simp
  | cons e rest ih =>
    intro st
    rw [List.foldl_cons, ih]
    cases hm : e.matched with
    | true => simp [checkExpectedDiags, hm]
    | false => simp [checkExpectedDiags, hm]

theorem foldl_foldl_checkExpectedDiags (m : DenseMap String (List ExpectedDiag)) :
    ∀ st : LogicalResult × List SMMessage,
      (m.foldl (fun st (expectedDiagsPair : String × List ExpectedDiag) =>
        expectedDiagsPair.2.foldl (fun st err => checkExpectedDiags err st) st) st).1
          = LogicalResult.success ↔
        st.1 = LogicalResult.success ∧ ∀ pair ∈ m, ∀ e ∈ pair.2, e.matched = true := by
  induction m with
  | nil => intro st; simp
  | cons p rest ih =>
    intro st
    rw [List.foldl_cons, ih, foldl_checkExpectedDiags]
    simp only [List.mem_cons, forall_eq_or_imp]
    tauto

/-- The status that `verify` returns is success exactly when the status was success and every
expected diagnostic of every collection is marked; it is the status of the object
afterwards. -/
theorem verify_result (self : SourceMgrDiagnosticVerifierHandler) :
    (self.verify.1 = LogicalResult.success ↔
      self.impl.status = LogicalResult.success ∧
      (∀ pair ∈ self.impl.expectedDiagsPerFile, ∀ e ∈ pair.2, e.matched = true) ∧
      ∀ e ∈ self.impl.expectedUnknownLocDiags, e.matched = true) ∧
    self.verify.2.1.impl.status = self.verify.1 := by
  refine ⟨?_, rfl⟩
  simp only [verify]
  rw [foldl_checkExpectedDiags, foldl_foldl_checkExpectedDiags]
  tauto

theorem verify_of_failure (self : SourceMgrDiagnosticVerifierHandler)
    (h : self.impl.status = LogicalResult.failure) :
    self.verify.1 = LogicalResult.failure := by
  cases hv : self.verify.1 with
  | failure => rfl
  | success =>
    have := ((verify_result self).1.mp hv).1
    rw [h] at this
    cases this

/-- The member `process` does not take the status back from failure. -/
theorem process_status (P : ValuePrinter) (env : VerifierEnv) (senv : SourceMgrEnv)
    (self : SourceMgrDiagnosticVerifierHandler) (loc : Location) (msg : String)
    (kind : DiagnosticSeverity) (h : self.impl.status = LogicalResult.failure) :
    (self.process P env senv loc msg kind).1.impl.status = LogicalResult.failure := by
  have hG := (getDiags_level_status env senv self loc.findInstanceOf).2 h
  rcases hg : getDiags env senv self loc.findInstanceOf with ⟨self1, ref, printed1⟩
  rw [hg] at hG
  simp only at hG
  simp only [process, hg]
  rcases hl : processLoop env (loc.findInstanceOf.map (fun fileLoc => fileLoc.2.1)) msg kind
    (self1.impl.readDiags ref) none with ⟨diags1, returned, nearMiss⟩
  cases returned with
  | true =>
    rw [hl]
    show (self1.impl.writeDiags ref diags1).status = LogicalResult.failure
    rw [(SourceMgrDiagnosticVerifierHandlerImpl.writeDiags_status _ _ _).1]
    exact hG
  | false =>
    rw [hl]
    show (if self1.impl.level = Level.OnlyExpected then (self1, printed1) else _).1.impl.status
      = LogicalResult.failure
    split_ifs
    · exact hG
    · cases nearMiss <;> rfl

/-- No call on a verifier takes the status back from failure. -/
theorem step_status (P : ValuePrinter) (env : VerifierEnv) (senv : SourceMgrEnv)
    (self : SourceMgrDiagnosticVerifierHandler) (op : VerifierOp)
    (h : self.impl.status = LogicalResult.failure) :
    (self.step P env senv op).impl.status = LogicalResult.failure := by
  cases op with
  | computeExpectedDiags buf =>
    exact SourceMgrDiagnosticVerifierHandlerImpl.computeExpectedDiags_status env _ _ h
  | process loc msg kind => exact process_status P env senv self loc msg kind h
  | verify =>
    show self.verify.2.1.impl.status = LogicalResult.failure
    rw [(verify_result self).2]
    exact verify_of_failure self h

theorem run_status (P : ValuePrinter) (env : VerifierEnv) (senv : SourceMgrEnv)
    (ops : List VerifierOp) :
    ∀ self : SourceMgrDiagnosticVerifierHandler, self.impl.status = LogicalResult.failure →
      (self.run P env senv ops).impl.status = LogicalResult.failure := by
  induction ops with
  | nil => intro self h; exact h
  | cons op rest ih =>
    intro self h
    simp only [run, List.foldl_cons]
    exact ih _ (step_status P env senv self op h)

end SourceMgrDiagnosticVerifierHandler

namespace SourceMgrDiagnosticVerifierHandlerImpl

theorem applyDesignator_unknown (env : VerifierEnv) (e : Nat) (st : ScanState)
    (record : ExpectedDiag) :
    applyDesignator env e st record "@unknown".data
      = { st with expectedUnknownLocDiags :=
          st.expectedUnknownLocDiags ++ [{ record with fileLoc := none }] } := by
  simp [applyDesignator, StringRef.startsWith]

/-- What a round has appended to the expected diagnostics of unknown location is among those
of the object after `computeExpectedDiags`. -/
theorem computeExpectedDiags_unknown (env : VerifierEnv)
    (self : SourceMgrDiagnosticVerifierHandlerImpl) (buf : MemoryBuffer)
    (pre post : List (List Char)) (line : List Char) (r : ExpectedDiag)
    (hlines : StringRef.split '\n' buf.buffer.data = pre ++ line :: post)
    (hstep : ∀ st : ScanState,
      (scanLine env (pre ++ line :: post).length pre.length (StringRef.offsetAfter pre) line
        st).expectedUnknownLocDiags = st.expectedUnknownLocDiags ++ [r]) :
    r ∈ (computeExpectedDiags env self (some buf)).1.expectedUnknownLocDiags := by
  simp only [computeExpectedDiags, hlines]
  rw [scanLines_append]
  simp only [Nat.zero_add, scanLines]
  obtain ⟨added, fails, printed, hall⟩ := scanLines_frame env (pre ++ line :: post).length post
    (pre.length + 1) (StringRef.offsetAfter pre + line.length + 1)
  rw [(hall _).1, hstep]
  simp

theorem computeExpectedDiags_other (env : VerifierEnv)
    (self : SourceMgrDiagnosticVerifierHandlerImpl) (buf : MemoryBuffer) (name : String)
    (h : name ≠ buf.bufferIdentifier) :
    (computeExpectedDiags env self (some buf)).1.getExpectedDiags name
      = self.getExpectedDiags name := by
  simp only [computeExpectedDiags, getExpectedDiags]
  exact DenseMap.get?_set_of_ne _ _ _ _ h

end SourceMgrDiagnosticVerifierHandlerImpl

/-! ## Claims on processing a diagnostic and on verification -/

set_option maxRecDepth 100000 in
/-- C22, as stated, fails: the one line of the buffer is an annotation with the designator
`@unknown` (the pattern matches it, with `-re`), and `computeExpectedDiags` appends it
neither to the expected diagnostics of unknown location nor to those of the buffer; it sets
the status to failure. -/
theorem unknown_designator_counterexample :
    Example.env.expected "// expected-error-re@unknown \x7b\x7bfoo\x7b\x7bbar\x7d\x7d"
      = some ⟨3, ["expected-error-re@unknown \x7b\x7bfoo\x7b\x7bbar\x7d\x7d", "error", "-re", "@unknown", "unknown", "foo\x7b\x7bbar"]⟩ ∧
    (SourceMgrDiagnosticVerifierHandlerImpl.computeExpectedDiags Example.env
      (SourceMgrDiagnosticVerifierHandlerImpl.create Level.All)
      (some Example.bufUnknownUnterminated)).1.expectedUnknownLocDiags = [] ∧
    (SourceMgrDiagnosticVerifierHandlerImpl.computeExpectedDiags Example.env
      (SourceMgrDiagnosticVerifierHandlerImpl.create Level.All)
      (some Example.bufUnknownUnterminated)).2.1 = [] ∧
    (SourceMgrDiagnosticVerifierHandlerImpl.computeExpectedDiags Example.env
      (SourceMgrDiagnosticVerifierHandlerImpl.create Level.All)
      (some Example.bufUnknownUnterminated)).1.status = LogicalResult.failure := by
  decide

/-- C22 (amended): let the line after the lines `pre` of a buffer match the pattern of the
annotations with the designator `@unknown`, and let it have no `-re` or a text that
`computeRegex` compiles. Then the round of this line appends one expected diagnostic `r`,
without anchor, to the expected diagnostics of unknown location and changes nothing else, so
nothing is appended to the expected diagnostics of the buffer; `r` is among the expected
diagnostics of unknown location after `computeExpectedDiags`, and the collections of the
other buffers are as before. And let a diagnostic whose location holds no file location be
processed by a verifier whose expected diagnostics of unknown location are
`before ++ e :: after`, where the pattern of `e` matches the message and `e` has the kind of
the diagnostic, and no element of `before` does both: then `process` marks `e`, changes
nothing else and writes nothing, whatever the line numbers of `e` and of the elements of
`before` are. -/
theorem unknown_designator (P : ValuePrinter) (env : VerifierEnv) (senv : SourceMgrEnv)
    (self : SourceMgrDiagnosticVerifierHandlerImpl) (buf : MemoryBuffer)
    (pre post : List (List Char)) (line : List Char) (ms : RegexMatches)
    (h : SourceMgrDiagnosticVerifierHandler) (loc : Location) (msg : String)
    (kind : DiagnosticSeverity) (before after : List ExpectedDiag) (e : ExpectedDiag)
    (hlines : StringRef.split '\n' buf.buffer.data = pre ++ line :: post)
    (hm : env.expected (String.mk (StringRef.rtrim line)) = some ms)
    (hdes : ms.get 3 = "@unknown") (hc : ms.Compiles env)
    (hloc : loc.findInstanceOf = none)
    (hdiags : h.impl.expectedUnknownLocDiags = before ++ e :: after)
    (hbefore : ∀ x ∈ before, ¬ (x.isMatch env msg = true ∧ x.kind = kind))
    (he : e.isMatch env msg = true ∧ e.kind = kind) :
    (∃ r : ExpectedDiag,
      r.fileLoc = none ∧
      r.kind = SourceMgrDiagnosticVerifierHandlerImpl.kindOfKeyword (ms.get 1) ∧
      r.substring = ms.get 5 ∧ r.matched = false ∧ r.lineNo = pre.length + 1 ∧
      (∀ st : ScanState,
        SourceMgrDiagnosticVerifierHandlerImpl.scanLine env (pre ++ line :: post).length
            pre.length (StringRef.offsetAfter pre) line st
          = { st with expectedUnknownLocDiags := st.expectedUnknownLocDiags ++ [r] }) ∧
      r ∈ (SourceMgrDiagnosticVerifierHandlerImpl.computeExpectedDiags env self
        (some buf)).1.expectedUnknownLocDiags) ∧
    (∀ name, name ≠ buf.bufferIdentifier →
      (SourceMgrDiagnosticVerifierHandlerImpl.computeExpectedDiags env self
        (some buf)).1.getExpectedDiags name = self.getExpectedDiags name) ∧
    h.process P env senv loc msg kind
      = ({ h with impl := { h.impl with
            expectedUnknownLocDiags := before ++ { e with matched := true } :: after } },
          []) := by
  obtain ⟨hk, hl, hf, hmt, hs⟩ := SourceMgrDiagnosticVerifierHandlerImpl.makeRecord_fields env
    pre.length (StringRef.offsetAfter pre) ms
  have hstep : ∀ st : ScanState,
      SourceMgrDiagnosticVerifierHandlerImpl.scanLine env (pre ++ line :: post).length
          pre.length (StringRef.offsetAfter pre) line st
        = { st with expectedUnknownLocDiags := st.expectedUnknownLocDiags ++
            [{ (SourceMgrDiagnosticVerifierHandlerImpl.makeRecord env pre.length
              (StringRef.offsetAfter pre) ms).2.1 with fileLoc := none }] } := by
    intro st
    rw [SourceMgrDiagnosticVerifierHandlerImpl.scanLine_compiles env _ _ _ line st ms hm hc,
      hdes]
    exact SourceMgrDiagnosticVerifierHandlerImpl.applyDesignator_unknown env _ st _
  refine ⟨⟨{ (SourceMgrDiagnosticVerifierHandlerImpl.makeRecord env pre.length
    (StringRef.offsetAfter pre) ms).2.1 with fileLoc := none }, rfl, hk, hs, hmt, hl, hstep,
    ?_⟩, ?_, ?_⟩
  · exact SourceMgrDiagnosticVerifierHandlerImpl.computeExpectedDiags_unknown env self buf
      pre post line _ hlines (fun st => by rw [hstep st])
  · intro name hname
    exact SourceMgrDiagnosticVerifierHandlerImpl.computeExpectedDiags_other env self buf name
      hname
  · have hcand : ∀ x : ExpectedDiag,
        x.isCandidate env (loc.findInstanceOf.map (fun fileLoc => fileLoc.2.1)) msg
          = x.isMatch env msg := by
      intro x
      simp [ExpectedDiag.isCandidate, hloc]
    have hp := SourceMgrDiagnosticVerifierHandler.process_of_hit P env senv h loc msg kind
      before after e
      (by rw [hloc, SourceMgrDiagnosticVerifierHandler.getDiags_none]; exact hdiags)
      (fun x hx hcx hkx => hbefore x hx ⟨by rw [← hcand x]; exact hcx, hkx⟩)
      (by rw [hcand e]; exact he.1) he.2
    rw [hp, hloc, SourceMgrDiagnosticVerifierHandler.getDiags_none]
    rfl

set_option maxRecDepth 100000 in
/-- Witness of C22 (amended): the one line of a buffer is an annotation with `@unknown`; the
verifier built on this buffer marks the expected diagnostic, which has the line number 1, for
an error without location that has the message m. -/
theorem unknown_designator_witness :
    (∃ r ∈ (SourceMgrDiagnosticVerifierHandlerImpl.computeExpectedDiags Example.env
        (SourceMgrDiagnosticVerifierHandlerImpl.create Level.All)
        (some Example.bufUnknown)).1.expectedUnknownLocDiags,
      r.fileLoc = none ∧ r.lineNo = 1) ∧
    ((Example.verifier Level.All [Example.bufUnknown]).process Example.printer Example.env
      Example.senv Location.UnknownLoc "m" DiagnosticSeverity.Error).1.impl.expectedUnknownLocDiags
      = [⟨DiagnosticSeverity.Error, 1, none, true, "m", none⟩] := by
  obtain ⟨⟨r, hloc, _, _, _, hline, _, hmem⟩, _, hp⟩ := unknown_designator Example.printer
    Example.env Example.senv (SourceMgrDiagnosticVerifierHandlerImpl.create Level.All)
    Example.bufUnknown [] [] "// expected-error@unknown \x7b\x7bm\x7d\x7d".data
    ⟨3, ["expected-error@unknown \x7b\x7bm\x7d\x7d", "error", "", "@unknown", "unknown", "m"]⟩
    (Example.verifier Level.All [Example.bufUnknown]) Location.UnknownLoc "m"
    DiagnosticSeverity.Error [] [] ⟨DiagnosticSeverity.Error, 1, none, false, "m", none⟩
    (by decide) (by decide) (by decide) (Or.inl (by decide)) (by decide) (by decide)
    (by simp) (by decide)
  exact ⟨⟨r, hmem, hloc, hline⟩, by rw [hp]; rfl⟩

/-! ## Lemmas on `find` and on the loop of `computeRegex` -/

namespace StringRef

theorem startsWith_length : ∀ (s pat : List Char), startsWith s pat = true →
    pat.length ≤ s.length
  | _, [], _ => Nat.zero_le _
  | [], _ :: _, h => by simp [startsWith] at h
  | c :: cs, p :: ps, h => by
    simp only [startsWith, Bool.and_eq_true] at h
    have := startsWith_length cs ps h.2
    simp only [List.length_cons]
    omega

theorem startsWith_append_of_le : ∀ (s t pat : List Char), pat.length ≤ s.length →
    startsWith (s ++ t) pat = startsWith s pat
  | s, t, [], _ => by cases s <;> cases t <;> rfl
  | [], _, _ :: _, h => by simp at h
  | c :: cs, t, p :: ps, h => by
    simp only [List.length_cons] at h
    show (c == p && startsWith (cs ++ t) ps) = (c == p && startsWith cs ps)
    rw [startsWith_append_of_le cs t ps (by omega)]

theorem find_some (pat : List Char) (hp : pat ≠ []) :
    ∀ (s : List Char) (i : Nat), find pat s = some i →
      startsWith (s.drop i) pat = true ∧ (∀ j, j < i → startsWith (s.drop j) pat = false) ∧
      i + pat.length ≤ s.length := by
  intro s
  induction s with
  | nil =>
    intro i h
    have hne : pat.isEmpty = false := by cases pat with
      | nil => exact absurd rfl hp
      | cons _ _ => rfl
    simp [find, hne] at h
  | cons c cs ih =>
    intro i h
    simp only [find] at h
    by_cases hs : startsWith (c :: cs) pat = true
    · rw [if_pos hs] at h
      injection h with h
      subst h
      exact ⟨hs, fun j hj => absurd hj (Nat.not_lt_zero _), by
        simpa using startsWith_length _ _ hs⟩
    · rw [if_neg hs] at h
      cases hf : find pat cs with
      | none => rw [hf] at h; simp at h
      | some i1 =>
        rw [hf] at h
        simp only [Option.map_some', Option.some.injEq] at h
        subst h
        obtain ⟨h1, h2, h3⟩ := ih i1 hf
        refine ⟨by simpa using h1, ?_, by simp only [List.length_cons]; omega⟩
        intro j hj
        cases j with
        | zero => simpa using hs
        | succ j1 => simpa using h2 j1 (by omega)

theorem find_none (pat : List Char) (hp : pat ≠ []) :
    ∀ (s : List Char), find pat s = none → ∀ j, startsWith (s.drop j) pat = false := by
  intro s
  induction s with
  | nil =>
    intro _ j
    cases pat with
    | nil => exact absurd rfl hp
    | cons _ _ => simp [startsWith]
  | cons c cs ih =>
    intro h j
    simp only [find] at h
    by_cases hs : startsWith (c :: cs) pat = true
    · rw [if_pos hs] at h; simp at h
    · rw [if_neg hs] at h
      have hf : find pat cs = none := by
        cases hf : find pat cs with
        | none => rfl
        | some i1 => rw [hf] at h; simp at h
      cases j with
      | zero => simpa using hs
      | succ j1 => simpa using ih hf j1

theorem find_append (pat : List Char) (hp : pat ≠ []) (t : List Char) :
    ∀ (s : List Char) (i : Nat), find pat s = some i → find pat (s ++ t) = some i := by
  intro s
  induction s with
  | nil =>
    intro i h
    have hne : pat.isEmpty = false := by cases pat with
      | nil => exact absurd rfl hp
      | cons _ _ => rfl
    simp [find, hne] at h
  | cons c cs ih =>
    intro i h
    have hlen := (find_some pat hp (c :: cs) i h).2.2
    have hle : pat.length ≤ (c :: cs).length := by omega
    simp only [find] at h
    have hsw := startsWith_append_of_le (c :: cs) t pat hle
    show (if startsWith (c :: cs ++ t) pat = true then some 0
      else (find pat (cs ++ t)).map (fun i => i + 1)) = some i
    rw [hsw]
    by_cases hs : startsWith (c :: cs) pat = true
    · rw [if_pos hs] at h ⊢
      exact h
    · rw [if_neg hs] at h ⊢
      cases hf : find pat cs with
      | none => rw [hf] at h; simp at h
      | some i1 =>
        rw [hf] at h
        rw [ih i1 hf]
        exact h

/-- In a text that has a `{{` after which no `}}` stands, a `}}` ends before that `{{`. -/
theorem startsWith_close (b : List Char) (hnone : find ['}', '}'] b = none) :
    ∀ (a : List Char) (q : Nat),
      startsWith ((a ++ '{' :: '{' :: b).drop q) ['}', '}'] = true → q + 2 ≤ a.length := by
  intro a
  induction a with
  | nil =>
    intro q h
    cases q with
    | zero => simp [startsWith] at h
    | succ q1 =>
      cases q1 with
      | zero =>
        simp only [List.nil_append, List.drop_succ_cons, List.drop_zero] at h
        simp [startsWith] at h
      | succ q2 =>
        simp only [List.nil_append, List.drop_succ_cons] at h
        rw [find_none _ (by simp) b hnone q2] at h
        cases h
  | cons x a1 ih =>
    intro q h
    cases q with
    | zero =>
      cases a1 with
      | nil => simp [startsWith] at h
      | cons y a2 => simp only [List.length_cons]; omega
    | succ q1 =>
      simp only [List.cons_append, List.drop_succ_cons] at h
      have := ih q1 h
      simp only [List.length_cons]
      omega

end StringRef

namespace ExpectedDiag

/-- On a text that has a `{{` after which no `}}` stands, the loop of `computeRegex` ends with
an error. -/
theorem computeRegexLoop_unterminated (env : VerifierEnv) (b : List Char)
    (hnone : StringRef.find ['}', '}'] b = none) :
    ∀ (fuel : Nat) (a : List Char) (regexOS : String),
      (a ++ '{' :: '{' :: b).length < fuel →
      ∃ msg, computeRegexLoop env fuel (a ++ '{' :: '{' :: b) regexOS
        = some (Except.error msg) := by
  intro fuel
  induction fuel with
  | zero => intro a os h; omega
  | succ fuel ih =>
    intro a os h
    have hne : (a ++ '{' :: '{' :: b).isEmpty = false := by cases a <;> rfl
    unfold computeRegexLoop
    rw [hne]
    simp only [Bool.false_eq_true, if_false]
    cases h1 : StringRef.find ['{', '{'] (a ++ '{' :: '{' :: b) with
    | none =>
      have := StringRef.find_none _ (by simp) _ h1 a.length
      simp [StringRef.startsWith] at this
    | some regexIt =>
      simp only
      cases h2 : StringRef.find ['}', '}'] (List.drop (regexIt + 2) (a ++ '{' :: '{' :: b)) with
      | none => exact ⟨_, rfl⟩
      | some regexEndIt =>
        simp only
        cases h3 : env.isValid (String.mk (List.take regexEndIt
            (List.drop (regexIt + 2) (a ++ '{' :: '{' :: b)))) with
        | some err => exact ⟨_, rfl⟩
        | none =>
          simp only
          have hclose := (StringRef.find_some _ (by simp) _ _ h2).1
          rw [List.drop_drop] at hclose
          have hle := StringRef.startsWith_close b hnone a _ hclose
          have hdrop : List.drop (regexEndIt + 2) (List.drop (regexIt + 2)
              (a ++ '{' :: '{' :: b))
              = a.drop (regexIt + 2 + (regexEndIt + 2)) ++ '{' :: '{' :: b := by
            rw [List.drop_drop, List.drop_append_of_le_length (by omega)]
          rw [hdrop]
          apply ih
          simp only [List.length_append, List.length_drop, List.length_cons] at h ⊢
          omega

/-- On a text that is split where the spec splits it, with more rounds than characters, the
loop of `computeRegex` ends with the pattern of the spec after what was written before. -/
theorem computeRegexLoop_wellFormed (env : VerifierEnv) (hesc : env.escape "" = "")
    (blocks : List (List Char × List Char)) :
    ∀ (l0 : List Char) (fuel : Nat) (regexOS : String),
      regexWellFormed env l0 blocks → (regexText l0 blocks).length < fuel →
      computeRegexLoop env fuel (regexText l0 blocks) regexOS
        = some (Except.ok (regexOS ++ regexPattern env l0 blocks)) := by
  induction blocks with
  | nil =>
    intro l0 fuel os hwf hfuel
    cases fuel with
    | zero => omega
    | succ fuel =>
      simp only [regexWellFormed] at hwf
      simp only [regexText, regexPattern]
      unfold computeRegexLoop
      cases l0 with
      | nil =>
        simp only [List.isEmpty_nil, if_true]
        have : String.mk [] = "" := rfl
        rw [this, hesc, String.append_empty]
      | cons c cs =>
        simp only [List.isEmpty_cons, Bool.false_eq_true, if_false, hwf]
  | cons block blocks ih =>
    obtain ⟨r, l⟩ := block
    intro l0 fuel os hwf hfuel
    cases fuel with
    | zero => omega
    | succ fuel =>
      obtain ⟨hopen, hclose, hvalid, hrest⟩ := hwf
      have htext : regexText l0 ((r, l) :: blocks)
          = (l0 ++ ['{', '{']) ++ (r ++ '}' :: '}' :: regexText l blocks) := by
        simp [regexText]
      have hne : (regexText l0 ((r, l) :: blocks)).isEmpty = false := by
        rw [htext]; cases l0 <;> rfl
      have h1 : StringRef.find ['{', '{'] (regexText l0 ((r, l) :: blocks))
          = some l0.length := by
        rw [htext]
        exact StringRef.find_append _ (by simp) _ _ _ hopen
      have htake : List.take l0.length (regexText l0 ((r, l) :: blocks)) = l0 := by
        simp [regexText]
      have hdrop : List.drop (l0.length + 2) (regexText l0 ((r, l) :: blocks))
          = (r ++ ['}', '}']) ++ regexText l blocks := by
        rw [htext]
        have hlen : l0.length + 2 = (l0 ++ ['{', '{']).length := by simp
        rw [hlen, List.drop_left]
        simp
      have h2 : StringRef.find ['}', '}'] ((r ++ ['}', '}']) ++ regexText l blocks)
          = some r.length :=
        StringRef.find_append _ (by simp) _ _ _ hclose
      have htake2 : List.take r.length ((r ++ ['}', '}']) ++ regexText l blocks) = r := by
        simp
      have hdrop2 : List.drop (r.length + 2) ((r ++ ['}', '}']) ++ regexText l blocks)
          = regexText l blocks := by
        have hlen : r.length + 2 = (r ++ ['}', '}']).length := by simp
        rw [hlen, List.drop_left]
      unfold computeRegexLoop
      rw [hne]
      simp only [Bool.false_eq_true, if_false, h1, htake, hdrop, h2, htake2, hvalid, hdrop2]
      rw [ih l _ _ hrest (by
        rw [htext] at hfuel
        simp only [List.length_append, List.length_cons, List.length_nil] at hfuel
        omega)]
      simp only [regexPattern, String.append_assoc]

end ExpectedDiag

namespace SourceMgrDiagnosticVerifierHandlerImpl

/-- The round of an annotation with `-re` whose text has a `{{` after which no `}}` stands:
the status is set to failure, one error is printed at the start of the match, and nothing
else changes. -/
theorem scanLine_unterminated (env : VerifierEnv) (e lineNo lineStart : Nat)
    (line : List Char) (ms : RegexMatches) (a b : List Char)
    (hm : env.expected (String.mk (StringRef.rtrim line)) = some ms)
    (hre : (ms.get 2).isEmpty = false)
    (htext : (ms.get 5).data = a ++ '{' :: '{' :: b)
    (hnone : StringRef.find ['}', '}'] b = none) :
    ∃ m : SMMessage, m.loc = some (lineStart + ms.start) ∧ m.kind = DiagKind.DK_Error ∧
      ∀ st : ScanState, scanLine env e lineNo lineStart line st
        = { st with status := LogicalResult.failure, printed := st.printed ++ [m] } := by
  obtain ⟨msg, hloop⟩ := ExpectedDiag.computeRegexLoop_unterminated env b hnone
    ((ms.get 5).data.length + 1) a "" (by rw [htext]; omega)
  rw [← htext] at hloop
  refine ⟨(ExpectedDiag.create (kindOfKeyword (ms.get 1)) (lineNo + 1)
    (some (lineStart + ms.start)) (ms.get 5)).emitError msg, rfl, rfl, ?_⟩
  intro st
  simp only [scanLine, hm, makeRecord, hre, ExpectedDiag.computeRegex, ExpectedDiag.create,
    hloop, failed, succeeded, Bool.not_false, if_true]

end SourceMgrDiagnosticVerifierHandlerImpl

/-! ## Claims on the annotations with `-re` -/

/-- C23: let the line after the lines `pre` of a buffer match the pattern of the annotations
with `-re`, and let its text have a `{{` after which no `}}` stands (the text is
`a ++ "{{" ++ b` and `b` holds no `}}`). Then `computeExpectedDiags` leaves the status at
failure; the round of this line sets the status, prints one error at the start of the match
and changes nothing else, so it adds no expected diagnostic; the expected diagnostics of the
buffer and those of unknown location are at the end what the scan of the lines `pre` and
`post` yields when the round of this line is left out, every line keeping its number; and
`verify` after any sequence of calls on a verifier with this object returns failure, whatever
these calls have marked. -/
theorem unterminated_regex (P : ValuePrinter) (env : VerifierEnv) (senv : SourceMgrEnv)
    (self : SourceMgrDiagnosticVerifierHandlerImpl) (buf : MemoryBuffer)
    (pre post : List (List Char)) (line : List Char) (ms : RegexMatches) (a b : List Char)
    (base : SourceMgrDiagnosticHandler) (ops : List VerifierOp)
    (hlines : StringRef.split '\n' buf.buffer.data = pre ++ line :: post)
    (hm : env.expected (String.mk (StringRef.rtrim line)) = some ms)
    (hre : (ms.get 2).isEmpty = false)
    (htext : (ms.get 5).data = a ++ '{' :: '{' :: b)
    (hnone : StringRef.find ['}', '}'] b = none) :
    (SourceMgrDiagnosticVerifierHandlerImpl.computeExpectedDiags env self
      (some buf)).1.status = LogicalResult.failure ∧
    (∃ m : SMMessage, m.loc = some (StringRef.offsetAfter pre + ms.start) ∧
      m.kind = DiagKind.DK_Error ∧
      ∀ st : ScanState,
        SourceMgrDiagnosticVerifierHandlerImpl.scanLine env (pre ++ line :: post).length
            pre.length (StringRef.offsetAfter pre) line st
          = { st with status := LogicalResult.failure, printed := st.printed ++ [m] }) ∧
    (SourceMgrDiagnosticVerifierHandlerImpl.computeExpectedDiags env self (some buf)).2.1
      = (SourceMgrDiagnosticVerifierHandlerImpl.scanLines env (pre ++ line :: post).length
          (pre.length + 1) (StringRef.offsetAfter pre + line.length + 1) post
          (SourceMgrDiagnosticVerifierHandlerImpl.scanLines env (pre ++ line :: post).length
            0 0 pre
            ⟨(self.expectedDiagsPerFile.get? buf.bufferIdentifier).getD [],
              self.expectedUnknownLocDiags, self.status, 0, [], []⟩)).expectedDiags ∧
    (SourceMgrDiagnosticVerifierHandlerImpl.computeExpectedDiags env self
        (some buf)).1.expectedUnknownLocDiags
      = (SourceMgrDiagnosticVerifierHandlerImpl.scanLines env (pre ++ line :: post).length
          (pre.length + 1) (StringRef.offsetAfter pre + line.length + 1) post
          (SourceMgrDiagnosticVerifierHandlerImpl.scanLines env (pre ++ line :: post).length
            0 0 pre
            ⟨(self.expectedDiagsPerFile.get? buf.bufferIdentifier).getD [],
              self.expectedUnknownLocDiags, self.status, 0, [], []⟩)).expectedUnknownLocDiags ∧
    (SourceMgrDiagnosticVerifierHandler.run P env senv
      ⟨base, (SourceMgrDiagnosticVerifierHandlerImpl.computeExpectedDiags env self
        (some buf)).1⟩ ops).verify.1 = LogicalResult.failure := by
  obtain ⟨m, hloc, hkind, hstep⟩ := SourceMgrDiagnosticVerifierHandlerImpl.scanLine_unterminated
    env (pre ++ line :: post).length pre.length (StringRef.offsetAfter pre) line ms a b hm hre
    htext hnone
  obtain ⟨added, fails, printed, hall⟩ := SourceMgrDiagnosticVerifierHandlerImpl.scanLines_frame
    env (pre ++ line :: post).length post (pre.length + 1)
    (StringRef.offsetAfter pre + line.length + 1)
  have hstatus : (SourceMgrDiagnosticVerifierHandlerImpl.computeExpectedDiags env self
      (some buf)).1.status = LogicalResult.failure := by
    simp only [SourceMgrDiagnosticVerifierHandlerImpl.computeExpectedDiags, hlines]
    rw [SourceMgrDiagnosticVerifierHandlerImpl.scanLines_append]
    simp only [Nat.zero_add, SourceMgrDiagnosticVerifierHandlerImpl.scanLines]
    apply SourceMgrDiagnosticVerifierHandlerImpl.scanLines_status
    rw [hstep]
  refine ⟨hstatus, ⟨m, hloc, hkind, hstep⟩, ?_, ?_, ?_⟩
  · simp only [SourceMgrDiagnosticVerifierHandlerImpl.computeExpectedDiags, hlines]
    rw [SourceMgrDiagnosticVerifierHandlerImpl.scanLines_append]
    simp only [Nat.zero_add, SourceMgrDiagnosticVerifierHandlerImpl.scanLines]
    apply SourceMgrDiagnosticVerifierHandlerImpl.scanLines_core <;> rw [hstep]
  · simp only [SourceMgrDiagnosticVerifierHandlerImpl.computeExpectedDiags, hlines]
    rw [SourceMgrDiagnosticVerifierHandlerImpl.scanLines_append]
    simp only [Nat.zero_add, SourceMgrDiagnosticVerifierHandlerImpl.scanLines]
    rw [(hall _).1, (hall _).1, hstep]
  · apply SourceMgrDiagnosticVerifierHandler.verify_of_failure
    exact SourceMgrDiagnosticVerifierHandler.run_status P env senv ops _ hstatus

set_option maxRecDepth 100000 in
/-- Witness of C23: the first line of a buffer is an annotation with `-re` whose text opens a
regex block and does not close it, the second an annotation of a warning. The status is
failure, the expected diagnostics are the one of the second line, with the line number 2, and
`verify` returns failure after the warning of the second line has been processed and has
marked the one expected diagnostic. -/
theorem unterminated_regex_witness :
    (SourceMgrDiagnosticVerifierHandlerImpl.computeExpectedDiags Example.env
      (SourceMgrDiagnosticVerifierHandlerImpl.create Level.All)
      (some Example.bufUnterminatedThen)).1.status = LogicalResult.failure ∧
    (SourceMgrDiagnosticVerifierHandlerImpl.computeExpectedDiags Example.env
      (SourceMgrDiagnosticVerifierHandlerImpl.create Level.All)
      (some Example.bufUnterminatedThen)).2.1
      = [⟨DiagnosticSeverity.Warning, 2, some 37, false, "w", none⟩] ∧
    ((SourceMgrDiagnosticVerifierHandler.run Example.printer Example.env Example.senv
      ⟨Example.base [Example.bufUnterminatedThen],
        (SourceMgrDiagnosticVerifierHandlerImpl.computeExpectedDiags Example.env
          (SourceMgrDiagnosticVerifierHandlerImpl.create Level.All)
          (some Example.bufUnterminatedThen)).1⟩
      [VerifierOp.process (Location.FileLineColLoc "re2.mlir" 2 1) "w"
        DiagnosticSeverity.Warning]).impl.getExpectedDiags "re2.mlir"
      = some [⟨DiagnosticSeverity.Warning, 2, some 37, true, "w", none⟩]) ∧
    (SourceMgrDiagnosticVerifierHandler.run Example.printer Example.env Example.senv
      ⟨Example.base [Example.bufUnterminatedThen],
        (SourceMgrDiagnosticVerifierHandlerImpl.computeExpectedDiags Example.env
          (SourceMgrDiagnosticVerifierHandlerImpl.create Level.All)
          (some Example.bufUnterminatedThen)).1⟩
      [VerifierOp.process (Location.FileLineColLoc "re2.mlir" 2 1) "w"
        DiagnosticSeverity.Warning]).verify.1 = LogicalResult.failure := by
  obtain ⟨h1, _, h3, _, h5⟩ := unterminated_regex Example.printer Example.env Example.senv
    (SourceMgrDiagnosticVerifierHandlerImpl.create Level.All) Example.bufUnterminatedThen
    [] ["// expected-warning \x7b\x7bw\x7d\x7d".data]
    "// expected-error-re \x7b\x7bfoo\x7b\x7bbar\x7d\x7d".data
    ⟨3, ["expected-error-re \x7b\x7bfoo\x7b\x7bbar\x7d\x7d", "error", "-re", "", "", "foo\x7b\x7bbar"]⟩
    "foo".data "bar".data (Example.base [Example.bufUnterminatedThen])
    [VerifierOp.process (Location.FileLineColLoc "re2.mlir" 2 1) "w"
      DiagnosticSeverity.Warning]
    (by decide) (by decide) (by decide) (by decide) (by decide)
  exact ⟨h1, by rw [h3]; decide, by decide, h5⟩

/-- C24: let the text of an expected diagnostic be `l0 {{r1}} l1 ... {{rn}} ln`, split where
the spec splits it (each `{{` shown is the first one of the text that is left, each `ri` is
the text up to the first following `}}` and is a valid regex, `ln` holds no `{{`), and let
the escaping of the empty text be the empty text, as it is for `llvm::Regex::escape`. Then
`computeRegex` returns success, prints nothing, and leaves the record with the compiled
pattern `escape(l0) ++ "(" ++ r1 ++ ")" ++ escape(l1) ++ ... ++ "(" ++ rn ++ ")" ++
escape(ln)` and otherwise as it was. -/
theorem computeRegex_pattern (env : VerifierEnv) (self : ExpectedDiag) (l0 : List Char)
    (blocks : List (List Char × List Char))
    (hesc : env.escape "" = "")
    (htext : self.substring = String.mk (regexText l0 blocks))
    (hwf : regexWellFormed env l0 blocks) :
    self.computeRegex env
      = (LogicalResult.success,
          { self with substringRegex := some (regexPattern env l0 blocks) }, []) := by
  have hloop := ExpectedDiag.computeRegexLoop_wellFormed env hesc blocks l0
    ((regexText l0 blocks).length + 1) "" hwf (Nat.lt_succ_self _)
  simp only [ExpectedDiag.computeRegex, htext, hloop, String.empty_append]

set_option maxRecDepth 100000 in
/-- Witness of C24: the text `{{foo[0-9]+}}` compiles to `(foo[0-9]+)`, and the text `a.b`,
which holds no `{{`, compiles to its escaping `a\.b`. -/
theorem computeRegex_pattern_witness :
    (ExpectedDiag.create DiagnosticSeverity.Error 1 (some 0)
        "\x7b\x7bfoo[0-9]+\x7d\x7d").computeRegex Example.env
      = (LogicalResult.success,
          ⟨DiagnosticSeverity.Error, 1, some 0, false, "\x7b\x7bfoo[0-9]+\x7d\x7d",
            some "(foo[0-9]+)"⟩, []) ∧
    (ExpectedDiag.create DiagnosticSeverity.Error 1 (some 0) "a.b").computeRegex Example.env
      = (LogicalResult.success,
          ⟨DiagnosticSeverity.Error, 1, some 0, false, "a.b", some "a\\.b"⟩, []) :=
  ⟨computeRegex_pattern Example.env
      (ExpectedDiag.create DiagnosticSeverity.Error 1 (some 0) "\x7b\x7bfoo[0-9]+\x7d\x7d")
      [] [("foo[0-9]+".data, [])] (by decide) (by decide) (by decide),
    computeRegex_pattern Example.env
      (ExpectedDiag.create DiagnosticSeverity.Error 1 (some 0) "a.b") "a.b".data []
      (by decide) (by decide) (by decide)⟩

set_option maxRecDepth 100000 in
/-- C27, as stated, fails at the level OnlyExpected when `process` has to compute the expected
diagnostics of the file. The verifier was built on a source manager without buffers; the
buffer `re.mlir`, whose one line is an annotation with `-re` that opens a regex block and
does not close it, has been added to the source manager since, or is read from the file
system. A warning on line 5 of `re.mlir` has no candidate, the file has no expected
diagnostic at all, and yet `process` leaves the status at failure, having found it at
success, and prints an error. -/
theorem unexpected_diagnostic_counterexample :
    Example.verifierLate.impl.level = Level.OnlyExpected ∧
    Example.verifierLate.impl.status = LogicalResult.success ∧
    (Example.verifierLate.process Example.printer Example.env Example.senv
      (Location.FileLineColLoc "re.mlir" 5 1) "other"
      DiagnosticSeverity.Warning).1.impl.getExpectedDiags "re.mlir" = some [] ∧
    (Example.verifierLate.process Example.printer Example.env Example.senv
      (Location.FileLineColLoc "re.mlir" 5 1) "other"
      DiagnosticSeverity.Warning).1.impl.status = LogicalResult.failure ∧
    (Example.verifierLate.process Example.printer Example.env Example.senv
      (Location.FileLineColLoc "re.mlir" 5 1) "other" DiagnosticSeverity.Warning).2
      = [SMOutput.PrintMessage ⟨some 3, DiagKind.DK_Error,
          "found start of regex with no end '\x7d\x7d'", some (some 3, some 11)⟩] ∧
    (Example.verifier Level.OnlyExpected []).impl.status = LogicalResult.success ∧
    ((Example.verifier Level.OnlyExpected []).process Example.printer Example.env
      Example.senvFile (Location.FileLineColLoc "re.mlir" 5 1) "other"
      DiagnosticSeverity.Warning).1.impl.status = LogicalResult.failure ∧
    ((Example.verifier Level.OnlyExpected []).process Example.printer Example.env
      Example.senvFile (Location.FileLineColLoc "re.mlir" 5 1) "other"
      DiagnosticSeverity.Warning).2
      = [SMOutput.PrintMessage ⟨some 3, DiagKind.DK_Error,
          "found start of regex with no end '\x7d\x7d'", some (some 3, some 11)⟩] := by
  decide

/-- C27 (amended): let the array `diags` that `process` finds for a diagnostic (the expected
diagnostics of its file, or those of unknown location) hold no candidate, no expected
diagnostic on the line of the diagnostic whose pattern matches the message. If the level is
OnlyExpected, `process` changes and prints nothing beyond what finding the array did, and
finding the array changes nothing and prints nothing when the diagnostic has no file location
or the expected diagnostics of its file have been computed: then `process` returns the
verifier as it was. If the level is not OnlyExpected, `process` sets the status to failure
and writes, after what finding the array wrote, what `emitDiagnostic` writes for the location
of the diagnostic, the message "unexpected <kind>: <message>" and the severity Error: one
message of the kind error with this text, after the printed location when the location holds
no file location and is not unknown. -/
theorem process_unexpected (P : ValuePrinter) (env : VerifierEnv) (senv : SourceMgrEnv)
    (self : SourceMgrDiagnosticVerifierHandler) (loc : Location) (msg : String)
    (kind : DiagnosticSeverity)
    (hnone : ∀ x ∈ (SourceMgrDiagnosticVerifierHandler.getDiags env senv self
          loc.findInstanceOf).1.impl.readDiags
        (SourceMgrDiagnosticVerifierHandler.getDiags env senv self loc.findInstanceOf).2.1,
      x.isCandidate env (loc.findInstanceOf.map (fun fileLoc => fileLoc.2.1)) msg = false) :
    (self.impl.level = Level.OnlyExpected →
      self.process P env senv loc msg kind
          = ((SourceMgrDiagnosticVerifierHandler.getDiags env senv self
              loc.findInstanceOf).1,
            (SourceMgrDiagnosticVerifierHandler.getDiags env senv self
              loc.findInstanceOf).2.2) ∧
      (loc.findInstanceOf = none ∨
        (∃ filename line column diags, loc.findInstanceOf = some (filename, line, column) ∧
          self.impl.getExpectedDiags filename = some diags) →
        self.process P env senv loc msg kind = (self, []))) ∧
    (self.impl.level ≠ Level.OnlyExpected →
      self.process P env senv loc msg kind
          = (⟨((SourceMgrDiagnosticVerifierHandler.getDiags env senv self
                  loc.findInstanceOf).1.base.emitDiagnostic P senv loc
                  ("unexpected " ++ getDiagKindStr kind ++ ": " ++ msg)
                  DiagnosticSeverity.Error true).1,
              { (SourceMgrDiagnosticVerifierHandler.getDiags env senv self
                  loc.findInstanceOf).1.impl with status := LogicalResult.failure }⟩,
            (SourceMgrDiagnosticVerifierHandler.getDiags env senv self
                loc.findInstanceOf).2.2 ++
              ((SourceMgrDiagnosticVerifierHandler.getDiags env senv self
                  loc.findInstanceOf).1.base.emitDiagnostic P senv loc
                  ("unexpected " ++ getDiagKindStr kind ++ ": " ++ msg)
                  DiagnosticSeverity.Error true).2) ∧
      (self.process P env senv loc msg kind).1.impl.status = LogicalResult.failure ∧
      ∃ o, ((SourceMgrDiagnosticVerifierHandler.getDiags env senv self
            loc.findInstanceOf).1.base.emitDiagnostic P senv loc
            ("unexpected " ++ getDiagKindStr kind ++ ": " ++ msg)
            DiagnosticSeverity.Error true).2 = [o] ∧
        o.kind = DiagKind.DK_Error ∧
        o.msg = (if loc.findInstanceOf = none ∧ loc.isUnknownLoc = false
          then P.printLocation loc ++ ": " else "") ++
            ("unexpected " ++ getDiagKindStr kind ++ ": " ++ msg)) := by
  have hp := SourceMgrDiagnosticVerifierHandler.process_of_miss P env senv self loc msg kind
    (fun x hx hcx => by rw [hnone x hx] at hcx; cases hcx)
  have hlevel := (SourceMgrDiagnosticVerifierHandler.getDiags_level_status env senv self
    loc.findInstanceOf).1
  rw [SourceMgrDiagnosticVerifierHandler.nearMiss_of_no_candidate env _ msg _ none hnone]
    at hp
  constructor
  · intro hl
    rw [← hlevel] at hl
    rw [if_pos hl] at hp
    refine ⟨hp, ?_⟩
    rintro (h | ⟨filename, line, column, diags, h1, h2⟩)
    · rw [hp, h, SourceMgrDiagnosticVerifierHandler.getDiags_none]
    · rw [hp, h1, SourceMgrDiagnosticVerifierHandler.getDiags_cached env senv self filename
        line column diags h2]
  · intro hl
    rw [← hlevel] at hl
    rw [if_neg hl] at hp
    refine ⟨hp, by rw [hp], ?_⟩
    exact SourceMgrDiagnosticVerifierHandler.emitDiagnostic_output P senv _ loc _
      DiagnosticSeverity.Error true

set_option maxRecDepth 100000 in
/-- Witness of C27 (amended): the verifier built on the one line
`// expected-error {{cannot find 'foo'}}` processes a warning with the message other on line
1. At the level OnlyExpected it stays as it was and nothing is written; at the level All the
status becomes failure. -/
theorem process_unexpected_witness :
    (Example.verifier Level.OnlyExpected [Example.bufFoo]).process Example.printer Example.env
      Example.senv (Location.FileLineColLoc "foo.mlir" 1 1) "other" DiagnosticSeverity.Warning
      = (Example.verifier Level.OnlyExpected [Example.bufFoo], []) ∧
    ((Example.verifier Level.All [Example.bufFoo]).process Example.printer Example.env
      Example.senv (Location.FileLineColLoc "foo.mlir" 1 1) "other"
      DiagnosticSeverity.Warning).1.impl.status = LogicalResult.failure :=
  ⟨((process_unexpected Example.printer Example.env Example.senv
      (Example.verifier Level.OnlyExpected [Example.bufFoo])
      (Location.FileLineColLoc "foo.mlir" 1 1) "other" DiagnosticSeverity.Warning
      (by decide)).1 (by decide)).2
      (Or.inr ⟨"foo.mlir", 1, 1,
        [⟨DiagnosticSeverity.Error, 1, some 3, false, "cannot find 'foo'", none⟩], rfl,
        by decide⟩),
    ((process_unexpected Example.printer Example.env Example.senv
      (Example.verifier Level.All [Example.bufFoo])
      (Location.FileLineColLoc "foo.mlir" 1 1) "other" DiagnosticSeverity.Warning
      (by decide)).2 (by decide)).2.1⟩

/-- C28: for every verifier, `verify` returns success if and only if the status before the
call is success and every expected diagnostic of the collection of every buffer and of the
collection of unknown location is marked as matched; an expected diagnostic that is not
marked, in whichever collection, makes it return failure. -/
theorem verify_success_iff (self : SourceMgrDiagnosticVerifierHandler) :
    (self.verify.1 = LogicalResult.success ↔
      self.impl.status = LogicalResult.success ∧
      (∀ pair ∈ self.impl.expectedDiagsPerFile, ∀ e ∈ pair.2, e.matched = true) ∧
      ∀ e ∈ self.impl.expectedUnknownLocDiags, e.matched = true) ∧
    ((∃ pair ∈ self.impl.expectedDiagsPerFile, ∃ e ∈ pair.2, e.matched = false) ∨
      (∃ e ∈ self.impl.expectedUnknownLocDiags, e.matched = false) →
      self.verify.1 = LogicalResult.failure) := by
  have hv := (SourceMgrDiagnosticVerifierHandler.verify_result self).1
  refine ⟨hv, ?_⟩
  intro h
  cases hr : self.verify.1 with
  | failure => rfl
  | success =>
    obtain ⟨_, h1, h2⟩ := hv.mp hr
    rcases h with ⟨pair, hp, e, he, hm⟩ | ⟨e, he, hm⟩
    · rw [h1 pair hp e he] at hm; cases hm
    · rw [h2 e he] at hm; cases hm

set_option maxRecDepth 100000 in
/-- Witness of C28: the verifier built on the one line
`// expected-error {{cannot find 'foo'}}` has an expected diagnostic that is not marked, and
`verify` returns failure. -/
theorem verify_success_iff_witness :
    (Example.verifier Level.All [Example.bufFoo]).verify.1 = LogicalResult.failure :=
  (verify_success_iff (Example.verifier Level.All [Example.bufFoo])).2
    (Or.inl ⟨("foo.mlir",
        [⟨DiagnosticSeverity.Error, 1, some 3, false, "cannot find 'foo'", none⟩]),
      by decide, ⟨DiagnosticSeverity.Error, 1, some 3, false, "cannot find 'foo'", none⟩,
      by decide, rfl⟩)

/-- C29: a verifier whose status is failure has the status failure after every sequence of
calls of `computeExpectedDiags`, `process` and `verify`, whatever these calls mark, and a
`verify` after the sequence returns failure. -/
theorem status_latched (P : ValuePrinter) (env : VerifierEnv) (senv : SourceMgrEnv)
    (self : SourceMgrDiagnosticVerifierHandler) (ops : List VerifierOp)
    (h : self.impl.status = LogicalResult.failure) :
    (self.run P env senv ops).impl.status = LogicalResult.failure ∧
    (self.run P env senv ops).verify.1 = LogicalResult.failure :=
  ⟨SourceMgrDiagnosticVerifierHandler.run_status P env senv ops self h,
    SourceMgrDiagnosticVerifierHandler.verify_of_failure _
      (SourceMgrDiagnosticVerifierHandler.run_status P env senv ops self h)⟩

set_option maxRecDepth 100000 in
/-- Witness of C29: the verifier built on the two lines of `bufUnterminatedThen` has the
status failure; after the warning of line 2 has been processed, which marks the one expected
diagnostic, after `verify`, after the expected diagnostics of another buffer have been
computed and its error has been processed, the status is failure. -/
theorem status_latched_witness :
    (Example.verifier Level.All [Example.bufUnterminatedThen]).impl.status
      = LogicalResult.failure ∧
    ((Example.verifier Level.All [Example.bufUnterminatedThen]).run Example.printer
      Example.env Example.senv
      [VerifierOp.process (Location.FileLineColLoc "re2.mlir" 2 1) "w"
          DiagnosticSeverity.Warning,
        VerifierOp.verify,
        VerifierOp.computeExpectedDiags (some Example.bufFoo),
        VerifierOp.process (Location.FileLineColLoc "foo.mlir" 1 1) "cannot find 'foo'"
          DiagnosticSeverity.Error]).impl.status = LogicalResult.failure :=
  ⟨by decide,
    (status_latched Example.printer Example.env Example.senv
      (Example.verifier Level.All [Example.bufUnterminatedThen])
      [VerifierOp.process (Location.FileLineColLoc "re2.mlir" 2 1) "w"
          DiagnosticSeverity.Warning,
        VerifierOp.verify,
        VerifierOp.computeExpectedDiags (some Example.bufFoo),
        VerifierOp.process (Location.FileLineColLoc "foo.mlir" 1 1) "cannot find 'foo'"
          DiagnosticSeverity.Error] (by decide)).1⟩

/-! ## Claims on printing the diagnostics in flight -/

namespace ParallelDiagnosticHandlerImpl

/-- A callback that leaves the diagnostics as they are leaves the buffer as it is. -/
theorem emitEach_const {τ : Type} (f : Diagnostic → τ → τ) (l : List ThreadDiagnostic) :
    ∀ t : τ, (emitEach (fun diag t => (diag, f diag t)) l t).1 = l := by
  induction l with
  | nil => intro t; rfl
  | cons td rest ih =>
    intro t
    simp only [emitEach]
    rw [ih]

/-- The member `print` leaves the buffer sorted and the object otherwise as it was. -/
theorem print_eq (P : ValuePrinter) (self : ParallelDiagnosticHandlerImpl) (os : String) :
    (self.print P os).1
      = { self with diagnostics := stable_sort ThreadDiagnostic.lt self.diagnostics } := by
  unfold print
  cases hd : self.diagnostics with
  | nil =>
    simp only [List.isEmpty_nil, if_true, stable_sort]
    cases self
    simp only at hd
    rw [hd]
  | cons td rest =>
    simp only [List.isEmpty_cons, Bool.false_eq_true, if_false, emitDiagnostics, hd]
    rw [emitEach_const]

theorem entriesOf_append (k : Nat) (l1 l2 : List ThreadDiagnostic) :
    entriesOf k (l1 ++ l2) = entriesOf k l1 ++ entriesOf k l2 := by
  simp [entriesOf]

/-- A call acts in the same way on two parallel handlers that differ only in the order of
their buffers, the entries of every order id standing in the same order. -/
theorem step_congr (self1 self2 : ParallelDiagnosticHandlerImpl) (op : ParallelOp)
    (hmap : self1.threadToOrderID = self2.threadToOrderID)
    (hid : self1.handlerID = self2.handlerID)
    (hent : ∀ k, entriesOf k self1.diagnostics = entriesOf k self2.diagnostics) :
    (self1.step op).threadToOrderID = (self2.step op).threadToOrderID ∧
    (self1.step op).handlerID = (self2.step op).handlerID ∧
    ∀ k, entriesOf k (self1.step op).diagnostics = entriesOf k (self2.step op).diagnostics := by
  cases op with
  | handler tid diag =>
    simp only [step, handler, hmap]
    split_ifs
    · exact ⟨hmap, hid, hent⟩
    · refine ⟨rfl, hid, fun k => ?_⟩
      simp only [entriesOf_append, hent k]
  | setOrderIDForThread tid orderID =>
    exact ⟨by simp only [step, setOrderIDForThread, hmap], hid, hent⟩
  | eraseOrderIDForThread tid =>
    exact ⟨by simp only [step, eraseOrderIDForThread, hmap], hid, hent⟩

theorem run_congr (ops : List ParallelOp) :
    ∀ (self1 self2 : ParallelDiagnosticHandlerImpl),
      self1.threadToOrderID = self2.threadToOrderID →
      self1.handlerID = self2.handlerID →
      (∀ k, entriesOf k self1.diagnostics = entriesOf k self2.diagnostics) →
      (self1.run ops).handlerID = (self2.run ops).handlerID ∧
      ∀ k, entriesOf k (self1.run ops).diagnostics = entriesOf k (self2.run ops).diagnostics := by
  induction ops with
  | nil => intro self1 self2 _ hid hent; exact ⟨hid, hent⟩
  | cons op rest ih =>
    intro self1 self2 hmap hid hent
    obtain ⟨h1, h2, h3⟩ := step_congr self1 self2 op hmap hid hent
    simp only [run, List.foldl_cons]
    exact ih _ _ h1 h2 h3

end ParallelDiagnosticHandlerImpl

/-- C30: the member `print` of the parallel handler leaves the object as it was but for the
order of the buffer: the buffer afterwards is a permutation of the buffer before (the same
entries, each as often as before, hence the same length), and the map from thread to order id
and the handler id are as before. For every sequence `later` of entries buffered afterwards
the calls of the teardown are the same as without `print`, and so they are after every
sequence `ops` of calls (the handler run for a diagnostic, an order id set or erased) made on
the object. -/
theorem print_non_destructive (P : ValuePrinter) (self : ParallelDiagnosticHandlerImpl)
    (os : String) (later : List ThreadDiagnostic) (ops : List ParallelOp) :
    (self.print P os).1.diagnostics.Perm self.diagnostics ∧
    (self.print P os).1.diagnostics.length = self.diagnostics.length ∧
    (self.print P os).1.threadToOrderID = self.threadToOrderID ∧
    (self.print P os).1.handlerID = self.handlerID ∧
    ({ (self.print P os).1 with
        diagnostics := (self.print P os).1.diagnostics ++ later } :
      ParallelDiagnosticHandlerImpl).destroy
      = ({ self with diagnostics := self.diagnostics ++ later } :
        ParallelDiagnosticHandlerImpl).destroy ∧
    ((self.print P os).1.run ops).destroy = (self.run ops).destroy := by
  have hprint := ParallelDiagnosticHandlerImpl.print_eq P self os
  have hperm : (self.print P os).1.diagnostics.Perm self.diagnostics := by
    rw [hprint]; exact stable_sort_perm _ _
  have hent : ∀ k, entriesOf k (self.print P os).1.diagnostics
      = entriesOf k self.diagnostics := by
    intro k; rw [hprint]; exact stable_sort_entriesOf k _
  refine ⟨hperm, hperm.length_eq, by rw [hprint], by rw [hprint], ?_, ?_⟩
  · rw [ParallelDiagnosticHandlerImpl.destroy_eq, ParallelDiagnosticHandlerImpl.destroy_eq]
    have hs := stable_sort_congr ((self.print P os).1.diagnostics ++ later)
      (self.diagnostics ++ later) (fun k => by
        rw [ParallelDiagnosticHandlerImpl.entriesOf_append,
          ParallelDiagnosticHandlerImpl.entriesOf_append, hent k])
    rw [hprint] at hs
    simp only [hprint, hs]
  · obtain ⟨h1, h2⟩ := ParallelDiagnosticHandlerImpl.run_congr ops (self.print P os).1 self
      (by rw [hprint]) (by rw [hprint]) hent
    rw [ParallelDiagnosticHandlerImpl.destroy_eq, ParallelDiagnosticHandlerImpl.destroy_eq,
      stable_sort_congr _ _ h2, h1]

/-! ## Claims on the emission of a diagnostic with the source manager -/

namespace SourceMgrDiagnosticHandler

/-- The lambda `addLocToStack` leaves the stack as it is or appends one entry with the
context it was given. -/
theorem addLocToStack_cases (self : SourceMgrDiagnosticHandler)
    (locationStack : List (Location × String)) (loc : Location) (locContext : String) :
    ∃ added : List (Location × String),
      self.addLocToStack locationStack loc locContext = locationStack ++ added ∧
      added.length ≤ 1 ∧ ∀ it ∈ added, it.2 = locContext := by
  unfold addLocToStack
  cases findLocToShow self.shouldShowLocFn loc with
  | none => exact ⟨[], by simp, by simp, by simp⟩
  | some showableLoc => exact ⟨[(showableLoc, locContext)], rfl, by simp, by simp⟩

/-- The loop over the call stack appends at most as many entries as it has rounds to go, each
with the context "called from". -/
theorem callStackLoop_cases (self : SourceMgrDiagnosticHandler) :
    ∀ (n : Nat) (loc : Location) (locationStack : List (Location × String)),
      ∃ added : List (Location × String),
        (self.callStackLoop n loc locationStack).1 = locationStack ++ added ∧
        added.length ≤ n ∧ ∀ it ∈ added, it.2 = "called from" := by
  intro n
  induction n with
  | zero => intro loc locationStack; exact ⟨[], by simp [callStackLoop], by simp, by simp⟩
  | succ n ih =>
    intro loc locationStack
    obtain ⟨a1, h1, hl1, hc1⟩ := addLocToStack_cases self locationStack loc "called from"
    cases hg : getCallSiteLoc loc with
    | none =>
      refine ⟨a1, ?_, by omega, hc1⟩
      simp only [callStackLoop, hg]
      exact h1
    | some callLoc =>
      obtain ⟨a2, h2, hl2, hc2⟩ := ih callLoc.getCaller
        (self.addLocToStack locationStack loc "called from")
      refine ⟨a1 ++ a2, ?_, ?_, ?_⟩
      · simp only [callStackLoop, hg]
        rw [h2, h1, List.append_assoc]
      · rw [List.length_append]; omega
      · intro it hit
        rcases List.mem_append.mp hit with h | h
        · exact hc1 it h
        · exact hc2 it h

/-- The location stack of a diagnostic: at most one entry without context for the location of
the diagnostic, then the entries of the callers, at most `callStackLimit` of them and none
when the location holds no call site. -/
theorem locationStack_cases (self : SourceMgrDiagnosticHandler) (diag : Diagnostic) :
    ∃ first added : List (Location × String),
      (self.locationStack diag).1 = first ++ added ∧
      first.length ≤ 1 ∧ (∀ it ∈ first, it.2 = "") ∧
      added.length ≤ self.callStackLimit ∧ (∀ it ∈ added, it.2 = "called from") ∧
      (getCallSiteLoc diag.getLocation = none → added = []) := by
  obtain ⟨a0, h0, hl0, hc0⟩ := addLocToStack_cases self [] diag.getLocation ""
  rw [List.nil_append] at h0
  cases hg : getCallSiteLoc diag.getLocation with
  | none =>
    refine ⟨a0, [], ?_, hl0, hc0, by simp, by simp, fun _ => rfl⟩
    simp only [locationStack, hg, List.append_nil]
    exact h0
  | some callLoc =>
    obtain ⟨a1, h1, hl1, hc1⟩ := callStackLoop_cases self self.callStackLimit
      callLoc.getCaller (self.addLocToStack [] diag.getLocation "")
    refine ⟨a0, a1, ?_, hl0, hc0, hl1, hc1, fun h => by cases h⟩
    simp only [locationStack, hg]
    rw [h1, h0]

end SourceMgrDiagnosticHandler

/-- C33: for every diagnostic and every call-stack limit `n`, the location stack that
`emitDiagnostic(diag)` builds holds at most `n` entries with the context "called from" and at
most `n + 1` entries in all; it holds no entry with that context when `n = 0` or when
`getCallSiteLoc` of the location of the diagnostic is none; every entry after the first has
that context; and the calls made are: the message of the diagnostic with its severity at the
location of the first entry, or at the location of the diagnostic when the stack is empty,
then one call of severity Note with the text "called from" at the location of each remaining
entry, then the calls for the notes. -/
theorem emitDiagnostic_call_stack (P : ValuePrinter) (self : SourceMgrDiagnosticHandler)
    (n : Nat) (diag : Diagnostic) :
    (((self.setCallStackLimit n).locationStack diag).1.filter
      (fun it => it.2 = "called from")).length ≤ n ∧
    ((self.setCallStackLimit n).locationStack diag).1.length ≤ n + 1 ∧
    (n = 0 ∨ getCallSiteLoc diag.getLocation = none →
      ∀ it ∈ ((self.setCallStackLimit n).locationStack diag).1, it.2 ≠ "called from") ∧
    (∀ it ∈ ((self.setCallStackLimit n).locationStack diag).1.tail, it.2 = "called from") ∧
    SourceMgrDiagnosticHandler.emitDiagnostic.calls P (self.setCallStackLimit n) diag
      = ⟨((((self.setCallStackLimit n).locationStack diag).1.head?).map Prod.fst).getD
            diag.getLocation, diag.str P, diag.getSeverity, true⟩ ::
        ((self.setCallStackLimit n).locationStack diag).1.tail.map
          (fun it => ⟨it.1, "called from", DiagnosticSeverity.Note, true⟩) ++
        SourceMgrDiagnosticHandler.emitDiagnostic.notes P
          ((self.setCallStackLimit n).locationStack diag).2 diag.getNotes := by
  obtain ⟨first, added, hst, hl0, hc0, hl1, hc1, hnone⟩ :=
    SourceMgrDiagnosticHandler.locationStack_cases (self.setCallStackLimit n) diag
  have hn : (self.setCallStackLimit n).callStackLimit = n := rfl
  rw [hn] at hl1
  have hfirst : first.filter (fun it => it.2 = "called from") = [] := by
    rw [List.filter_eq_nil_iff]
    intro it hit
    rw [hc0 it hit]
    decide
  have hadded : added.filter (fun it => it.2 = "called from") = added := by
    rw [List.filter_eq_self]
    intro it hit
    rw [hc1 it hit]
    decide
  have htail : ∀ it ∈ (first ++ added).tail, it.2 = "called from" := by
    intro it hit
    cases first with
    | nil => exact hc1 it (List.mem_of_mem_tail hit)
    | cons x rest =>
      cases rest with
      | nil => exact hc1 it hit
      | cons y rest2 => simp at hl0
  refine ⟨?_, ?_, ?_, ?_, ?_⟩
  · rw [hst, List.filter_append, hfirst, hadded, List.nil_append]
    exact hl1
  · rw [hst, List.length_append]
    omega
  · intro h it hit
    have hnil : added = [] := by
      rcases h with h | h
      · subst h
        exact List.eq_nil_of_length_eq_zero (Nat.le_zero.mp hl1)
      · exact hnone h
    rw [hst, hnil, List.append_nil] at hit
    rw [hc0 it hit]
    decide
  · rw [hst]
    exact htail
  · have htail2 : ∀ it ∈ ((self.setCallStackLimit n).locationStack diag).1.tail,
        it.2 = "called from" := by rw [hst]; exact htail
    unfold SourceMgrDiagnosticHandler.emitDiagnostic.calls
    rcases hL : (self.setCallStackLimit n).locationStack diag with ⟨stack, loc⟩
    rw [hL] at htail2
    cases stack with
    | nil => rfl
    | cons front rest =>
      simp only [List.head?_cons, Option.map_some', Option.getD_some, List.tail_cons,
        List.cons_append, List.cons.injEq, true_and]
      congr 1
      apply List.map_congr_left
      intro it hit
      rw [htail2 it hit]

/-- Witness of C33: at the limit 1 the location stack of an error at a call site that is two
calls deep holds the location of the error and one caller. -/
theorem emitDiagnostic_call_stack_witness :
    ((((Example.base []).setCallStackLimit 1).locationStack Example.diagCut).1.filter
      (fun it => it.2 = "called from")).length ≤ 1 ∧
    (((Example.base []).setCallStackLimit 0).locationStack Example.diagCut).1
      = [(Location.CallSiteLoc Example.locA (Location.CallSiteLoc Example.locB Example.locC),
          "")] ∧
    ∀ it ∈ (((Example.base []).setCallStackLimit 0).locationStack Example.diagCut).1,
      it.2 ≠ "called from" :=
  ⟨(emitDiagnostic_call_stack Example.printer (Example.base []) 1 Example.diagCut).1,
    by decide,
    (emitDiagnostic_call_stack Example.printer (Example.base []) 0 Example.diagCut).2.2.1
      (Or.inl rfl)⟩

set_option maxRecDepth 100000 in
/-- C32: at the call-stack limit 1, an error at the call site of a.mlir:1:1, called from the
call site of b.mlir:2:1, called from c.mlir:3:1, is emitted at its location and then with one
"called from" note at the call site of b.mlir:2:1. A note at c.mlir:3:1, which differs from
the location of the message emitted before it, is emitted with `displaySourceLine = false`
and is written without its source line though its buffer is at hand; a note at the location
of that "called from" note is emitted with `displaySourceLine = true`. -/
theorem note_source_line_after_cut :
    SourceMgrDiagnosticHandler.emitDiagnostic.calls Example.printer
        ((Example.base Example.sources).setCallStackLimit 1) Example.diagCut
      = [⟨Location.CallSiteLoc Example.locA (Location.CallSiteLoc Example.locB Example.locC),
            "bad", DiagnosticSeverity.Error, true⟩,
          ⟨Location.CallSiteLoc Example.locB Example.locC, "called from",
            DiagnosticSeverity.Note, true⟩,
          ⟨Example.locC, "see", DiagnosticSeverity.Note, false⟩] ∧
    Example.locC ≠ Location.CallSiteLoc Example.locB Example.locC ∧
    (SourceMgrDiagnosticHandler.emitDiagnostic.diag Example.printer Example.senv
        ((Example.base Example.sources).setCallStackLimit 1) Example.diagCut).2
      = [SMOutput.PrintMessage ⟨some 0, DiagKind.DK_Error, "bad", none⟩,
          SMOutput.PrintMessage ⟨some 3, DiagKind.DK_Note, "called from", none⟩,
          SMOutput.SMDiagnostic "c.mlir:3:1" DiagKind.DK_Note "see"] ∧
    SourceMgrDiagnosticHandler.emitDiagnostic.calls Example.printer
        ((Example.base Example.sources).setCallStackLimit 1) Example.diagCutSame
      = [⟨Location.CallSiteLoc Example.locA (Location.CallSiteLoc Example.locB Example.locC),
            "bad", DiagnosticSeverity.Error, true⟩,
          ⟨Location.CallSiteLoc Example.locB Example.locC, "called from",
            DiagnosticSeverity.Note, true⟩,
          ⟨Location.CallSiteLoc Example.locB Example.locC, "see", DiagnosticSeverity.Note,
            true⟩] := by
  refine ⟨by decide, by decide, by decide, by decide⟩

/-! ## Claims on locations without line or column, and on the location to show -/

/-- C34: for every file location whose line is 0 or whose column is 0, `convertLocToSMLoc`
returns the invalid source location and leaves the handler, the cache of buffer ids and the
source manager included, as it is, whatever the file system holds; and
`emitDiagnostic(loc, message, kind, displaySourceLine)` writes, for either value of
`displaySourceLine`, the one diagnostic without source location that carries
"<file>:<line>:<column>", the kind of the severity and the message, and leaves the handler as
it is. -/
theorem emitDiagnostic_unknown_line_or_column (P : ValuePrinter) (senv : SourceMgrEnv)
    (self : SourceMgrDiagnosticHandler) (filename : String) (line column : Nat)
    (message : String) (kind : DiagnosticSeverity) (displaySourceLine : Bool)
    (h : line = 0 ∨ column = 0) :
    self.convertLocToSMLoc senv filename line column = (none, self) ∧
    self.emitDiagnostic P senv (Location.FileLineColLoc filename line column) message kind
        displaySourceLine
      = (self, [SMOutput.SMDiagnostic
          (filename ++ ":" ++ toString line ++ ":" ++ toString column) (getDiagKind kind)
          message]) := by
  have hc : self.convertLocToSMLoc senv filename line column = (none, self) := by
    simp only [SourceMgrDiagnosticHandler.convertLocToSMLoc, h, if_true]
  refine ⟨hc, ?_⟩
  simp only [SourceMgrDiagnosticHandler.emitDiagnostic, Location.findInstanceOf, hc]
  cases displaySourceLine <;> rfl

/-- Witness of C34: a note at a.mlir:0:7, with the source line asked for, on a handler that
holds the buffer of a.mlir. -/
theorem emitDiagnostic_unknown_line_or_column_witness :
    ((Example.base Example.sources).emitDiagnostic Example.printer Example.senv
        (Location.FileLineColLoc "a.mlir" 0 7) "see" DiagnosticSeverity.Note true).2
      = [SMOutput.SMDiagnostic "a.mlir:0:7" DiagKind.DK_Note "see"] :=
  congrArg Prod.snd
    (emitDiagnostic_unknown_line_or_column Example.printer Example.senv
      (Example.base Example.sources) "a.mlir" 0 7 "see" DiagnosticSeverity.Note true
      (Or.inl rfl)).2

mutual
theorem findLocToShow_occurs_aux (filter : Location → Bool) :
    ∀ (loc r : Location), findLocToShow (some filter) loc = some r →
      (∃ filename line column, r = Location.FileLineColLoc filename line column) ∧
      filter r = true ∧ Location.occursOutsideCallers r loc = true
  | Location.CallSiteLoc callee caller, r, h => by
    simp only [findLocToShow] at h
    split_ifs at h with hf
    obtain ⟨h1, h2, h3⟩ := findLocToShow_occurs_aux filter callee r h
    exact ⟨h1, h2, by simp [Location.occursOutsideCallers, h3]⟩
  | Location.FileLineColLoc filename line column, r, h => by
    simp only [findLocToShow] at h
    split_ifs at h with hf
    simp only [Option.some.injEq] at h
    subst h
    exact ⟨⟨filename, line, column, rfl⟩, by simpa using hf,
      by simp [Location.occursOutsideCallers]⟩
  | Location.FusedLoc locations, r, h => by
    simp only [findLocToShow] at h
    split_ifs at h with hf
    obtain ⟨h1, h2, h3⟩ := findLocToShow_occurs_children filter locations r h
    exact ⟨h1, h2, by simp [Location.occursOutsideCallers, h3]⟩
  | Location.NameLoc name childLoc, r, h => by
    simp only [findLocToShow] at h
    split_ifs at h with hf
    obtain ⟨h1, h2, h3⟩ := findLocToShow_occurs_aux filter childLoc r h
    exact ⟨h1, h2, by simp [Location.occursOutsideCallers, h3]⟩
  | Location.OpaqueLoc fallbackLocation, r, h => by
    simp only [findLocToShow] at h
    split_ifs at h with hf
    obtain ⟨h1, h2, h3⟩ := findLocToShow_occurs_aux filter fallbackLocation r h
    exact ⟨h1, h2, by simp [Location.occursOutsideCallers, h3]⟩
  | Location.UnknownLoc, r, h => by
    simp only [findLocToShow] at h
    split_ifs at h
theorem findLocToShow_occurs_children (filter : Location → Bool) :
    ∀ (locations : List Location) (r : Location),
      findLocToShow.children (some filter) locations = some r →
      (∃ filename line column, r = Location.FileLineColLoc filename line column) ∧
      filter r = true ∧ Location.occursOutsideCallers.children r locations = true
  | [], r, h => by simp [findLocToShow.children] at h
  | childLoc :: rest, r, h => by
    simp only [findLocToShow.children] at h
    cases hc : findLocToShow (some filter) childLoc with
    | some showableLoc =>
      rw [hc] at h
      simp only [Option.some.injEq] at h
      subst h
      obtain ⟨h1, h2, h3⟩ := findLocToShow_occurs_aux filter childLoc showableLoc hc
      exact ⟨h1, h2, by simp [Location.occursOutsideCallers.children, h3]⟩
    | none =>
      rw [hc] at h
      obtain ⟨h1, h2, h3⟩ := findLocToShow_occurs_children filter rest r h
      exact ⟨h1, h2, by simp [Location.occursOutsideCallers.children, h3]⟩
end

/-- C37: with a filter present, a location that `findLocToShow` returns is a file location,
the filter accepts it, and it is the input location or occurs inside it on a way that never
enters the caller of a call site; so it is no call site, fused, name, opaque or unknown
location. -/
theorem findLocToShow_file_location (filter : Location → Bool) (loc r : Location)
    (h : findLocToShow (some filter) loc = some r) :
    (∃ filename line column, r = Location.FileLineColLoc filename line column) ∧
    filter r = true ∧
    Location.occursOutsideCallers r loc = true ∧
    (∀ callee caller, r ≠ Location.CallSiteLoc callee caller) ∧
    (∀ locations, r ≠ Location.FusedLoc locations) ∧
    (∀ name childLoc, r ≠ Location.NameLoc name childLoc) ∧
    (∀ fallbackLocation, r ≠ Location.OpaqueLoc fallbackLocation) ∧
    r ≠ Location.UnknownLoc := by
  obtain ⟨⟨filename, line, column, hr⟩, h2, h3⟩ := findLocToShow_occurs_aux filter loc r h
  refine ⟨⟨filename, line, column, hr⟩, h2, h3, ?_, ?_, ?_, ?_, ?_⟩ <;>
    (subst hr; intros; exact fun e => Location.noConfusion e)

/-- Witness of C37: the filter that accepts everything, on a name location around the call
site of a.mlir:1:1 called from b.mlir:2:1: the location to show is a.mlir:1:1, which is not
the caller. -/
theorem findLocToShow_file_location_witness :
    findLocToShow (some (fun _ => true))
        (Location.NameLoc "f" (Location.CallSiteLoc Example.locA Example.locB))
      = some Example.locA ∧
    Location.occursOutsideCallers Example.locA
      (Location.NameLoc "f" (Location.CallSiteLoc Example.locA Example.locB)) = true ∧
    Location.occursOutsideCallers Example.locB
      (Location.NameLoc "f" (Location.CallSiteLoc Example.locA Example.locB)) = false :=
  ⟨by decide,
    (findLocToShow_file_location (fun _ => true)
      (Location.NameLoc "f" (Location.CallSiteLoc Example.locA Example.locB)) Example.locA
      (by decide)).2.2.1,
    by decide⟩

/-! ## Claims on what `verify` reports and returns -/

namespace SourceMgrDiagnosticVerifierHandler

/-- The message that `verify` prints for an expected diagnostic that is not marked. -/
theorem checkExpectedDiags_printed (l : List ExpectedDiag) :
    ∀ st : LogicalResult × List SMMessage,
      (l.foldl (fun st err => checkExpectedDiags err st) st).2
        = st.2 ++ (l.filter (fun e => !e.matched)).map (fun e =>
            e.emitError ("expected " ++ getDiagKindStr e.kind ++ " \"" ++ e.substring ++
              "\" was not produced")) := by
  induction l with
  | nil => intro st; simp
  | cons e rest ih =>
    intro st
    rw [List.foldl_cons, ih]
    cases hm : e.matched with
    | true => simp [checkExpectedDiags, hm]
    | false => simp [checkExpectedDiags, hm]

theorem foldl_checkExpectedDiags_printed (m : DenseMap String (List ExpectedDiag)) :
    ∀ st : LogicalResult × List SMMessage,
      (m.foldl (fun st (expectedDiagsPair : String × List ExpectedDiag) =>
        expectedDiagsPair.2.foldl (fun st err => checkExpectedDiags err st) st) st).2
        = st.2 ++ ((m.foldr (fun pair rest => pair.2 ++ rest) []).filter
            (fun e => !e.matched)).map (fun e =>
              e.emitError ("expected " ++ getDiagKindStr e.kind ++ " \"" ++ e.substring ++
                "\" was not produced")) := by
  induction m with
  | nil => intro st; simp
  | cons p rest ih =>
    intro st
    rw [List.foldl_cons, ih, checkExpectedDiags_printed]
    simp

end SourceMgrDiagnosticVerifierHandler

/-- C36: `verify` writes one message for each expected diagnostic that is not marked as
matched, in the order in which it checks them, and nothing else. The message is an error
printed at the offset recorded in the expected diagnostic (its `fileLoc`), and its text is
`expected <kind> "<text>" was not produced`, where `<text>` is the text recorded from the
annotation and `<kind>` is note, warning, error or remark according to the severity. -/
theorem verify_reports_unmatched (self : SourceMgrDiagnosticVerifierHandler) :
    self.verify.2.2
      = (self.impl.checked.filter (fun e => !e.matched)).map (fun e =>
          SMOutput.PrintMessage ⟨e.fileLoc, DiagKind.DK_Error,
            "expected " ++ getDiagKindStr e.kind ++ " \"" ++ e.substring ++
              "\" was not produced",
            some (e.fileLoc, e.fileLoc.map (fun p => p + e.substring.length))⟩) ∧
    getDiagKindStr DiagnosticSeverity.Note = "note" ∧
    getDiagKindStr DiagnosticSeverity.Warning = "warning" ∧
    getDiagKindStr DiagnosticSeverity.Error = "error" ∧
    getDiagKindStr DiagnosticSeverity.Remark = "remark" := by
  refine ⟨?_, rfl, rfl, rfl, rfl⟩
  simp only [SourceMgrDiagnosticVerifierHandler.verify]
  rw [SourceMgrDiagnosticVerifierHandler.checkExpectedDiags_printed,
    SourceMgrDiagnosticVerifierHandler.foldl_checkExpectedDiags_printed]
  simp [SourceMgrDiagnosticVerifierHandlerImpl.checked, ExpectedDiag.emitError,
    List.filter_append]
  rfl

/-- C40: for every verifier, a second call of `verify` right after a first one returns the
status that the first one returned; after the first call the collections of the buffers are
empty and the collection of unknown location is the one before the call. -/
theorem verify_twice (self : SourceMgrDiagnosticVerifierHandler) :
    self.verify.2.1.verify.1 = self.verify.1 ∧
    self.verify.2.1.impl.expectedDiagsPerFile = [] ∧
    self.verify.2.1.impl.expectedUnknownLocDiags = self.impl.expectedUnknownLocDiags := by
  have hper : self.verify.2.1.impl.expectedDiagsPerFile = [] := rfl
  have hunk : self.verify.2.1.impl.expectedUnknownLocDiags
      = self.impl.expectedUnknownLocDiags := rfl
  have hstat : self.verify.2.1.impl.status = self.verify.1 :=
    (SourceMgrDiagnosticVerifierHandler.verify_result self).2
  refine ⟨?_, hper, hunk⟩
  cases hv : self.verify.1 with
  | failure =>
    rw [hv] at hstat
    exact SourceMgrDiagnosticVerifierHandler.verify_of_failure _ hstat
  | success =>
    rw [hv] at hstat
    obtain ⟨-, -, h3⟩ := (SourceMgrDiagnosticVerifierHandler.verify_result self).1.mp hv
    apply (SourceMgrDiagnosticVerifierHandler.verify_result self.verify.2.1).1.mpr
    refine ⟨hstat, ?_, ?_⟩
    · rw [hper]; intro pair hp; cases hp
    · rw [hunk]; exact h3

/-! ## Claims on the handler of the verifier -/

section VerifierHandler
variable {σ : Type}

/-- A walk over handlers of which one always reports success ends with "handled", and calls
handlers up to that one only. -/
theorem walkHandlers_always (h : HandlerID × HandlerTy σ)
    (hs : ∀ d s, (h.2 d s).1 = LogicalResult.success) (post : List (HandlerID × HandlerTy σ)) :
    ∀ (pre : List (HandlerID × HandlerTy σ)) (diag : Diagnostic) (s : σ),
      (walkHandlers (pre ++ h :: post) diag s).handled = true ∧
      ∀ c ∈ (walkHandlers (pre ++ h :: post) diag s).calls,
        c.1 ∈ (pre ++ [h]).map Prod.fst := by
  intro pre
  induction pre with
  | nil =>
    intro diag s
    rcases hh : h.2 diag s with ⟨r, diag1, s1⟩
    have hr : r = LogicalResult.success := by
      have := hs diag s
      rw [hh] at this
      exact this
    subst hr
    simp [walkHandlers, hh, succeeded]
  | cons p pre ih =>
    intro diag s
    rcases hp : p.2 diag s with ⟨r, diag1, s1⟩
    cases r with
    | success => simp [walkHandlers, hp, succeeded]
    | failure =>
      obtain ⟨h1, h2⟩ := ih diag1 s1
      have hw : walkHandlers (p :: pre ++ h :: post) diag s
          = { walkHandlers (pre ++ h :: post) diag1 s1 with
              calls := (p.1, LogicalResult.failure) ::
                (walkHandlers (pre ++ h :: post) diag1 s1).calls } := by
        simp [walkHandlers, hp, succeeded]
      rw [hw]
      refine ⟨h1, ?_⟩
      intro c hc
      simp only [List.mem_cons] at hc
      rcases hc with hc | hc
      · subst hc; simp
      · have := h2 c hc
        simp only [List.cons_append, List.map_cons, List.mem_cons]
        exact Or.inr this

/-- An emission whose walk ends with "handled" is that walk: nothing is added to it. -/
theorem DiagnosticEngineImpl.emit_of_handled (P : ValuePrinter) (self : DiagnosticEngineImpl σ)
    (diag : Diagnostic) (s : σ)
    (h : (walkHandlers self.handlers.entries.reverse diag s).handled = true) :
    self.emit P diag s = walkHandlers self.handlers.entries.reverse diag s := by
  unfold DiagnosticEngineImpl.emit
  simp only [h, if_true]

end VerifierHandler

namespace SourceMgrDiagnosticVerifierHandler

/-- The verifier after the calls `process(diag)` of the lambda of `registerInContext` on a
list of diagnostics is the verifier after `process(loc, msg, kind)` on the location, the
message and the severity of each of them, in order. -/
theorem registerInContext_process_run (P : ValuePrinter) (env : VerifierEnv)
    (senv : SourceMgrEnv) (diags : List Diagnostic) :
    ∀ s : SourceMgrDiagnosticVerifierHandler × List SMOutput,
      (diags.foldl (registerInContext.process P env senv) s).1
        = s.1.run P env senv
            (diags.map (fun d => VerifierOp.process d.getLocation (d.str P) d.getSeverity)) := by
  induction diags with
  | nil => intro s; rfl
  | cons d rest ih =>
    intro s
    rw [List.foldl_cons, ih]
    rfl

end SourceMgrDiagnosticVerifierHandler

/-- C38: the handler that the verifier registers calls `process` on the diagnostic and then
on each of its notes in order, each with its own location, message and severity (Note, for
notes that have the severity of a note), leaves the diagnostic as it is and reports success.
Hence, in an engine in which this handler is registered, every emission ends handled, writes
nothing to the standard error stream and calls no handler that was registered before the one
of the verifier; and when the handler of the verifier is the one registered last, it is the
only handler called. -/
theorem verifier_handler_claims_diagnostic (P : ValuePrinter) (env : VerifierEnv)
    (senv : SourceMgrEnv)
    (ctx : DiagnosticEngine (SourceMgrDiagnosticVerifierHandler × List SMOutput))
    (diag : Diagnostic) (s : SourceMgrDiagnosticVerifierHandler × List SMOutput) :
    DiagnosticEngine.voidHandler
        (SourceMgrDiagnosticVerifierHandler.registerInContext.lambda P env senv) diag s
      = (LogicalResult.success, diag,
          (diag :: diag.getNotes).foldl
            (SourceMgrDiagnosticVerifierHandler.registerInContext.process P env senv) s) ∧
    ((∀ note ∈ diag.getNotes, note.getSeverity = DiagnosticSeverity.Note) →
      ((diag :: diag.getNotes).foldl
          (SourceMgrDiagnosticVerifierHandler.registerInContext.process P env senv) s).1
        = s.1.run P env senv
            (VerifierOp.process diag.getLocation (diag.str P) diag.getSeverity ::
              diag.getNotes.map (fun note =>
                VerifierOp.process note.getLocation (note.str P) DiagnosticSeverity.Note))) ∧
    (∀ (before after : List (HandlerID ×
          HandlerTy (SourceMgrDiagnosticVerifierHandler × List SMOutput))) (id : HandlerID),
      ctx.impl.handlers.entries
        = before ++ (id, DiagnosticEngine.voidHandler
            (SourceMgrDiagnosticVerifierHandler.registerInContext.lambda P env senv)) :: after →
      (ctx.impl.emit P diag s).handled = true ∧
      (ctx.impl.emit P diag s).errs = "" ∧
      (∀ id1 ∈ before.map Prod.fst, id1 ∉ (ctx.impl.emit P diag s).calls.map Prod.fst) ∧
      (after = [] →
        (ctx.impl.emit P diag s).calls = [(id, LogicalResult.success)] ∧
        (ctx.impl.emit P diag s).diag = diag ∧
        (ctx.impl.emit P diag s).state
          = (diag :: diag.getNotes).foldl
              (SourceMgrDiagnosticVerifierHandler.registerInContext.process P env senv) s)) := by
  refine ⟨rfl, ?_, ?_⟩
  · intro hnotes
    rw [SourceMgrDiagnosticVerifierHandler.registerInContext_process_run, List.map_cons]
    congr 2
    apply List.map_congr_left
    intro note hn
    rw [hnotes note hn]
  · intro before after id hreg
    have hrev : ctx.impl.handlers.entries.reverse
        = after.reverse ++ (id, DiagnosticEngine.voidHandler
            (SourceMgrDiagnosticVerifierHandler.registerInContext.lambda P env senv)) ::
            before.reverse := by
      rw [hreg]; simp
    obtain ⟨hw1, hw2⟩ := walkHandlers_always
      (id, DiagnosticEngine.voidHandler
        (SourceMgrDiagnosticVerifierHandler.registerInContext.lambda P env senv))
      (fun _ _ => rfl) before.reverse after.reverse diag s
    rw [← hrev] at hw1 hw2
    have hemit := DiagnosticEngineImpl.emit_of_handled P ctx.impl diag s hw1
    rw [hemit]
    refine ⟨hw1, walkHandlers_errs _ diag s, ?_, ?_⟩
    · intro id1 hid1 hmem
      obtain ⟨c, hc, hc1⟩ := List.mem_map.mp hmem
      have hin := hw2 c hc
      rw [hc1] at hin
      have hnodup := ctx.impl.handlers.nodup
      rw [hreg, List.map_append, List.map_cons] at hnodup
      have hdisj := (List.nodup_append.mp hnodup).2.2
      apply hdisj hid1
      simp only [List.map_append, List.map_reverse, List.map_cons, List.map_nil,
        List.mem_append, List.mem_reverse, List.mem_singleton] at hin
      simp only [List.mem_cons]
      rcases hin with h | h
      · exact Or.inr h
      · exact Or.inl h
    · intro hafter
      subst hafter
      have hwalk : walkHandlers ctx.impl.handlers.entries.reverse diag s
          = ⟨true, diag, (diag :: diag.getNotes).foldl
              (SourceMgrDiagnosticVerifierHandler.registerInContext.process P env senv) s,
              [(id, LogicalResult.success)], ""⟩ := by
        rw [hrev]
        simp [walkHandlers, DiagnosticEngine.voidHandler, succeeded,
          SourceMgrDiagnosticVerifierHandler.registerInContext.lambda]
      rw [hwalk]
      exact ⟨rfl, rfl, rfl⟩

set_option maxRecDepth 100000 in
/-- Witness of C38: in an engine with a handler that handles everything and, registered after
it, the handler of the verifier built on `// expected-error {{cannot find 'foo'}}`, the
emission of the error "cannot find 'foo'" at foo.mlir:1:1 with one note calls the handler of
the verifier alone; the error marks the expected diagnostic, the note is reported as
unexpected. -/
theorem verifier_handler_claims_diagnostic_witness :
    (Example.engineVerifier.impl.emit Example.printer Example.diagFoo
      (Example.verifier Level.All [Example.bufFoo], [])).calls = [(2, LogicalResult.success)] ∧
    ((Example.engineVerifier.impl.emit Example.printer Example.diagFoo
      (Example.verifier Level.All [Example.bufFoo], [])).state.1.impl.expectedDiagsPerFile
        = [("foo.mlir",
            [⟨DiagnosticSeverity.Error, 1, some 3, true, "cannot find 'foo'", none⟩])]) ∧
    ((Example.engineVerifier.impl.emit Example.printer Example.diagFoo
      (Example.verifier Level.All [Example.bufFoo], [])).state.2.map SMOutput.msg
        = ["unexpected note: see"]) :=
  have h := ((verifier_handler_claims_diagnostic Example.printer Example.env Example.senv
    Example.engineVerifier Example.diagFoo
    (Example.verifier Level.All [Example.bufFoo], [])).2.2
      [(1, Example.acceptAll)] [] 2 rfl).2.2.2 rfl
  ⟨h.1, by rw [h.2.2]; decide, by rw [h.2.2]; decide⟩

/-! ## Lemmas on what `process` changes -/

/-- A list with an element that has a property splits at the first such element. -/
theorem List.exists_first_split {α : Type} (p : α → Prop) (l : List α)
    (h : ∃ x ∈ l, p x) :
    ∃ before e after, l = before ++ e :: after ∧ p e ∧ ∀ x ∈ before, ¬ p x := by
  classical
  induction l with
  | nil => obtain ⟨x, hx, _⟩ := h; cases hx
  | cons a rest ih =>
    by_cases ha : p a
    · exact ⟨[], a, rest, rfl, ha, by simp⟩
    · obtain ⟨x, hx, hpx⟩ := h
      have hrest : ∃ x ∈ rest, p x := by
        rcases List.mem_cons.mp hx with h1 | h1
        · subst h1; exact absurd hpx ha
        · exact ⟨x, h1, hpx⟩
      obtain ⟨before, e, after, hl, he, hb⟩ := ih hrest
      refine ⟨a :: before, e, after, by rw [hl]; rfl, he, ?_⟩
      intro y hy
      rcases List.mem_cons.mp hy with h1 | h1
      · subst h1; exact ha
      · exact hb y h1

namespace DenseMap

variable {K V : Type} [DecidableEq K]

theorem get?_update_of_ne (m : DenseMap K V) (k k2 : K) (v : V) (h : k2 ≠ k) :
    get? (update m k v) k2 = get? m k2 := by
  induction m with
  | nil => rfl
  | cons e rest ih =>
    obtain ⟨k1, v1⟩ := e
    by_cases hk : k1 = k
    · have hk2 : ¬ k = k2 := fun e => h e.symm
      subst hk
      simp [update, get?, hk2]
    · simp only [update, hk, if_false, get?, ih]

end DenseMap

namespace SourceMgrDiagnosticVerifierHandlerImpl

/-- A scan leaves the expected diagnostics that exist before it as they are. -/
theorem computeExpectedDiags_expectationAt (env : VerifierEnv)
    (self : SourceMgrDiagnosticVerifierHandlerImpl) (buf : Option MemoryBuffer)
    (ref : DiagsRef) (i : Nat) (e : ExpectedDiag)
    (h : self.expectationAt ref i = some e) :
    (computeExpectedDiags env self buf).1.expectationAt ref i = some e := by
  cases buf with
  | none => exact h
  | some b =>
    cases ref with
    | empty => exact h
    | unknownLoc =>
      obtain ⟨added, fails, printed, hall⟩ :=
        scanLines_frame env (StringRef.split '\n' b.buffer.data).length
          (StringRef.split '\n' b.buffer.data) 0 0
      simp only [expectationAt, readDiags] at h ⊢
      simp only [computeExpectedDiags]
      rw [(hall _).1]
      have hlt : i < self.expectedUnknownLocDiags.length := by
        by_contra hge
        rw [List.getElem?_eq_none (by omega)] at h
        cases h
      rw [List.getElem?_append_left hlt]
      exact h
    | perFile bufName =>
      simp only [expectationAt, readDiags] at h ⊢
      by_cases hn : bufName = b.bufferIdentifier
      · subst hn
        simp only [computeExpectedDiags, DenseMap.get?_set_self, Option.getD_some]
        have hlt : i < ((self.expectedDiagsPerFile.get? b.bufferIdentifier).getD []).length := by
          by_contra hge
          rw [List.getElem?_eq_none (by omega)] at h
          cases h
        have hinv : ScanState.Inv ⟨(self.expectedDiagsPerFile.get? b.bufferIdentifier).getD [],
            self.expectedUnknownLocDiags, self.status, 0, [], []⟩ := by
          intro j hj; cases hj
        obtain ⟨-, hkeep⟩ := scanLines_settled env (StringRef.split '\n' b.buffer.data).length
          (StringRef.split '\n' b.buffer.data) 0 0 _ hinv
        rw [(hkeep i ⟨hlt, by simp⟩).2]
        exact h
      · simp only [computeExpectedDiags]
        rw [DenseMap.get?_set_of_ne _ _ _ _ hn]
        exact h

/-- What can be read at an index after one element of a collection has been written. -/
theorem writeDiags_expectationAt (self : SourceMgrDiagnosticVerifierHandlerImpl)
    (ref0 : DiagsRef) (before after : List ExpectedDiag) (e e1 : ExpectedDiag)
    (hread : self.readDiags ref0 = before ++ e :: after) (ref : DiagsRef) (i : Nat) :
    (self.writeDiags ref0 (before ++ e1 :: after)).expectationAt ref i
      = if ref = ref0 ∧ i = before.length then some e1 else self.expectationAt ref i := by
  have hsame : (self.writeDiags ref0 (before ++ e1 :: after)).readDiags ref0
      = before ++ e1 :: after := by
    cases ref0 with
    | empty => simp [readDiags] at hread
    | unknownLoc => rfl
    | perFile bufName =>
      simp only [readDiags] at hread
      cases hg : self.expectedDiagsPerFile.get? bufName with
      | none => rw [hg] at hread; simp at hread
      | some d =>
        simp only [writeDiags, readDiags]
        rw [DenseMap.get?_update_self _ _ _ _ hg]
        rfl
  have hother : ∀ ref, ref ≠ ref0 →
      (self.writeDiags ref0 (before ++ e1 :: after)).readDiags ref = self.readDiags ref := by
    intro ref hne
    cases ref0 with
    | empty => rfl
    | unknownLoc =>
      cases ref with
      | empty => rfl
      | unknownLoc => exact absurd rfl hne
      | perFile name => rfl
    | perFile bufName =>
      cases ref with
      | empty => rfl
      | unknownLoc => rfl
      | perFile name =>
        have hn : name ≠ bufName := fun h => hne (by rw [h])
        simp only [writeDiags, readDiags]
        rw [DenseMap.get?_update_of_ne _ _ _ _ hn]
  by_cases href : ref = ref0
  · subst href
    simp only [expectationAt, hsame, hread, true_and]
    by_cases hi : i = before.length
    · subst hi
      simp only [and_self, if_true]
      rw [List.getElem?_append_right (Nat.le_refl _), Nat.sub_self]
      exact List.getElem?_cons_zero
    · simp only [hi, if_false]
      rcases Nat.lt_or_gt_of_ne hi with hlt | hgt
      · rw [List.getElem?_append_left hlt, List.getElem?_append_left hlt]
      · rw [List.getElem?_append_right (by omega), List.getElem?_append_right (by omega)]
        obtain ⟨k, hk⟩ : ∃ k, i - before.length = k + 1 := ⟨i - before.length - 1, by omega⟩
        rw [hk]
        rfl
  · simp only [expectationAt, hother ref href, href, false_and, if_false]

end SourceMgrDiagnosticVerifierHandlerImpl

namespace SourceMgrDiagnosticVerifierHandler

/-- Finding the array `diags` leaves the expected diagnostics that exist before it as they
are. -/
theorem getDiags_expectationAt (env : VerifierEnv) (senv : SourceMgrEnv)
    (self : SourceMgrDiagnosticVerifierHandler) (fileLoc : Option (String × Nat × Nat))
    (ref : DiagsRef) (i : Nat) (e : ExpectedDiag)
    (h : self.impl.expectationAt ref i = some e) :
    (getDiags env senv self fileLoc).1.impl.expectationAt ref i = some e := by
  cases fileLoc with
  | none => exact h
  | some f =>
    obtain ⟨filename, line, column⟩ := f
    simp only [getDiags]
    cases hg : self.impl.getExpectedDiags filename with
    | some d => exact h
    | none =>
      exact SourceMgrDiagnosticVerifierHandlerImpl.computeExpectedDiags_expectationAt env _ _
        ref i e h

/-- The loop of `process` leaves the elements as they are, or it returns from `process` and
has marked one element. -/
theorem processLoop_cases (env : VerifierEnv) (fileLine : Option Nat) (msg : String)
    (kind : DiagnosticSeverity) (diags : List ExpectedDiag) :
    ∀ nearMiss : Option ExpectedDiag,
      ((processLoop env fileLine msg kind diags nearMiss).2.1 = false ∧
        (processLoop env fileLine msg kind diags nearMiss).1 = diags) ∨
      ((processLoop env fileLine msg kind diags nearMiss).2.1 = true ∧
        ∃ before e after, diags = before ++ e :: after ∧
          (processLoop env fileLine msg kind diags nearMiss).1
            = before ++ { e with matched := true } :: after) := by
  induction diags with
  | nil => intro nearMiss; exact Or.inl ⟨rfl, rfl⟩
  | cons a rest ih =>
    intro nearMiss
    have hstep : ∀ nm, 
        ((processLoop env fileLine msg kind rest nm).2.1 = false ∧
          a :: (processLoop env fileLine msg kind rest nm).1 = a :: rest) ∨
        ((processLoop env fileLine msg kind rest nm).2.1 = true ∧
          ∃ before e after, a :: rest = before ++ e :: after ∧
            a :: (processLoop env fileLine msg kind rest nm).1
              = before ++ { e with matched := true } :: after) := by
      intro nm
      rcases ih nm with ⟨h1, h2⟩ | ⟨h1, before, e, after, h2, h3⟩
      · exact Or.inl ⟨h1, by rw [h2]⟩
      · exact Or.inr ⟨h1, a :: before, e, after, by rw [h2]; rfl, by rw [h3]; rfl⟩
    simp only [processLoop]
    split_ifs with hline hmatch hkind
    · exact hstep nearMiss
    · exact Or.inr ⟨rfl, [], a, rest, rfl, rfl⟩
    · exact hstep (some a)
    · exact hstep nearMiss

end SourceMgrDiagnosticVerifierHandler

namespace SourceMgrDiagnosticVerifierHandler

/-- What `process` does to the collections: after the array `diags` has been found, they are
left as they are, or one element of the array is marked. -/
theorem process_collections (P : ValuePrinter) (env : VerifierEnv) (senv : SourceMgrEnv)
    (self : SourceMgrDiagnosticVerifierHandler) (loc : Location) (msg : String)
    (kind : DiagnosticSeverity) :
    (∀ ref, (self.process P env senv loc msg kind).1.impl.readDiags ref
        = (getDiags env senv self loc.findInstanceOf).1.impl.readDiags ref) ∨
    ∃ before e after,
      (getDiags env senv self loc.findInstanceOf).1.impl.readDiags
          (getDiags env senv self loc.findInstanceOf).2.1 = before ++ e :: after ∧
      (self.process P env senv loc msg kind).1.impl
        = (getDiags env senv self loc.findInstanceOf).1.impl.writeDiags
            (getDiags env senv self loc.findInstanceOf).2.1
            (before ++ { e with matched := true } :: after) := by
  rcases hg : getDiags env senv self loc.findInstanceOf with ⟨self1, ref0, printed1⟩
  simp only [process, hg]
  have hc := processLoop_cases env (loc.findInstanceOf.map (fun fileLoc => fileLoc.2.1)) msg
    kind (self1.impl.readDiags ref0) none
  rcases hl : processLoop env (loc.findInstanceOf.map (fun fileLoc => fileLoc.2.1)) msg kind
    (self1.impl.readDiags ref0) none with ⟨diags1, returned, nearMiss⟩
  rw [hl] at hc
  simp only at hc
  cases returned with
  | true =>
    rcases hc with ⟨h1, -⟩ | ⟨-, before, e, after, h2, h3⟩
    · cases h1
    · right
      rw [hl]
      exact ⟨before, e, after, h2, by rw [h3]⟩
  | false =>
    left
    rw [hl]
    intro ref
    show (if self1.impl.level = Level.OnlyExpected then (self1, printed1) else _).1.impl.readDiags
      ref = _
    split_ifs
    · rfl
    · cases nearMiss <;> cases ref <;> rfl

end SourceMgrDiagnosticVerifierHandler

/-- C39: for every verifier and every diagnostic, `process` leaves every expected diagnostic
that exists before the call in its place with its kind, line number, text, pattern and offset,
and with its mark as it was or changed from false to true; at most one of them, the one at
the index `i0` of the collection `ref0`, is changed at all; and a status that is failure
before the call is failure after it. -/
theorem process_frame (P : ValuePrinter) (env : VerifierEnv) (senv : SourceMgrEnv)
    (self : SourceMgrDiagnosticVerifierHandler) (loc : Location) (msg : String)
    (kind : DiagnosticSeverity) :
    (∃ (ref0 : DiagsRef) (i0 : Nat), ∀ (ref : DiagsRef) (i : Nat) (e : ExpectedDiag),
      self.impl.expectationAt ref i = some e →
      ∃ e1, (self.process P env senv loc msg kind).1.impl.expectationAt ref i = some e1 ∧
        e1.kind = e.kind ∧ e1.lineNo = e.lineNo ∧ e1.substring = e.substring ∧
        e1.substringRegex = e.substringRegex ∧ e1.fileLoc = e.fileLoc ∧
        (e1.matched = e.matched ∨ (e.matched = false ∧ e1.matched = true)) ∧
        (¬ (ref = ref0 ∧ i = i0) → e1 = e)) ∧
    (self.impl.status = LogicalResult.failure →
      (self.process P env senv loc msg kind).1.impl.status = LogicalResult.failure) := by
  refine ⟨?_, SourceMgrDiagnosticVerifierHandler.process_status P env senv self loc msg kind⟩
  have hmid := SourceMgrDiagnosticVerifierHandler.getDiags_expectationAt env senv self
    loc.findInstanceOf
  rcases SourceMgrDiagnosticVerifierHandler.process_collections P env senv self loc msg kind
    with hsame | ⟨before, e0, after, hread, himpl⟩
  · refine ⟨DiagsRef.empty, 0, fun ref i e he => ⟨e, ?_, rfl, rfl, rfl, rfl, rfl, Or.inl rfl,
      fun _ => rfl⟩⟩
    have := hmid ref i e he
    simp only [SourceMgrDiagnosticVerifierHandlerImpl.expectationAt] at this ⊢
    rw [hsame ref]
    exact this
  · refine ⟨(SourceMgrDiagnosticVerifierHandler.getDiags env senv self loc.findInstanceOf).2.1,
      before.length, fun ref i e he => ?_⟩
    have hm := hmid ref i e he
    rw [himpl, SourceMgrDiagnosticVerifierHandlerImpl.writeDiags_expectationAt _ _ _ _ _ _
      hread]
    by_cases hc : ref = (SourceMgrDiagnosticVerifierHandler.getDiags env senv self
        loc.findInstanceOf).2.1 ∧ i = before.length
    · rw [if_pos hc]
      have he0 : e = e0 := by
        simp only [SourceMgrDiagnosticVerifierHandlerImpl.expectationAt] at hm
        rw [hc.1, hc.2, hread, List.getElem?_append_right (Nat.le_refl _), Nat.sub_self,
          List.getElem?_cons_zero] at hm
        exact (Option.some.inj hm).symm
      subst he0
      refine ⟨_, rfl, rfl, rfl, rfl, rfl, rfl, ?_, fun h => absurd hc h⟩
      cases hmt : e.matched with
      | true => exact Or.inl rfl
      | false => exact Or.inr ⟨rfl, rfl⟩
    · rw [if_neg hc]
      exact ⟨e, hm, rfl, rfl, rfl, rfl, rfl, Or.inl rfl, fun _ => rfl⟩

namespace SourceMgrDiagnosticVerifierHandler

/-- After an element of the array `diags` that `process` has found has been written, a second
search for the array of the same location finds the same array without a scan, provided the
buffer found for a file that was scanned carries the name of the file. -/
theorem getDiags_after_write (env : VerifierEnv) (senv : SourceMgrEnv)
    (self : SourceMgrDiagnosticVerifierHandler) (fileLoc : Option (String × Nat × Nat))
    (v : List ExpectedDiag)
    (hname : ∀ filename line column buf, fileLoc = some (filename, line, column) →
      self.impl.getExpectedDiags filename = none →
      (self.base.getBufferForFile senv filename).1 = some buf →
      buf.bufferIdentifier = filename)
    (hne : (getDiags env senv self fileLoc).1.impl.readDiags
      (getDiags env senv self fileLoc).2.1 ≠ []) :
    getDiags env senv
        { (getDiags env senv self fileLoc).1 with
          impl := (getDiags env senv self fileLoc).1.impl.writeDiags
            (getDiags env senv self fileLoc).2.1 v } fileLoc
      = ({ (getDiags env senv self fileLoc).1 with
            impl := (getDiags env senv self fileLoc).1.impl.writeDiags
              (getDiags env senv self fileLoc).2.1 v },
          (getDiags env senv self fileLoc).2.1, []) ∧
    ((getDiags env senv self fileLoc).1.impl.writeDiags
      (getDiags env senv self fileLoc).2.1 v).readDiags (getDiags env senv self fileLoc).2.1
        = v := by
  cases fileLoc with
  | none => exact ⟨rfl, rfl⟩
  | some f =>
    obtain ⟨filename, line, column⟩ := f
    cases hc : self.impl.getExpectedDiags filename with
    | some d =>
      rw [getDiags_cached env senv self filename line column d hc]
      have hget : (self.impl.writeDiags (DiagsRef.perFile filename) v).getExpectedDiags filename
          = some v := DenseMap.get?_update_self _ _ _ _ hc
      refine ⟨getDiags_cached env senv _ filename line column v hget, ?_⟩
      show (DenseMap.get? _ filename).getD [] = v
      rw [show DenseMap.get? (self.impl.writeDiags (DiagsRef.perFile filename)
        v).expectedDiagsPerFile filename = some v from hget]
      rfl
    | none =>
      rcases hb : self.base.getBufferForFile senv filename with ⟨buf, base1⟩
      cases buf with
      | none =>
        have hG : getDiags env senv self (some (filename, line, column))
            = (⟨base1, (self.impl.computeExpectedDiags env none).1⟩, DiagsRef.empty,
                (self.impl.computeExpectedDiags env none).2.2.map SMOutput.PrintMessage) := by
          simp only [getDiags, hc, hb]
        rw [hG] at hne
        exact absurd rfl hne
      | some b =>
        have hG : getDiags env senv self (some (filename, line, column))
            = (⟨base1, (self.impl.computeExpectedDiags env (some b)).1⟩,
                DiagsRef.perFile b.bufferIdentifier,
                (self.impl.computeExpectedDiags env (some b)).2.2.map
                  SMOutput.PrintMessage) := by
          simp only [getDiags, hc, hb]
        rw [hG]
        have hid : b.bufferIdentifier = filename :=
          hname filename line column b rfl hc (by rw [hb])
        simp only
        rw [hid]
        have hget0 : (self.impl.computeExpectedDiags env (some b)).1.getExpectedDiags filename
            = some (self.impl.computeExpectedDiags env (some b)).2.1 := by
          simp only [SourceMgrDiagnosticVerifierHandlerImpl.computeExpectedDiags,
            SourceMgrDiagnosticVerifierHandlerImpl.getExpectedDiags, hid]
          exact DenseMap.get?_set_self _ _ _
        have hget : (((self.impl.computeExpectedDiags env (some b)).1.writeDiags
            (DiagsRef.perFile filename) v)).getExpectedDiags filename = some v :=
          DenseMap.get?_update_self _ _ _ _ hget0
        refine ⟨getDiags_cached env senv _ filename line column v hget, ?_⟩
        show (DenseMap.get? _ filename).getD [] = v
        rw [show DenseMap.get? ((self.impl.computeExpectedDiags env (some b)).1.writeDiags
          (DiagsRef.perFile filename) v).expectedDiagsPerFile filename = some v from hget]
        rfl

end SourceMgrDiagnosticVerifierHandler

/-- An expected diagnostic that is marked stays a candidate. For every verifier and every
diagnostic for which the array that `process` finds holds a candidate of the kind of the
diagnostic (an exact match), provided that a buffer which `process` has to scan for the file
of the diagnostic carries the name of that file: `process` on the same diagnostic a second
time leaves the whole verifier as the first call has left it, status and marks included, and
writes nothing. -/
theorem process_twice (P : ValuePrinter) (env : VerifierEnv) (senv : SourceMgrEnv)
    (self : SourceMgrDiagnosticVerifierHandler) (loc : Location) (msg : String)
    (kind : DiagnosticSeverity)
    (hname : ∀ filename line column buf, loc.findInstanceOf = some (filename, line, column) →
      self.impl.getExpectedDiags filename = none →
      (self.base.getBufferForFile senv filename).1 = some buf →
      buf.bufferIdentifier = filename)
    (hhit : ∃ e ∈ (SourceMgrDiagnosticVerifierHandler.getDiags env senv self
          loc.findInstanceOf).1.impl.readDiags
        (SourceMgrDiagnosticVerifierHandler.getDiags env senv self loc.findInstanceOf).2.1,
      e.isCandidate env (loc.findInstanceOf.map (fun fileLoc => fileLoc.2.1)) msg = true ∧
        e.kind = kind) :
    (self.process P env senv loc msg kind).1.process P env senv loc msg kind
      = ((self.process P env senv loc msg kind).1, []) := by
  obtain ⟨before, e, after, hsplit, ⟨he, hk⟩, hbefore⟩ := List.exists_first_split
    (fun x : ExpectedDiag =>
      x.isCandidate env (loc.findInstanceOf.map (fun fileLoc => fileLoc.2.1)) msg = true ∧
        x.kind = kind) _ hhit
  have hb : ∀ x ∈ before,
      x.isCandidate env (loc.findInstanceOf.map (fun fileLoc => fileLoc.2.1)) msg = true →
        x.kind ≠ kind := fun x hx hc hkx => hbefore x hx ⟨hc, hkx⟩
  have h1 := SourceMgrDiagnosticVerifierHandler.process_of_hit P env senv self loc msg kind
    before after e hsplit hb he hk
  have hne : (SourceMgrDiagnosticVerifierHandler.getDiags env senv self
      loc.findInstanceOf).1.impl.readDiags
        (SourceMgrDiagnosticVerifierHandler.getDiags env senv self loc.findInstanceOf).2.1
      ≠ [] := by
    rw [hsplit]; simp
  obtain ⟨hG2, hread2⟩ := SourceMgrDiagnosticVerifierHandler.getDiags_after_write env senv
    self loc.findInstanceOf (before ++ { e with matched := true } :: after) hname hne
  rw [h1]
  simp only
  have h2 := SourceMgrDiagnosticVerifierHandler.process_of_hit P env senv _ loc msg kind
    before after { e with matched := true } (by rw [hG2]; exact hread2) hb
    (by rw [← he]; rfl) hk
  rw [h2, hG2]
  simp only
  have hw := SourceMgrDiagnosticVerifierHandlerImpl.writeDiags_readDiags
    ((SourceMgrDiagnosticVerifierHandler.getDiags env senv self
      loc.findInstanceOf).1.impl.writeDiags
        (SourceMgrDiagnosticVerifierHandler.getDiags env senv self loc.findInstanceOf).2.1
        (before ++ { e with matched := true } :: after))
    (SourceMgrDiagnosticVerifierHandler.getDiags env senv self loc.findInstanceOf).2.1
  rw [hread2] at hw
  rw [hw]

set_option maxRecDepth 100000 in
/-- An instance of `process_twice`: a verifier that has not scanned foo.mlir yet gets the error
"cannot find 'foo'" at foo.mlir:1:1 twice: the first call scans the buffer and marks the
expected diagnostic, the second call changes nothing and writes nothing. -/
theorem process_twice_witness :
    (Example.verifierLazy.process Example.printer Example.env Example.senv
        (Location.FileLineColLoc "foo.mlir" 1 1) "cannot find 'foo'"
        DiagnosticSeverity.Error).1.impl.expectedDiagsPerFile
      = [("foo.mlir",
          [⟨DiagnosticSeverity.Error, 1, some 3, true, "cannot find 'foo'", none⟩])] ∧
    (Example.verifierLazy.process Example.printer Example.env Example.senv
        (Location.FileLineColLoc "foo.mlir" 1 1) "cannot find 'foo'"
        DiagnosticSeverity.Error).1.process Example.printer Example.env Example.senv
        (Location.FileLineColLoc "foo.mlir" 1 1) "cannot find 'foo'" DiagnosticSeverity.Error
      = ((Example.verifierLazy.process Example.printer Example.env Example.senv
          (Location.FileLineColLoc "foo.mlir" 1 1) "cannot find 'foo'"
          DiagnosticSeverity.Error).1, []) :=
  ⟨by decide,
    process_twice Example.printer Example.env Example.senv Example.verifierLazy
      (Location.FileLineColLoc "foo.mlir" 1 1) "cannot find 'foo'" DiagnosticSeverity.Error
      (by
        intro filename line column buf h1 _ h3
        simp only [Location.findInstanceOf, Option.some.injEq, Prod.mk.injEq] at h1
        obtain ⟨hf, -, -⟩ := h1
        subst hf
        have hbuf : (Example.verifierLazy.base.getBufferForFile Example.senv "foo.mlir").1
            = some Example.bufFoo := by decide
        rw [hbuf] at h3
        cases h3
        rfl)
      ⟨⟨DiagnosticSeverity.Error, 1, some 3, false, "cannot find 'foo'", none⟩,
        by decide, by decide, rfl⟩⟩

set_option maxRecDepth 100000 in
/-- Witness of C36: the verifier built on the one line
`// expected-error {{cannot find 'foo'}}`, whose annotation starts at the offset 3. -/
theorem verify_reports_unmatched_witness :
    (Example.verifier Level.All [Example.bufFoo]).verify.2.2
      = [SMOutput.PrintMessage ⟨some 3, DiagKind.DK_Error,
          "expected error \"cannot find 'foo'\" was not produced",
          some (some 3, some 20)⟩] :=
  (verify_reports_unmatched (Example.verifier Level.All [Example.bufFoo])).1.trans
    (by decide)

set_option maxRecDepth 100000 in
/-- Witness of C39: on the verifier built on the two lines of `bufUnterminatedThen`, whose
status is failure, the warning of line 2 marks the one expected diagnostic and the status
stays failure. -/
theorem process_frame_witness :
    (Example.verifier Level.All [Example.bufUnterminatedThen]).impl.status
      = LogicalResult.failure ∧
    ((Example.verifier Level.All [Example.bufUnterminatedThen]).process Example.printer
      Example.env Example.senv (Location.FileLineColLoc "re2.mlir" 2 1) "w"
      DiagnosticSeverity.Warning).1.impl.status = LogicalResult.failure :=
  ⟨by decide,
    (process_frame Example.printer Example.env Example.senv
      (Example.verifier Level.All [Example.bufUnterminatedThen])
      (Location.FileLineColLoc "re2.mlir" 2 1) "w" DiagnosticSeverity.Warning).2
        (by decide)⟩

set_option maxRecDepth 100000 in
/-- Witness of C40: the verifier built on `// expected-error@unknown {{m}}` returns failure
from both calls of `verify`. -/
theorem verify_twice_witness :
    (Example.verifier Level.All [Example.bufUnknown]).verify.1 = LogicalResult.failure ∧
    (Example.verifier Level.All [Example.bufUnknown]).verify.2.1.verify.1
      = LogicalResult.failure :=
  ⟨by decide,
    (verify_twice (Example.verifier Level.All [Example.bufUnknown])).1.trans (by decide)⟩

/-! ## Lemmas on the marks that a scan and `process` leave -/

namespace SourceMgrDiagnosticVerifierHandlerImpl

/-- Setting line numbers leaves the marks as they are. -/
theorem setLineNos_matched (lineNo : Nat) (idxs : List Nat) :
    ∀ l : List ExpectedDiag,
      (setLineNos lineNo idxs l).map (fun e => e.matched) = l.map (fun e => e.matched) := by
  induction idxs with
  | nil => intro l; rfl
  | cons i rest ih =>
    intro l
    simp only [setLineNos]
    rw [ih]
    apply List.ext_getElem?
    intro k
    simp only [List.getElem?_map, List.getElem?_modify]
    by_cases hik : i = k
    · simp only [hik, if_true]
      cases l[k]? <;> rfl
    · simp [hik]

/-- A round of the scan leaves the marks of the expected diagnostics as they are and appends
expected diagnostics that are not marked. -/
theorem scanLine_matched (env : VerifierEnv) (e lineNo lineStart : Nat) (line : List Char)
    (st : ScanState) :
    (∃ k, (scanLine env e lineNo lineStart line st).expectedDiags.map (fun e => e.matched)
        = st.expectedDiags.map (fun e => e.matched) ++ List.replicate k false) ∧
    (∃ k, (scanLine env e lineNo lineStart line st).expectedUnknownLocDiags.map
          (fun e => e.matched)
        = st.expectedUnknownLocDiags.map (fun e => e.matched) ++ List.replicate k false) := by
  cases hm : env.expected (String.mk (StringRef.rtrim line)) with
  | none =>
    simp only [scanLine, hm]
    exact ⟨⟨0, by rw [setLineNos_matched]; simp⟩, ⟨0, by simp⟩⟩
  | some ms =>
    have hrec := (makeRecord_fields env lineNo lineStart ms).2.2.2.1
    rcases hmk : makeRecord env lineNo lineStart ms with ⟨result, record, printed⟩
    rw [hmk] at hrec
    simp only at hrec
    simp only [scanLine, hm, hmk, applyDesignator]
    split_ifs
    all_goals first
      | (refine ⟨⟨0, ?_⟩, ⟨0, ?_⟩⟩ <;> solve | simp)
      | (refine ⟨⟨1, ?_⟩, ⟨0, ?_⟩⟩ <;> solve | simp [hrec])
      | (refine ⟨⟨0, ?_⟩, ⟨1, ?_⟩⟩ <;> solve | simp [hrec])

theorem scanLines_matched (env : VerifierEnv) (e : Nat) (lines : List (List Char)) :
    ∀ (lineNo lineStart : Nat) (st : ScanState),
      (∃ k, (scanLines env e lineNo lineStart lines st).expectedDiags.map (fun e => e.matched)
          = st.expectedDiags.map (fun e => e.matched) ++ List.replicate k false) ∧
      (∃ k, (scanLines env e lineNo lineStart lines st).expectedUnknownLocDiags.map
            (fun e => e.matched)
          = st.expectedUnknownLocDiags.map (fun e => e.matched) ++ List.replicate k false) := by
  induction lines with
  | nil => intro lineNo lineStart st; exact ⟨⟨0, by simp [scanLines]⟩, ⟨0, by simp [scanLines]⟩⟩
  | cons line rest ih =>
    intro lineNo lineStart st
    obtain ⟨⟨k1, h1⟩, ⟨k2, h2⟩⟩ := scanLine_matched env e lineNo lineStart line st
    obtain ⟨⟨k3, h3⟩, ⟨k4, h4⟩⟩ := ih (lineNo + 1) (lineStart + line.length + 1)
      (scanLine env e lineNo lineStart line st)
    simp only [scanLines]
    refine ⟨⟨k1 + k3, ?_⟩, ⟨k2 + k4, ?_⟩⟩
    · rw [h3, h1, List.append_assoc, List.replicate_add]
    · rw [h4, h2, List.append_assoc, List.replicate_add]

/-- A scan leaves the marks of the expected diagnostics of every collection as they are and
appends expected diagnostics that are not marked. -/
theorem computeExpectedDiags_matched (env : VerifierEnv)
    (self : SourceMgrDiagnosticVerifierHandlerImpl) (buf : Option MemoryBuffer)
    (ref : DiagsRef) :
    ∃ k, ((computeExpectedDiags env self buf).1.readDiags ref).map (fun e => e.matched)
      = (self.readDiags ref).map (fun e => e.matched) ++ List.replicate k false := by
  cases buf with
  | none => exact ⟨0, by simp [computeExpectedDiags]⟩
  | some b =>
    obtain ⟨⟨k1, h1⟩, ⟨k2, h2⟩⟩ := scanLines_matched env (StringRef.split '\n' b.buffer.data).length
      (StringRef.split '\n' b.buffer.data) 0 0
      ⟨(self.expectedDiagsPerFile.get? b.bufferIdentifier).getD [],
        self.expectedUnknownLocDiags, self.status, 0, [], []⟩
    cases ref with
    | empty => exact ⟨0, by simp [readDiags]⟩
    | unknownLoc => exact ⟨k2, h2⟩
    | perFile bufName =>
      by_cases hn : bufName = b.bufferIdentifier
      · subst hn
        refine ⟨k1, ?_⟩
        simp only [readDiags, computeExpectedDiags, DenseMap.get?_set_self, Option.getD_some]
        exact h1
      · refine ⟨0, ?_⟩
        simp only [readDiags, computeExpectedDiags]
        rw [DenseMap.get?_set_of_ne _ _ _ _ hn]
        simp

/-- Reading the collection that has just been written. -/
theorem readDiags_writeDiags (self : SourceMgrDiagnosticVerifierHandlerImpl) (ref : DiagsRef)
    (v : List ExpectedDiag) (hne : self.readDiags ref ≠ []) :
    (self.writeDiags ref v).readDiags ref = v := by
  cases ref with
  | empty => exact absurd rfl hne
  | unknownLoc => rfl
  | perFile bufName =>
    simp only [readDiags] at hne
    cases hg : self.expectedDiagsPerFile.get? bufName with
    | none => rw [hg] at hne; exact absurd rfl hne
    | some d =>
      simp only [writeDiags, readDiags]
      rw [DenseMap.get?_update_self _ _ _ _ hg]
      rfl

end SourceMgrDiagnosticVerifierHandlerImpl

namespace SourceMgrDiagnosticVerifierHandler

/-- Finding the array `diags` leaves the marks of the expected diagnostics of every collection
as they are and appends expected diagnostics that are not marked. -/
theorem getDiags_matched (env : VerifierEnv) (senv : SourceMgrEnv)
    (self : SourceMgrDiagnosticVerifierHandler) (fileLoc : Option (String × Nat × Nat))
    (ref : DiagsRef) :
    ∃ k, ((getDiags env senv self fileLoc).1.impl.readDiags ref).map (fun e => e.matched)
      = (self.impl.readDiags ref).map (fun e => e.matched) ++ List.replicate k false := by
  cases fileLoc with
  | none => exact ⟨0, by simp [getDiags]⟩
  | some f =>
    obtain ⟨filename, line, column⟩ := f
    simp only [getDiags]
    cases hg : self.impl.getExpectedDiags filename with
    | some d => exact ⟨0, by simp⟩
    | none =>
      exact SourceMgrDiagnosticVerifierHandlerImpl.computeExpectedDiags_matched env _ _ ref

/-- Finding the array `diags` for a file whose expected diagnostics have not been computed:
the verifier afterwards and what was written are those of `computeExpectedDiags` on the buffer
found for the file. -/
theorem getDiags_lazy (env : VerifierEnv) (senv : SourceMgrEnv)
    (self : SourceMgrDiagnosticVerifierHandler) (filename : String) (line column : Nat)
    (h : self.impl.getExpectedDiags filename = none) :
    (getDiags env senv self (some (filename, line, column))).1.impl
      = (self.impl.computeExpectedDiags env (self.base.getBufferForFile senv filename).1).1 ∧
    (getDiags env senv self (some (filename, line, column))).2.2
      = (self.impl.computeExpectedDiags env
          (self.base.getBufferForFile senv filename).1).2.2.map SMOutput.PrintMessage := by
  refine ⟨?_, ?_⟩ <;> simp only [getDiags, h]

end SourceMgrDiagnosticVerifierHandler

/-! ## Claims on a diagnostic that an expected diagnostic matches -/

set_option maxRecDepth 100000 in
/-- C25, as stated, fails when `process` has to compute the expected diagnostics of the file.
The verifier of the level All was built on a source manager without buffers, and its status
is success; the buffer `re2.mlir` has been added to the source manager since. Its line 1 is an
annotation with `-re` that opens a regex block and does not close it, its line 2 is
`// expected-warning {{w}}`, so the collection of the file holds one expected diagnostic, a
warning on line 2 whose pattern matches w. `process` on a warning with the message w on
line 2 marks it, but leaves the status at failure and prints an error. -/
theorem first_match_counterexample :
    (Example.verifierAdded Level.All [Example.bufUnterminatedThen]).impl.status
      = LogicalResult.success ∧
    ((Example.verifierAdded Level.All [Example.bufUnterminatedThen]).impl.computeExpectedDiags
      Example.env (some Example.bufUnterminatedThen)).2.1
      = [⟨DiagnosticSeverity.Warning, 2, some 37, false, "w", none⟩] ∧
    (⟨DiagnosticSeverity.Warning, 2, some 37, false, "w", none⟩ : ExpectedDiag).isMatch
      Example.env "w" = true ∧
    ((Example.verifierAdded Level.All [Example.bufUnterminatedThen]).process Example.printer
      Example.env Example.senv (Location.FileLineColLoc "re2.mlir" 2 1) "w"
      DiagnosticSeverity.Warning).1.impl.getExpectedDiags "re2.mlir"
      = some [⟨DiagnosticSeverity.Warning, 2, some 37, true, "w", none⟩] ∧
    ((Example.verifierAdded Level.All [Example.bufUnterminatedThen]).process Example.printer
      Example.env Example.senv (Location.FileLineColLoc "re2.mlir" 2 1) "w"
      DiagnosticSeverity.Warning).1.impl.status = LogicalResult.failure ∧
    ((Example.verifierAdded Level.All [Example.bufUnterminatedThen]).process Example.printer
      Example.env Example.senv (Location.FileLineColLoc "re2.mlir" 2 1) "w"
      DiagnosticSeverity.Warning).2
      = [SMOutput.PrintMessage ⟨some 3, DiagKind.DK_Error,
          "found start of regex with no end '\x7d\x7d'", some (some 3, some 11)⟩] := by
  decide

/-- C25 (amended): let a diagnostic with the severity `kind` and the message `msg` have the
file location `filename:line:column`, and let the collection of that file, as `process` finds
it (computing it first when the file has not been scanned yet), be `before ++ e :: after`,
where `e` is on the line `line`, has the kind `kind` and a pattern that matches `msg`, and no
element of `before` is all of this. Then `process` marks `e` as matched and itself changes
nothing else and writes nothing: the verifier is the one that finding the collection left
with `e` marked, the status and what was written are those that finding the collection left.
When the expected diagnostics of the file have been computed before the call, that is the
verifier before the call, the status is unchanged and nothing is written; when `process` has
to compute them, the status and what is written are those of `computeExpectedDiags` on the
buffer found for the file. If then every expected diagnostic of every collection is marked
and the status after the call is success, `verify` returns success. -/
theorem process_marks_first_match (P : ValuePrinter) (env : VerifierEnv)
    (senv : SourceMgrEnv) (self : SourceMgrDiagnosticVerifierHandler) (loc : Location)
    (msg : String) (kind : DiagnosticSeverity) (filename : String) (line column : Nat)
    (before after : List ExpectedDiag) (e : ExpectedDiag)
    (hloc : loc.findInstanceOf = some (filename, line, column))
    (hdiags : (SourceMgrDiagnosticVerifierHandler.getDiags env senv self
          loc.findInstanceOf).1.impl.readDiags
        (SourceMgrDiagnosticVerifierHandler.getDiags env senv self loc.findInstanceOf).2.1
      = before ++ e :: after)
    (hbefore : ∀ x ∈ before, ¬ (x.lineNo = line ∧ x.isMatch env msg = true ∧ x.kind = kind))
    (he : e.lineNo = line ∧ e.isMatch env msg = true ∧ e.kind = kind) :
    self.process P env senv loc msg kind
      = ({ (SourceMgrDiagnosticVerifierHandler.getDiags env senv self loc.findInstanceOf).1 with
            impl := (SourceMgrDiagnosticVerifierHandler.getDiags env senv self
                loc.findInstanceOf).1.impl.writeDiags
              (SourceMgrDiagnosticVerifierHandler.getDiags env senv self
                loc.findInstanceOf).2.1
              (before ++ { e with matched := true } :: after) },
          (SourceMgrDiagnosticVerifierHandler.getDiags env senv self
            loc.findInstanceOf).2.2) ∧
    (self.process P env senv loc msg kind).1.impl.readDiags
        (SourceMgrDiagnosticVerifierHandler.getDiags env senv self loc.findInstanceOf).2.1
      = before ++ { e with matched := true } :: after ∧
    (self.process P env senv loc msg kind).1.impl.status
      = (SourceMgrDiagnosticVerifierHandler.getDiags env senv self
          loc.findInstanceOf).1.impl.status ∧
    (∀ diags, self.impl.getExpectedDiags filename = some diags →
      diags = before ++ e :: after ∧
      self.process P env senv loc msg kind
        = ({ self with impl := { self.impl with
              expectedDiagsPerFile := self.impl.expectedDiagsPerFile.update filename
                (before ++ { e with matched := true } :: after) } }, []) ∧
      (self.process P env senv loc msg kind).1.impl.status = self.impl.status) ∧
    (self.impl.getExpectedDiags filename = none →
      (SourceMgrDiagnosticVerifierHandler.getDiags env senv self loc.findInstanceOf).1.impl
        = (self.impl.computeExpectedDiags env
            (self.base.getBufferForFile senv filename).1).1 ∧
      (SourceMgrDiagnosticVerifierHandler.getDiags env senv self loc.findInstanceOf).2.2
        = (self.impl.computeExpectedDiags env
            (self.base.getBufferForFile senv filename).1).2.2.map SMOutput.PrintMessage) ∧
    ((self.process P env senv loc msg kind).1.impl.status = LogicalResult.success →
      (∀ pair ∈ (self.process P env senv loc msg kind).1.impl.expectedDiagsPerFile,
        ∀ x ∈ pair.2, x.matched = true) →
      (∀ x ∈ (self.process P env senv loc msg kind).1.impl.expectedUnknownLocDiags,
        x.matched = true) →
      (self.process P env senv loc msg kind).1.verify.1 = LogicalResult.success) := by
  have hcand : ∀ x : ExpectedDiag,
      x.isCandidate env (loc.findInstanceOf.map (fun fileLoc => fileLoc.2.1)) msg = true ↔
        x.lineNo = line ∧ x.isMatch env msg = true := by
    intro x
    simp only [ExpectedDiag.isCandidate, hloc, Option.map_some', Bool.and_eq_true,
      beq_iff_eq]
    constructor
    · intro h; exact ⟨h.1.symm, h.2⟩
    · intro h; exact ⟨h.1.symm, h.2⟩
  have hp := SourceMgrDiagnosticVerifierHandler.process_of_hit P env senv self loc msg kind
    before after e hdiags
    (fun x hx hcx hkx => hbefore x hx ⟨((hcand x).mp hcx).1, ((hcand x).mp hcx).2, hkx⟩)
    ((hcand e).mpr ⟨he.1, he.2.1⟩) he.2.2
  have hne : (SourceMgrDiagnosticVerifierHandler.getDiags env senv self
      loc.findInstanceOf).1.impl.readDiags
        (SourceMgrDiagnosticVerifierHandler.getDiags env senv self loc.findInstanceOf).2.1
      ≠ [] := by
    rw [hdiags]; simp
  refine ⟨hp, ?_, ?_, ?_, ?_, ?_⟩
  · rw [hp]
    exact SourceMgrDiagnosticVerifierHandlerImpl.readDiags_writeDiags _ _ _ hne
  · rw [hp]
    exact (SourceMgrDiagnosticVerifierHandlerImpl.writeDiags_status _ _ _).1
  · intro diags hc
    have hG := SourceMgrDiagnosticVerifierHandler.getDiags_cached env senv self filename line
      column diags hc
    rw [hloc, hG] at hdiags hp
    have hread : self.impl.readDiags (DiagsRef.perFile filename) = diags := by
      simp only [SourceMgrDiagnosticVerifierHandlerImpl.readDiags]
      have : self.impl.expectedDiagsPerFile.get? filename = some diags := hc
      rw [this]
      rfl
    have hd : diags = before ++ e :: after := by
      rw [← hread]; exact hdiags
    refine ⟨hd, ?_, ?_⟩
    · rw [hp]; rfl
    · rw [hp]; rfl
  · intro hc
    rw [hloc]
    exact SourceMgrDiagnosticVerifierHandler.getDiags_lazy env senv self filename line column hc
  · intro hs h1 h2
    exact (SourceMgrDiagnosticVerifierHandler.verify_result _).1.mpr ⟨hs, h1, h2⟩

set_option maxRecDepth 100000 in
/-- Witness of C25 (amended): the one line of the buffer is
`// expected-error {{cannot find 'foo'}}`. The verifier built on it processes an error with
the message `cannot find 'foo'` on line 1, which marks the expected diagnostic and writes
nothing, and `verify` returns success; the same holds for the verifier that has to compute the
expected diagnostics of the buffer when it processes the error. -/
theorem process_marks_first_match_witness :
    ((Example.verifier Level.All [Example.bufFoo]).process Example.printer Example.env
      Example.senv (Location.FileLineColLoc "foo.mlir" 1 1) "cannot find 'foo'"
      DiagnosticSeverity.Error).2 = [] ∧
    ((Example.verifier Level.All [Example.bufFoo]).process Example.printer Example.env
      Example.senv (Location.FileLineColLoc "foo.mlir" 1 1) "cannot find 'foo'"
      DiagnosticSeverity.Error).1.impl.status
      = (Example.verifier Level.All [Example.bufFoo]).impl.status ∧
    ((Example.verifier Level.All [Example.bufFoo]).process Example.printer Example.env
      Example.senv (Location.FileLineColLoc "foo.mlir" 1 1) "cannot find 'foo'"
      DiagnosticSeverity.Error).1.verify.1 = LogicalResult.success ∧
    (Example.verifierLazy.process Example.printer Example.env
      Example.senv (Location.FileLineColLoc "foo.mlir" 1 1) "cannot find 'foo'"
      DiagnosticSeverity.Error).1.impl.readDiags (DiagsRef.perFile "foo.mlir")
      = [⟨DiagnosticSeverity.Error, 1, some 3, true, "cannot find 'foo'", none⟩] := by
  obtain ⟨_, _, _, h4, _, h6⟩ := process_marks_first_match Example.printer Example.env
    Example.senv (Example.verifier Level.All [Example.bufFoo])
    (Location.FileLineColLoc "foo.mlir" 1 1) "cannot find 'foo'" DiagnosticSeverity.Error
    "foo.mlir" 1 1 [] [] ⟨DiagnosticSeverity.Error, 1, some 3, false, "cannot find 'foo'", none⟩
    (by decide) (by decide) (by simp) (by decide)
  obtain ⟨_, h42, h43⟩ := h4 _ (by decide :
    (Example.verifier Level.All [Example.bufFoo]).impl.getExpectedDiags "foo.mlir"
      = some [⟨DiagnosticSeverity.Error, 1, some 3, false, "cannot find 'foo'", none⟩])
  have hlazy := (process_marks_first_match Example.printer Example.env
    Example.senv Example.verifierLazy
    (Location.FileLineColLoc "foo.mlir" 1 1) "cannot find 'foo'" DiagnosticSeverity.Error
    "foo.mlir" 1 1 [] [] ⟨DiagnosticSeverity.Error, 1, some 3, false, "cannot find 'foo'", none⟩
    (by decide) (by decide) (by simp) (by decide)).2.1
  exact ⟨by rw [h42], h43, h6 (by decide) (by rw [h42]; decide) (by rw [h42]; decide), hlazy⟩

/-! ## Claims on a diagnostic whose severity no candidate has -/

set_option maxRecDepth 100000 in
/-- C26, as stated, fails for the level OnlyExpected: the verifier built on the one line
`// expected-warning {{m}}` processes an error with the message m on line 1. The one expected
diagnostic is on that line and its pattern matches the message, and it has another kind, but
`process` leaves the status at success and writes nothing. -/
theorem severity_mismatch_counterexample :
    (Example.verifier Level.OnlyExpected [Example.bufWarn]).impl.getExpectedDiags "warn.mlir"
      = some [⟨DiagnosticSeverity.Warning, 1, some 3, false, "m", none⟩] ∧
    (⟨DiagnosticSeverity.Warning, 1, some 3, false, "m", none⟩ : ExpectedDiag).isMatch
      Example.env "m" = true ∧
    (Example.verifier Level.OnlyExpected [Example.bufWarn]).impl.status
      = LogicalResult.success ∧
    ((Example.verifier Level.OnlyExpected [Example.bufWarn]).process Example.printer
      Example.env Example.senv (Location.FileLineColLoc "warn.mlir" 1 1) "m"
      DiagnosticSeverity.Error).1.impl.status = LogicalResult.success ∧
    ((Example.verifier Level.OnlyExpected [Example.bufWarn]).process Example.printer
      Example.env Example.senv (Location.FileLineColLoc "warn.mlir" 1 1) "m"
      DiagnosticSeverity.Error).2 = [] := by
  decide

/-- C26 (amended): let the array `diags` that `process` finds for a diagnostic (the expected
diagnostics of its file, computed first when the file has not been scanned yet, or those of
unknown location) hold a candidate, an expected diagnostic on the line of the diagnostic whose
pattern matches the message, and let no candidate have the kind of the diagnostic. If the
level is not OnlyExpected, `process` sets the status to failure and prints, at the anchor of
the last of the candidates, the error
"'<kind>' diagnostic emitted when expecting a '<kind of the candidate>'". If the level is
OnlyExpected, `process` itself sets no status and prints nothing: the verifier and what was
written are those that finding the array left. Finding the array changes nothing and prints
nothing when the diagnostic has no file location or the expected diagnostics of its file have
been computed; when `process` has to compute them, the status and what is written are those
of `computeExpectedDiags` on the buffer found for the file. At either level no expected
diagnostic is marked: the collections are those that finding the array left, in which every
expected diagnostic has the mark it had before the call and the ones that the scan has added
are not marked. -/
theorem process_severity_mismatch (P : ValuePrinter) (env : VerifierEnv)
    (senv : SourceMgrEnv) (self : SourceMgrDiagnosticVerifierHandler) (loc : Location)
    (msg : String) (kind : DiagnosticSeverity)
    (hcand : ∃ x ∈ (SourceMgrDiagnosticVerifierHandler.getDiags env senv self
          loc.findInstanceOf).1.impl.readDiags
        (SourceMgrDiagnosticVerifierHandler.getDiags env senv self loc.findInstanceOf).2.1,
      x.isCandidate env (loc.findInstanceOf.map (fun fileLoc => fileLoc.2.1)) msg = true)
    (hnone : ∀ x ∈ (SourceMgrDiagnosticVerifierHandler.getDiags env senv self
          loc.findInstanceOf).1.impl.readDiags
        (SourceMgrDiagnosticVerifierHandler.getDiags env senv self loc.findInstanceOf).2.1,
      x.isCandidate env (loc.findInstanceOf.map (fun fileLoc => fileLoc.2.1)) msg = true →
        x.kind ≠ kind) :
    (self.impl.level ≠ Level.OnlyExpected →
      ∃ front nearMiss back,
        (SourceMgrDiagnosticVerifierHandler.getDiags env senv self
            loc.findInstanceOf).1.impl.readDiags
          (SourceMgrDiagnosticVerifierHandler.getDiags env senv self loc.findInstanceOf).2.1
          = front ++ nearMiss :: back ∧
        nearMiss.isCandidate env (loc.findInstanceOf.map (fun fileLoc => fileLoc.2.1)) msg
          = true ∧
        (∀ x ∈ back,
          x.isCandidate env (loc.findInstanceOf.map (fun fileLoc => fileLoc.2.1)) msg
            = false) ∧
        self.process P env senv loc msg kind
          = (⟨(SourceMgrDiagnosticVerifierHandler.getDiags env senv self
                loc.findInstanceOf).1.base,
              { (SourceMgrDiagnosticVerifierHandler.getDiags env senv self
                  loc.findInstanceOf).1.impl with status := LogicalResult.failure }⟩,
            (SourceMgrDiagnosticVerifierHandler.getDiags env senv self
                loc.findInstanceOf).2.2 ++
              [SMOutput.PrintMessage ⟨nearMiss.fileLoc, DiagKind.DK_Error,
                "'" ++ getDiagKindStr kind ++ "' diagnostic emitted when expecting a '" ++
                  getDiagKindStr nearMiss.kind ++ "'", none⟩])) ∧
    (self.impl.level = Level.OnlyExpected →
      self.process P env senv loc msg kind
        = ((SourceMgrDiagnosticVerifierHandler.getDiags env senv self loc.findInstanceOf).1,
          (SourceMgrDiagnosticVerifierHandler.getDiags env senv self
            loc.findInstanceOf).2.2)) ∧
    (self.process P env senv loc msg kind).1.impl.expectedDiagsPerFile
      = (SourceMgrDiagnosticVerifierHandler.getDiags env senv self
          loc.findInstanceOf).1.impl.expectedDiagsPerFile ∧
    (self.process P env senv loc msg kind).1.impl.expectedUnknownLocDiags
      = (SourceMgrDiagnosticVerifierHandler.getDiags env senv self
          loc.findInstanceOf).1.impl.expectedUnknownLocDiags ∧
    (loc.findInstanceOf = none ∨
      (∃ filename line column diags, loc.findInstanceOf = some (filename, line, column) ∧
        self.impl.getExpectedDiags filename = some diags) →
      (SourceMgrDiagnosticVerifierHandler.getDiags env senv self loc.findInstanceOf).1 = self ∧
      (SourceMgrDiagnosticVerifierHandler.getDiags env senv self loc.findInstanceOf).2.2
        = []) ∧
    (∀ filename line column, loc.findInstanceOf = some (filename, line, column) →
      self.impl.getExpectedDiags filename = none →
      (SourceMgrDiagnosticVerifierHandler.getDiags env senv self loc.findInstanceOf).1.impl
        = (self.impl.computeExpectedDiags env
            (self.base.getBufferForFile senv filename).1).1 ∧
      (SourceMgrDiagnosticVerifierHandler.getDiags env senv self loc.findInstanceOf).2.2
        = (self.impl.computeExpectedDiags env
            (self.base.getBufferForFile senv filename).1).2.2.map SMOutput.PrintMessage) ∧
    (∀ ref, ∃ k,
      ((self.process P env senv loc msg kind).1.impl.readDiags ref).map (fun e => e.matched)
        = (self.impl.readDiags ref).map (fun e => e.matched) ++ List.replicate k false) := by
  have hp := SourceMgrDiagnosticVerifierHandler.process_of_miss P env senv self loc msg kind
    hnone
  have hlevel := (SourceMgrDiagnosticVerifierHandler.getDiags_level_status env senv self
    loc.findInstanceOf).1
  obtain ⟨front, y, back, hsplit, hcy, hback, hfold⟩ :=
    SourceMgrDiagnosticVerifierHandler.nearMiss_of_candidate env
      (loc.findInstanceOf.map (fun fileLoc => fileLoc.2.1)) msg _ none hcand
  rw [hfold] at hp
  have hper : (self.process P env senv loc msg kind).1.impl.expectedDiagsPerFile
      = (SourceMgrDiagnosticVerifierHandler.getDiags env senv self
          loc.findInstanceOf).1.impl.expectedDiagsPerFile := by
    rw [hp]; split_ifs <;> rfl
  have hunk : (self.process P env senv loc msg kind).1.impl.expectedUnknownLocDiags
      = (SourceMgrDiagnosticVerifierHandler.getDiags env senv self
          loc.findInstanceOf).1.impl.expectedUnknownLocDiags := by
    rw [hp]; split_ifs <;> rfl
  refine ⟨?_, ?_, hper, hunk, ?_, ?_, ?_⟩
  · intro hl
    rw [← hlevel] at hl
    rw [if_neg hl] at hp
    exact ⟨front, y, back, hsplit, hcy, hback, hp⟩
  · intro hl
    rw [← hlevel] at hl
    rw [if_pos hl] at hp
    exact hp
  · rintro (h | ⟨filename, line, column, diags, h1, h2⟩)
    · rw [h, SourceMgrDiagnosticVerifierHandler.getDiags_none]
      exact ⟨rfl, rfl⟩
    · rw [h1, SourceMgrDiagnosticVerifierHandler.getDiags_cached env senv self filename line
        column diags h2]
      exact ⟨rfl, rfl⟩
  · intro filename line column h1 h2
    rw [h1]
    exact SourceMgrDiagnosticVerifierHandler.getDiags_lazy env senv self filename line column h2
  · intro ref
    obtain ⟨k, hk⟩ := SourceMgrDiagnosticVerifierHandler.getDiags_matched env senv self
      loc.findInstanceOf ref
    refine ⟨k, ?_⟩
    rw [← hk]
    cases ref with
    | empty => rfl
    | unknownLoc =>
      simp only [SourceMgrDiagnosticVerifierHandlerImpl.readDiags, hunk]
    | perFile bufName =>
      simp only [SourceMgrDiagnosticVerifierHandlerImpl.readDiags, hper]

set_option maxRecDepth 100000 in
/-- Witness of C26 (amended): at the level All the verifier built on the one line
`// expected-warning {{m}}` sets the status to failure for an error with the message m on
line 1 and prints one error at the anchor of the expected diagnostic. At the level
OnlyExpected the verifier that has to scan `re2.mlir` for an error with the message w on
line 2 prints what the scan prints, the error on the annotation of line 1, and the status is
the failure that the scan has set. -/
theorem process_severity_mismatch_witness :
    ((Example.verifier Level.All [Example.bufWarn]).process Example.printer Example.env
      Example.senv (Location.FileLineColLoc "warn.mlir" 1 1) "m"
      DiagnosticSeverity.Error).1.impl.status = LogicalResult.failure ∧
    ((Example.verifier Level.All [Example.bufWarn]).process Example.printer Example.env
      Example.senv (Location.FileLineColLoc "warn.mlir" 1 1) "m" DiagnosticSeverity.Error).2
      = [SMOutput.PrintMessage ⟨some 3, DiagKind.DK_Error,
          "'error' diagnostic emitted when expecting a 'warning'", none⟩] ∧
    ((Example.verifier Level.All [Example.bufWarn]).process Example.printer Example.env
      Example.senv (Location.FileLineColLoc "warn.mlir" 1 1) "m"
      DiagnosticSeverity.Error).1.impl.expectedDiagsPerFile
      = (Example.verifier Level.All [Example.bufWarn]).impl.expectedDiagsPerFile ∧
    ((Example.verifierAdded Level.OnlyExpected [Example.bufUnterminatedThen]).process
      Example.printer Example.env Example.senv (Location.FileLineColLoc "re2.mlir" 2 1) "w"
      DiagnosticSeverity.Error).2
      = [SMOutput.PrintMessage ⟨some 3, DiagKind.DK_Error,
          "found start of regex with no end '\x7d\x7d'", some (some 3, some 11)⟩] ∧
    ((Example.verifierAdded Level.OnlyExpected [Example.bufUnterminatedThen]).process
      Example.printer Example.env Example.senv (Location.FileLineColLoc "re2.mlir" 2 1) "w"
      DiagnosticSeverity.Error).1.impl.status = LogicalResult.failure := by
  obtain ⟨h1, _, h3, _, h5, _, _⟩ := process_severity_mismatch Example.printer Example.env
    Example.senv (Example.verifier Level.All [Example.bufWarn])
    (Location.FileLineColLoc "warn.mlir" 1 1) "m" DiagnosticSeverity.Error
    ⟨⟨DiagnosticSeverity.Warning, 1, some 3, false, "m", none⟩, by decide, by decide⟩
    (by decide)
  have hlazy := (process_severity_mismatch Example.printer Example.env
    Example.senv (Example.verifierAdded Level.OnlyExpected [Example.bufUnterminatedThen])
    (Location.FileLineColLoc "re2.mlir" 2 1) "w" DiagnosticSeverity.Error
    ⟨⟨DiagnosticSeverity.Warning, 2, some 37, false, "w", none⟩, by decide, by decide⟩
    (by decide)).2.1 (by decide)
  refine ⟨by decide, by decide, ?_, ?_, ?_⟩
  · rw [h3, (h5 (Or.inr ⟨"warn.mlir", 1, 1,
      [⟨DiagnosticSeverity.Warning, 1, some 3, false, "m", none⟩], rfl, by decide⟩)).1]
  · rw [hlazy]; decide
  · rw [hlazy]; decide

/-! ## Claims on processing a diagnostic a second time -/

set_option maxRecDepth 100000 in
/-- C35: the file foo.mlir is not among the buffers of the source manager and is opened from
an include directory, so its buffer has the identifier inc/foo.mlir; its one line is
`// expected-error {{cannot find 'foo'}}`. A verifier of the level All processes the error
`cannot find 'foo'` at foo.mlir:1:1 twice. The first call scans the buffer, files the expected
diagnostic under inc/foo.mlir and marks it; `verify` would return success. The second call
finds no collection under foo.mlir, scans the buffer again and appends the expected
diagnostic a second time, not marked: the verifier is not the one that the first call left,
and `verify` returns failure. -/
theorem process_twice_rescans :
    ((Example.verifier Level.All []).process Example.printer Example.env Example.senvInclude
      (Location.FileLineColLoc "foo.mlir" 1 1) "cannot find 'foo'"
      DiagnosticSeverity.Error).1.impl.expectedDiagsPerFile
      = [("inc/foo.mlir",
          [⟨DiagnosticSeverity.Error, 1, some 3, true, "cannot find 'foo'", none⟩])] ∧
    ((Example.verifier Level.All []).process Example.printer Example.env Example.senvInclude
      (Location.FileLineColLoc "foo.mlir" 1 1) "cannot find 'foo'"
      DiagnosticSeverity.Error).1.impl.getExpectedDiags "foo.mlir" = none ∧
    ((Example.verifier Level.All []).process Example.printer Example.env Example.senvInclude
      (Location.FileLineColLoc "foo.mlir" 1 1) "cannot find 'foo'"
      DiagnosticSeverity.Error).1.verify.1 = LogicalResult.success ∧
    (((Example.verifier Level.All []).process Example.printer Example.env Example.senvInclude
      (Location.FileLineColLoc "foo.mlir" 1 1) "cannot find 'foo'"
      DiagnosticSeverity.Error).1.process Example.printer Example.env Example.senvInclude
      (Location.FileLineColLoc "foo.mlir" 1 1) "cannot find 'foo'"
      DiagnosticSeverity.Error).1.impl.expectedDiagsPerFile
      = [("inc/foo.mlir",
          [⟨DiagnosticSeverity.Error, 1, some 3, true, "cannot find 'foo'", none⟩,
            ⟨DiagnosticSeverity.Error, 1, some 3, false, "cannot find 'foo'", none⟩])] ∧
    (((Example.verifier Level.All []).process Example.printer Example.env Example.senvInclude
      (Location.FileLineColLoc "foo.mlir" 1 1) "cannot find 'foo'"
      DiagnosticSeverity.Error).1.process Example.printer Example.env Example.senvInclude
      (Location.FileLineColLoc "foo.mlir" 1 1) "cannot find 'foo'"
      DiagnosticSeverity.Error).1.verify.1 = LogicalResult.failure := by
  decide

end mlir
